import Mathlib

/-!
# ARCS: alignment-to-graph pipeline of `Arcs_work.cpp`

A shallow embedding of the linking pipeline of `src/Arcs_work.cpp`
(`calcSequenceIdentity`, `readBAM`, `headOrTail`, `pairContigs`,
`getMaxValueAndIndex`, `checkSignificance`, `createGraph`,
`removeDegreeNodes`, `writePostRemovalGraph`) together with theorems about
it.

Conventions of the embedding.

* `std::string` is `String`; `operator<` on strings is the lexicographic
  order of the character lists (`strLt`).
* `int` is `Int`.  Arithmetic on values that come from the input (the sum of
  two positions, the product `end_length * 2`, the sum of the lengths of the
  CIGAR runs, the difference `qalen - edit_dist`) is reduced to 32 bits by
  `wrapInt`.  The counters of the program are only ever incremented by one
  per input record, and their wrap-around is not modelled.
* `std::map` is a list of key/value pairs kept in key order by `mapSet`;
  `std::unordered_map` is a list of key/value pairs whose order is the
  (unspecified) iteration order; a new key is appended.
* The floating point test `1 - normalEstimation(x, 0.5, n) < params.error_percent`
  is a field of the parameters (`normalTest`), so every theorem holds for
  whatever the floating point unit answers.
* `calcSequenceIdentity` is defined over the operations of `double` it uses
  (`DoubleOps`); `binary64` gives them as IEEE 754 binary64 with rounding to
  nearest even.
-/

namespace ARCS

/-! ## Containers -/

/-- Lookup of a key, as `m.find(k)`: the value of the first entry with key `k`. -/
def mapFind {κ ν : Type} [DecidableEq κ] (m : List (κ × ν)) (k : κ) : Option ν :=
  match m with
  | [] => none
  | (k1, v) :: t => if k1 = k then some v else mapFind t k

/-- Store `m[k] = v` in a map ordered by `lt`: the entry with key `k` is
replaced, or a new entry is put in front of the first larger key.  With
`lt` constantly `false` the new entry goes to the end, which is the model of
`std::unordered_map`. -/
def mapSet {κ ν : Type} [DecidableEq κ] (lt : κ → κ → Bool) (m : List (κ × ν)) (k : κ) (v : ν) :
    List (κ × ν) :=
  match m with
  | [] => [(k, v)]
  | (k1, v1) :: t =>
    if k1 = k then (k, v) :: t
    else if lt k k1 then (k, v) :: (k1, v1) :: t
    else (k1, v1) :: mapSet lt t k v

/-- Number of entries with key `k` reported by `m.count(k)` (0 or 1). -/
def mapCount {κ ν : Type} [DecidableEq κ] (m : List (κ × ν)) (k : κ) : Nat :=
  if (mapFind m k).isSome then 1 else 0

/-- Read access `m[k]`: the stored value, or the default `d`, which
`operator[]` then also stores under `k`. -/
def mapAt {κ ν : Type} [DecidableEq κ] (lt : κ → κ → Bool) (m : List (κ × ν)) (k : κ) (d : ν) :
    ν × List (κ × ν) :=
  match mapFind m k with
  | some v => (v, m)
  | none => (d, mapSet lt m k d)

/-- Read-modify-write access `m[k] = f (m[k])`, with `d` the value a fresh
entry starts from. -/
def mapUpd {κ ν : Type} [DecidableEq κ] (lt : κ → κ → Bool) (m : List (κ × ν)) (k : κ) (d : ν)
    (f : ν → ν) : List (κ × ν) :=
  mapSet lt m k (f ((mapFind m k).getD d))

/-- Order of an unordered map: no key is ever placed before another one. -/
def noLt {κ : Type} (_ _ : κ) : Bool := false

/-- Lexicographic `operator<` of `std::string`. -/
def strLt (a b : String) : Bool := decide (a.data < b.data)

/-! ## Data model (`Arcs_work.h`) -/

/-- Key of a `ScafMap`: scaffold id and end (`true` is Head, `false` is Tail). -/
abbrev ScafKey := String × Bool

/-- ScafMap: `std::map<std::pair<std::string, bool>, int>`. -/
abbrev ScafMap := List (ScafKey × Int)

/-- IndexMap: `std::unordered_map<std::string, ScafMap>`. -/
abbrev IndexMap := List (String × ScafMap)

/-- Key of a `PairMap`: a pair of scaffold ids. -/
abbrev PairKey := String × String

/-- PairMap: `std::map<std::pair<std::string, std::string>, std::vector<int>>`. -/
abbrev PairMap := List (PairKey × List Int)

/-- Maps from a name to an `int` (`indexMultMap`, `sMap`):
`std::unordered_map<std::string, int>`. -/
abbrev CountMap := List (String × Int)

/-- Order of `std::pair<std::string, bool>` (`false < true`). -/
def scafKeyLt (x y : ScafKey) : Bool :=
  strLt x.1 y.1 || (decide (x.1 = y.1) && (!x.2 && y.2))

/-- Order of `std::pair<std::string, std::string>`. -/
def pairKeyLt (x y : PairKey) : Bool :=
  strLt x.1 y.1 || (decide (x.1 = y.1) && strLt x.2 y.2)

/-- Parameters controlling a run (`ArcsParams`), with the outcome of the
floating point comparison `1 - normalEstimation(x, 0.5, n) < error_percent`
as the field `normalTest x n`. -/
structure ArcsParams where
  seq_id : Int
  min_reads : Int
  min_links : Int
  min_size : Int
  min_mult : Int
  max_mult : Int
  max_degree : Int
  end_length : Int
  normalTest : Int → Int → Bool

/-! ## Head/tail classifier and pairing (`headOrTail`, `pairContigs`) -/

/-- Function `headOrTail(head, tail)`: `(significant, favours head)`. -/
def headOrTail (P : ArcsParams) (head tail : Int) : Bool × Bool :=
  let mx := max head tail
  let sum := head + tail
  if sum < P.min_reads then (false, false)
  else if P.normalTest mx sum then (true, decide (mx = head))
  else (false, false)

/-- Statement `v[i]++` on a `std::vector<int>`. -/
def vecInc (v : List Int) (i : Nat) : List Int :=
  match v, i with
  | [], _ => []
  | x :: t, 0 => (x + 1) :: t
  | x :: t, i + 1 => x :: vecInc t i

/-- Body of the two nested loops of `pairContigs`, for the positions
`o->first = ko` and `p->first = kp` in the `ScafMap` of one barcode. -/
def pairBody (P : ArcsParams) (ko kp : ScafKey) (st : ScafMap × PairMap) : ScafMap × PairMap :=
  let scafA := ko.1
  let scafAflag := ko.2
  let scafB := kp.1
  let scafBflag := kp.2
  if strLt scafA scafB && scafAflag && scafBflag then
    let a1 := mapAt scafKeyLt st.1 (scafA, true) 0
    let a2 := mapAt scafKeyLt a1.2 (scafA, false) 0
    let rA := headOrTail P a1.1 a2.1
    let b1 := mapAt scafKeyLt a2.2 (scafB, true) 0
    let b2 := mapAt scafKeyLt b1.2 (scafB, false) 0
    let rB := headOrTail P b1.1 b2.1
    let validA := rA.1
    let scafAhead := rA.2
    let validB := rB.1
    let scafBhead := rB.2
    if validA && validB then
      let pair : PairKey := (scafA, scafB)
      let pm := if mapCount st.2 pair = 0 then mapSet pairKeyLt st.2 pair [0, 0, 0, 0] else st.2
      if scafAhead && scafBhead then (b2.2, mapUpd pairKeyLt pm pair [] (fun v => vecInc v 0))
      else if scafAhead && !scafBhead then (b2.2, mapUpd pairKeyLt pm pair [] (fun v => vecInc v 1))
      else if !scafAhead && scafBhead then (b2.2, mapUpd pairKeyLt pm pair [] (fun v => vecInc v 2))
      else if !scafAhead && !scafBhead then (b2.2, mapUpd pairKeyLt pm pair [] (fun v => vecInc v 3))
      else (b2.2, pm)
    else (b2.2, st.2)
  else st

/-- Inner loop `for (p = it->second.begin(); ...)` over the keys `ks`. -/
def pairInner (P : ArcsParams) (ko : ScafKey) (ks : List ScafKey) (st : ScafMap × PairMap) :
    ScafMap × PairMap :=
  ks.foldl (fun s kp => pairBody P ko kp s) st

/-- Outer loop `for (o = it->second.begin(); ...)` over the keys `os`, the
inner loop running over `ks`.

Both loops walk the keys the `ScafMap` has when the barcode is entered.  The
only keys the body can add are Tail keys `(s, false)` (through `operator[]`),
and the body does nothing at a position whose flag is `false`, so walking
the keys present at entry performs the same updates as walking the map
while it grows. -/
def pairOuter (P : ArcsParams) (os ks : List ScafKey) (st : ScafMap × PairMap) :
    ScafMap × PairMap :=
  os.foldl (fun s ko => pairInner P ko ks s) st

/-- State of `pairContigs`: the entries of `imap` already visited (they are
updated in place), `pmap` and `indexMultMap`. -/
structure PairState where
  imap : IndexMap
  pmap : PairMap
  mult : CountMap

/-- One iteration of the loop over `imap` in `pairContigs`, at the entry
`(index, sm)`. -/
def pairStep (P : ArcsParams) (st : PairState) (e : String × ScafMap) : PairState :=
  let index := e.1
  let r := mapAt noLt st.mult index 0
  let indexMult := r.1
  if P.min_mult ≤ indexMult ∧ indexMult ≤ P.max_mult then
    let ks := e.2.map Prod.fst
    let q := pairOuter P ks ks (e.2, st.pmap)
    { imap := st.imap ++ [(index, q.1)], pmap := q.2, mult := r.2 }
  else
    { imap := st.imap ++ [e], pmap := st.pmap, mult := r.2 }

/-- Function `pairContigs(imap, pmap, indexMultMap)`; the three arguments are
passed by reference and the result holds their final values. -/
def pairContigs (P : ArcsParams) (imap : IndexMap) (pmap : PairMap) (mult : CountMap) :
    PairState :=
  imap.foldl (pairStep P) { imap := [], pmap := pmap, mult := mult }

/-! ## Alignment stream classifier and paired-record linker (`readBAM`) -/

/-- Function `checkIndex(seq)`: only the letters A, T, G, C in either case. -/
def checkIndex (seq : String) : Bool :=
  seq.data.all (fun ch =>
    let c := ch.toUpper
    !(c != 'A' && c != 'T' && c != 'G' && c != 'C'))

/-- Function `checkFlag(flag)`: the SAM flag is one of the accepted ones. -/
def checkFlag (flag : Int) : Bool :=
  flag == 99 || flag == 163 || flag == 83 || flag == 147

/-- One alignment line, as `readBAM` parses it with `operator>>`, together
with the value `si` that `int si = calcSequenceIdentity(line, cigar, seq)`
gets for it (a floating point computation truncated to `int`). -/
structure SamRecord where
  readName : String
  flag : Int
  scafName : String
  pos : Int
  mapq : Int
  cigar : String
  seq : String
  si : Int

/-- A line of an alignment file: a header line (first character `@`) or a
record. -/
inductive SamLine where
  | header : SamLine
  | record : SamRecord → SamLine

/-- Index parsed from a read name: `readName.substr(found + 1)` for the first
underscore, the empty string when there is none. -/
def readNameSpl (readName : String) : String :=
  if readName.data.contains '_' then
    String.mk ((readName.data.dropWhile (fun c => c != '_')).drop 1)
  else ""

/-- Value of the local variable `index` of `readBAM` for a read name. -/
def indexOf (readName : String) : String :=
  if checkIndex (readNameSpl readName) then readNameSpl readName else ""

/-- Local variables of `readBAM` that live across lines, and the three maps. -/
structure ReadState where
  prevRN : String
  readyToAddIndex : String
  prevRef : String
  readyToAddRefName : String
  prevSI : Int
  prevFlag : Int
  prevMapq : Int
  prevPos : Int
  readyToAddPos : Int
  ct : Int
  countUnpaired : Nat
  imap : IndexMap
  indexMultMap : CountMap
  sMap : CountMap

/-- State of `readBAM` before the first line. -/
def initState (imap : IndexMap) (indexMultMap sMap : CountMap) : ReadState :=
  { prevRN := "", readyToAddIndex := "", prevRef := "", readyToAddRefName := "",
    prevSI := 0, prevFlag := 0, prevMapq := 0, prevPos := -1, readyToAddPos := -1,
    ct := 1, countUnpaired := 0, imap := imap, indexMultMap := indexMultMap, sMap := sMap }

/-- Statements `imap[index][key]++; if (imap[index].count(keyR) == 0)
imap[index][keyR] = 0;`. -/
def addHit (imap : IndexMap) (index : String) (key keyR : ScafKey) : IndexMap :=
  let im1 := mapUpd noLt imap index [] (fun sm => mapUpd scafKeyLt sm key 0 (fun n => n + 1))
  let r := mapAt noLt im1 index []
  if mapCount r.1 keyR = 0 then
    mapUpd noLt r.2 index [] (fun sm => mapSet scafKeyLt sm keyR 0)
  else r.2

/-- Value that a 32-bit `int` holds after an arithmetic operation whose exact
result is `x`: two's complement wrap-around into `[-2^31, 2^31)`. -/
def wrapInt (x : Int) : Int :=
  (x + 2147483648) % 4294967296 - 2147483648

/-- Cut-off between the end regions of a scaffold of length `size`:
`int cutOff = params.end_length; if (cutOff == 0 || size <= cutOff * 2)
cutOff = size/2;`, the product `cutOff * 2` being a 32-bit `int`. -/
def cutOffOf (P : ArcsParams) (size : Int) : Int :=
  if P.end_length = 0 ∨ size ≤ wrapInt (P.end_length * 2) then Int.tdiv size 2
  else P.end_length

/-- Block of `readBAM` guarded by `if (!readyToAddIndex.empty() && ...)`:
the pending pair is added to `imap` and the pending fields are cleared. -/
def flush (P : ArcsParams) (s : ReadState) : ReadState :=
  if s.readyToAddIndex != "" && s.readyToAddRefName != "" && s.readyToAddRefName != "*"
      && s.readyToAddPos != -1 then
    let r := mapAt noLt s.sMap s.readyToAddRefName 0
    let size := r.1
    let imap1 :=
      if P.min_size ≤ size then
        let cutOff := cutOffOf P size
        let key : ScafKey := (s.readyToAddRefName, true)
        let keyR : ScafKey := (s.readyToAddRefName, false)
        if s.readyToAddPos ≤ cutOff then addHit s.imap s.readyToAddIndex key keyR
        else if size - cutOff < s.readyToAddPos then addHit s.imap s.readyToAddIndex keyR key
        else s.imap
      else s.imap
    { s with imap := imap1, sMap := r.2, readyToAddIndex := "", readyToAddRefName := "",
             readyToAddPos := -1 }
  else s

/-- Condition under which the branch `ct == 2` of `readBAM` stores the pair
of the held first mate and the record `r` as ready to add. -/
def acceptPair (P : ArcsParams) (s : ReadState) (r : SamRecord) : Bool :=
  (r.seq != "" && checkFlag r.flag && checkFlag s.prevFlag
    && r.mapq != 0 && s.prevMapq != 0 && decide (P.seq_id ≤ r.si) && decide (P.seq_id ≤ s.prevSI))
  && (s.prevRef == r.scafName && r.scafName != "*" && r.scafName != "" && indexOf r.readName != "")

/-- Statement `if (!index.empty()) indexMultMap[index]++;`. -/
def countIndex (s : ReadState) (index : String) : ReadState :=
  if index != "" then
    { s with indexMultMap := mapUpd noLt s.indexMultMap index 0 (fun n => n + 1) }
  else s

/-- Block `if (ct == 2 && readName != prevRN) { ... ct = 1; }`: the held
first mate is skipped as unpaired. -/
def skipUnpaired (s : ReadState) (r : SamRecord) : ReadState :=
  if s.ct = 2 ∧ r.readName ≠ s.prevRN then
    { s with countUnpaired := s.countUnpaired + 1, ct := 1 }
  else s

/-- Statement `if (ct >= 3) ct = 1;`. -/
def wrapCt (s : ReadState) : ReadState :=
  if 3 ≤ s.ct then { s with ct := 1 } else s

/-- Statement `if (ct == 1) { ... } else if (ct == 2) { ... }` of `readBAM`,
with `index` the index parsed from the read name.  The sum in
`readyToAddPos = (prevPos + pos)/2` is a sum of two 32-bit `int`. -/
def pairing (P : ArcsParams) (s : ReadState) (r : SamRecord) (index : String) : ReadState :=
  if s.ct = 1 then
    if r.readName ≠ s.prevRN then
      flush P { s with prevRN := r.readName, prevSI := r.si, prevFlag := r.flag,
                       prevMapq := r.mapq, prevRef := r.scafName, prevPos := r.pos }
    else
      { s with ct := 0, readyToAddIndex := "", readyToAddRefName := "", readyToAddPos := -1 }
  else if s.ct = 2 then
    if acceptPair P s r then
      { s with readyToAddIndex := index, readyToAddRefName := r.scafName,
               readyToAddPos := Int.tdiv (wrapInt (s.prevPos + r.pos)) 2 }
    else s
  else s

/-- Body of the `while (getline(...))` loop of `readBAM` for one record. -/
def readRecord (P : ArcsParams) (s : ReadState) (r : SamRecord) : ReadState :=
  let index := indexOf r.readName
  let s4 := pairing P (wrapCt (skipUnpaired (countIndex s index) r)) r index
  { s4 with ct := s4.ct + 1 }

/-- Body of the `while (getline(...))` loop of `readBAM`: header lines are
skipped. -/
def readLine (P : ArcsParams) (s : ReadState) (l : SamLine) : ReadState :=
  match l with
  | SamLine.header => s
  | SamLine.record r => readRecord P s r

/-- Function `readBAM(bamName, imap, indexMultMap, sMap)` on the lines of
the opened file; `imap` and `indexMultMap` are passed by reference and are
read back from the final state, `sMap` is a copy local to the call. -/
def readBAM (P : ArcsParams) (lines : List SamLine) (imap : IndexMap) (indexMultMap sMap : CountMap) :
    ReadState :=
  lines.foldl (readLine P) (initState imap indexMultMap sMap)

/-! ## Graph builder (`getMaxValueAndIndex`, `checkSignificance`, `createGraph`) -/

/-- Function `getMaxValueAndIndex(array)`: the loop state is
`((max, index), i)`. -/
def getMaxValueAndIndex (array : List Int) : Int × Int :=
  (array.foldl
    (fun (s : (Int × Int) × Int) x => if s.1.1 < x then ((x, s.2), s.2 + 1) else (s.1, s.2 + 1))
    ((0, 0), 0)).1

/-- Function `checkSignificance(max, second)`. -/
def checkSignificance (P : ArcsParams) (mx second : Int) : Bool :=
  if mx < P.min_links then false else P.normalTest mx second

/-- Loop of `createGraph` computing `second` from `count` and `max`. -/
def secondOf (count : List Int) (mx : Int) : Int :=
  count.foldl (fun second c => if c ≠ mx ∧ second < c then c else second) 0

/-- Edge of the graph with its `EdgeProperties`; `src` and `tgt` are the
vertex descriptors it was added with. -/
structure Edge where
  src : Nat
  tgt : Nat
  orientation : Int
  weight : Int
deriving DecidableEq

/-- Graph `boost::undirected_graph<VertexProperties, EdgeProperties>`: the
vertex list (descriptor and `VertexProperties::id`), the edge list, and the
next unused vertex descriptor. -/
structure Graph where
  vertices : List (Nat × String)
  edges : List Edge
  next : Nat

/-- Graph without vertices and edges (`ARCS::Graph g;`). -/
def emptyGraph : Graph := { vertices := [], edges := [], next := 0 }

/-- VidVdesMap: `std::unordered_map<std::string, Graph::vertex_descriptor>`. -/
abbrev VidVdesMap := List (String × Nat)

/-- Statements `v = boost::add_vertex(g); g[v].id = id;`: the new descriptor
and the graph. -/
def addVertex (g : Graph) (id : String) : Nat × Graph :=
  (g.next, { g with vertices := g.vertices ++ [(g.next, id)], next := g.next + 1 })

/-- Statements `boost::add_edge(u, v, g)` followed by the assignments of
weight and orientation.  The graph keeps its edges in lists, so `add_edge`
always inserts. -/
def addEdge (g : Graph) (u v : Nat) (weight orientation : Int) : Graph :=
  { g with edges := g.edges ++ [{ src := u, tgt := v, orientation := orientation, weight := weight }] }

/-- Block `if (vmap.count(scaf) == 0) { ... }` of `createGraph`. -/
def ensureVertex (st : Graph × VidVdesMap) (scaf : String) : Graph × VidVdesMap :=
  if mapCount st.2 scaf = 0 then
    let r := addVertex st.1 scaf
    (r.2, mapSet noLt st.2 scaf r.1)
  else st

/-- Body of the loop of `createGraph` for one entry of `pmap`. -/
def createStep (P : ArcsParams) (st : Graph × VidVdesMap) (e : PairKey × List Int) :
    Graph × VidVdesMap :=
  let scaf1 := e.1.1
  let scaf2 := e.1.2
  let count := e.2
  let r := getMaxValueAndIndex count
  let mx := r.1
  let index := r.2
  let second := secondOf count mx
  if checkSignificance P mx second then
    let st1 := ensureVertex st scaf1
    let st2 := ensureVertex st1 scaf2
    let u := mapAt noLt st2.2 scaf1 0
    let v := mapAt noLt u.2 scaf2 0
    (addEdge st2.1 u.1 v.1 mx index, v.2)
  else st

/-- Function `createGraph(pmap, g)`: the final graph and vertex map. -/
def createGraph (P : ArcsParams) (pmap : PairMap) (g : Graph) : Graph × VidVdesMap :=
  pmap.foldl (createStep P) (g, [])

/-! ## Degree pruner (`removeDegreeNodes`, `writePostRemovalGraph`) -/

/-- Value of `boost::degree(v, g)`: the number of edge ends at `v` (a loop
counts twice). -/
def degree (g : Graph) (v : Nat) : Nat :=
  (g.edges.filter (fun e => e.src = v)).length + (g.edges.filter (fun e => e.tgt = v)).length

/-- Statement `boost::clear_vertex(v, g)`: every edge at `v` is removed. -/
def clearVertex (g : Graph) (v : Nat) : Graph :=
  { g with edges := g.edges.filter (fun e => e.src ≠ v ∧ e.tgt ≠ v) }

/-- Statement `boost::remove_vertex(v, g)`. -/
def removeVertex (g : Graph) (v : Nat) : Graph :=
  { g with vertices := g.vertices.filter (fun w => w.1 ≠ v) }

/-- Vertices that the first loop of `removeDegreeNodes` collects in `dVertex`. -/
def flagged (g : Graph) (max_degree : Int) : List Nat :=
  (g.vertices.filter (fun w => max_degree < (degree g w.1 : Int))).map Prod.fst

/-- Function `removeDegreeNodes(g, max_degree)`. -/
def removeDegreeNodes (g : Graph) (max_degree : Int) : Graph :=
  (flagged g max_degree).foldl (fun h v => removeVertex (clearVertex h v) v) g

/-- Function `writePostRemovalGraph(g, graphFile)`: the graph that is
written out. -/
def writePostRemovalGraph (P : ArcsParams) (g : Graph) : Graph :=
  if P.max_degree ≠ 0 then removeDegreeNodes g P.max_degree else g

/-! ## Concrete configurations used by the examples -/

/-- Comparison `1 - normalEstimation(x, 0.5, n) < 0.05` (the default
`error_percent`) read in exact arithmetic: with no trials the standard
deviation is 0 and the quotient is `+inf` for `x > 0`; with `n > 0` trials
`erf t > 0.9` for `t = (x - n/2) / sqrt(n/2)` amounts to `x > n/2` and
`(2x - n)^2 / n > 2.70554`. -/
def normalTestDefault (x n : Int) : Bool :=
  if n = 0 then decide (0 < x)
  else decide (0 < n ∧ n < 2 * x ∧ 270554 * n < 100000 * (2 * x - n) ^ 2)

/-- Default parameters of `ArcsParams()` with the multiplicity range `1-100`. -/
def sampleParams : ArcsParams :=
  { seq_id := 98, min_reads := 5, min_links := 0, min_size := 500, min_mult := 1,
    max_mult := 100, max_degree := 0, end_length := 0, normalTest := normalTestDefault }

/-- Star with centre `S1` and the three leaves `S2`, `S3`, `S4`, as
`createGraph` builds it. -/
def starGraph : Graph :=
  (createGraph sampleParams
    [(("S1", "S2"), [1, 0, 0, 0]), (("S1", "S3"), [0, 2, 0, 0]), (("S1", "S4"), [0, 0, 0, 3])]
    emptyGraph).1

/-- First mate of the read `r1_ACGT`: flag 99, scaffold `S1`, position 100. -/
def mateA : SamRecord :=
  { readName := "r1_ACGT", flag := 99, scafName := "S1", pos := 100, mapq := 60,
    cigar := "4M", seq := "ACGT", si := 100 }

/-- Second mate of the read `r1_ACGT`: flag 147, scaffold `S1`, position 300. -/
def mateB : SamRecord :=
  { readName := "r1_ACGT", flag := 147, scafName := "S1", pos := 300, mapq := 60,
    cigar := "4M", seq := "ACGT", si := 100 }

/-- Second mate of the read `r1_ACGT` on a line that ends after the CIGAR
field `*`: the sequence is empty, no query base is aligned and the identity
is 0. -/
def mateShort : SamRecord :=
  { readName := "r1_ACGT", flag := 147, scafName := "S1", pos := 300, mapq := 60,
    cigar := "*", seq := "", si := 0 }

/-- State of `readBAM` holding `mateA` as first mate. -/
def holdingA (P : ArcsParams) : ReadState :=
  readBAM P [SamLine.record mateA] [] [] [("S1", 1000)]

/-- Qualifying pair of the read `r9_ACGT` on the scaffold `S9` (positions 100
and 300), followed by the first mate of another read. -/
def pairOnS9 : List SamLine :=
  [SamLine.record { mateA with readName := "r9_ACGT", scafName := "S9" },
   SamLine.record { mateB with readName := "r9_ACGT", scafName := "S9" },
   SamLine.record mateA]

/-- Invariant of IndexMap: under every barcode, a scaffold that has one of
its two end keys also has the other one. -/
def Balanced (imap : IndexMap) : Prop :=
  ∀ e ∈ imap, ∀ k ∈ e.2.map Prod.fst, (k.1, !k.2) ∈ e.2.map Prod.fst

/-- Head and tail counts of the barcode `ACGT`: `S1` has 8 Head hits, `S2`
has 9 Tail hits. -/
def countsACGT : ScafMap :=
  [(("S1", false), 0), (("S1", true), 8), (("S2", false), 9), (("S2", true), 0)]

/-- Head and tail counts of the barcode `TTTT`: `S1` and `S2` have 8 Head
hits each. -/
def countsTTTT : ScafMap :=
  [(("S1", false), 0), (("S1", true), 8), (("S2", false), 0), (("S2", true), 8)]

/-- IndexMap of two barcodes over the scaffolds `S1` and `S2`. -/
def sampleIndexMap : IndexMap := [("ACGT", countsACGT), ("TTTT", countsTTTT)]

/-- Classification of the scaffold `s` under a barcode with counts `sm`:
`headOrTail` of its Head and Tail counts (a missing key reads as 0). -/
def classify (P : ArcsParams) (sm : ScafMap) (s : String) : Bool × Bool :=
  headOrTail P ((mapFind sm (s, true)).getD 0) ((mapFind sm (s, false)).getD 0)

/-- Index of the counter incremented by the chain `if (scafAhead &&
scafBhead) ... else if ...` of `pairContigs`. -/
def orientation (scafAhead scafBhead : Bool) : Nat :=
  if scafAhead && scafBhead then 0
  else if scafAhead && !scafBhead then 1
  else if !scafAhead && scafBhead then 2
  else 3

/-- Effect on `pmap` of counting one link of orientation `i` for `pair`:
the entry is created as `[0, 0, 0, 0]` when missing and its counter `i` is
incremented. -/
def addLink (pm : PairMap) (pair : PairKey) (i : Nat) : PairMap :=
  mapSet pairKeyLt pm pair (vecInc ((mapFind pm pair).getD [0, 0, 0, 0]) i)

/-- Effect on `pmap` of the body of the loops of `pairContigs` at the
positions `ko` and `kp` of a barcode with counts `sm`. -/
def linkBody (P : ArcsParams) (sm : ScafMap) (ko kp : ScafKey) (pm : PairMap) : PairMap :=
  if strLt ko.1 kp.1 && ko.2 && kp.2 && (classify P sm ko.1).1 && (classify P sm kp.1).1 then
    addLink pm (ko.1, kp.1) (orientation (classify P sm ko.1).2 (classify P sm kp.1).2)
  else pm

/-- Condition under which the loops of `pairContigs` count a link for the
pair `(a, b)` at a barcode of multiplicity `m` with counts `sm`: the
multiplicity is in range, both Head keys are positions of the loops,
`a < b`, and both scaffolds are classified as significant. -/
def linked (P : ArcsParams) (m : Int) (sm : ScafMap) (a b : String) : Bool :=
  decide (P.min_mult ≤ m ∧ m ≤ P.max_mult)
    && decide ((a, true) ∈ sm.map Prod.fst) && decide ((b, true) ∈ sm.map Prod.fst)
    && strLt a b && (classify P sm a).1 && (classify P sm b).1

/-! ## Reference definition of PairMap -/

/-- Scaffold `s` occurs under a barcode with counts `sm`: it has a Head or a
Tail entry there. -/
def occurs (sm : ScafMap) (s : String) : Bool :=
  decide ((s, true) ∈ sm.map Prod.fst) || decide ((s, false) ∈ sm.map Prod.fst)

/-- Orientation named by the two favours-head flags: HH is 0, HT is 1, TH is
2, TT is 3. -/
def orientationOf : Bool → Bool → Nat
  | true, true => 0
  | true, false => 1
  | false, true => 2
  | false, false => 3

/-- Reference: the barcode entry `e` supports the orientation `k` of the pair
`(a, b)`: its multiplicity lies in `[min_mult, max_mult]`, both scaffolds
occur under it, `headOrTail` is significant for both, and the two
favours-head flags give the orientation `k`. -/
def supports (P : ArcsParams) (mult : CountMap) (a b : String) (k : Nat)
    (e : String × ScafMap) : Bool :=
  decide (P.min_mult ≤ (mapFind mult e.1).getD 0 ∧ (mapFind mult e.1).getD 0 ≤ P.max_mult)
    && occurs e.2 a && occurs e.2 b
    && (classify P e.2 a).1 && (classify P e.2 b).1
    && decide (orientationOf (classify P e.2 a).2 (classify P e.2 b).2 = k)

/-- Reference: number of barcodes of `imap` (its entries have distinct
barcodes) that support the orientation `k` of the pair `(a, b)`. -/
def linkCount (P : ArcsParams) (imap : IndexMap) (mult : CountMap) (a b : String) (k : Nat) : Nat :=
  (imap.filter (supports P mult a b k)).length

/-- Entry of a PairMap holding the four counters `n0 .. n3`: absent when all
are 0. -/
def counters (n0 n1 n2 n3 : Nat) : Option (List Int) :=
  if n0 = 0 ∧ n1 = 0 ∧ n2 = 0 ∧ n3 = 0 then none else some [(n0 : Int), n1, n2, n3]

/-- Reference definition of `PairMap[(a, b)]` for `a < b`. -/
def pairMapRef (P : ArcsParams) (imap : IndexMap) (mult : CountMap) (a b : String) :
    Option (List Int) :=
  counters (linkCount P imap mult a b 0) (linkCount P imap mult a b 1)
    (linkCount P imap mult a b 2) (linkCount P imap mult a b 3)

/-- IndexMap of the scenario: under the single barcode `ACGTACGT` the
scaffolds `S1` and `S2` both have Head count 8 and Tail count 0. -/
def scenarioIndexMap : IndexMap :=
  [("ACGTACGT", [(("S1", false), 0), (("S1", true), 8), (("S2", false), 0), (("S2", true), 8)])]

/-- Two edges join the same two nodes. -/
def sameEnds (e1 e2 : Edge) : Prop :=
  (e1.src = e2.src ∧ e1.tgt = e2.tgt) ∨ (e1.src = e2.tgt ∧ e1.tgt = e2.src)

/-- Invariant of `createGraph` on the nodes: the vertex list mirrors `vmap`,
whose scaffold ids and descriptors are pairwise distinct. -/
def NodesOk (st : Graph × VidVdesMap) : Prop :=
  st.1.vertices = st.2.map (fun p => (p.2, p.1))
  ∧ (st.2.map Prod.fst).Nodup
  ∧ (st.2.map Prod.snd).Nodup
  ∧ ∀ p ∈ st.2, p.2 < st.1.next

/-- Invariant of `createGraph` on the edges, `done` being the keys of `pmap`
already visited: every edge joins the nodes of a visited key, and no two
edges join the same two nodes. -/
def EdgesOk (done : List PairKey) (st : Graph × VidVdesMap) : Prop :=
  (∀ e ∈ st.1.edges, ∃ a b, (a, b) ∈ done ∧ (a, e.src) ∈ st.2 ∧ (b, e.tgt) ∈ st.2)
  ∧ st.1.edges.Pairwise (fun e1 e2 => ¬ sameEnds e1 e2)

/-- PairMap with three canonically ordered keys. -/
def starPairMap : PairMap :=
  [(("S1", "S2"), [1, 0, 0, 0]), (("S1", "S3"), [0, 2, 0, 0]), (("S1", "S4"), [0, 0, 0, 3])]

/-- Reference cut-off, in the words of the specification: the configured
end length, or half the scaffold length if the end length is 0 or the
scaffold is shorter than twice the end length. -/
def cutOffSpec (end_length size : Int) : Int :=
  if end_length = 0 ∨ size < 2 * end_length then Int.tdiv size 2 else end_length

/-! ## Updates of the maps made by `readBAM` -/

/-- Update of IndexMap made when a pair is flushed: the barcode, the end key
whose count is incremented and the sibling key that is created when
missing. -/
abbrev Hit := String × ScafKey × ScafKey

/-- Apply the update of a flush, if there is one. -/
def applyHit (h : Option Hit) (imap : IndexMap) : IndexMap :=
  match h with
  | none => imap
  | some (index, key, keyR) => addHit imap index key keyR

/-- Update of IndexMap that the flush block of `readBAM` makes in the state
`s`: none when no pair is ready, when the scaffold is shorter than
`min_size`, or when the position lies between the two end regions. -/
def pendingHit (P : ArcsParams) (s : ReadState) : Option Hit :=
  if s.readyToAddIndex != "" && s.readyToAddRefName != "" && s.readyToAddRefName != "*"
      && s.readyToAddPos != -1 then
    if P.min_size ≤ (mapFind s.sMap s.readyToAddRefName).getD 0 then
      if s.readyToAddPos ≤ cutOffOf P ((mapFind s.sMap s.readyToAddRefName).getD 0) then
        some (s.readyToAddIndex, (s.readyToAddRefName, true), (s.readyToAddRefName, false))
      else if (mapFind s.sMap s.readyToAddRefName).getD 0
          - cutOffOf P ((mapFind s.sMap s.readyToAddRefName).getD 0) < s.readyToAddPos then
        some (s.readyToAddIndex, (s.readyToAddRefName, false), (s.readyToAddRefName, true))
      else none
    else none
  else none

/-- Update of IndexMap made while the record `r` is processed in the state
`s`: the flush happens when `r` starts a new read name. -/
def recordHit (P : ArcsParams) (s : ReadState) (r : SamRecord) : Option Hit :=
  if (wrapCt (skipUnpaired s r)).ct = 1 ∧ r.readName ≠ s.prevRN then pendingHit P s else none

/-- State `s` with the two maps passed by reference replaced. -/
def withMaps (s : ReadState) (imap : IndexMap) (indexMultMap : CountMap) : ReadState :=
  { s with imap := imap, indexMultMap := indexMultMap }

/-- Statement `if (!index.empty()) indexMultMap[index]++;` on the map. -/
def applyCount (index : String) (m : CountMap) : CountMap :=
  if index != "" then mapUpd noLt m index 0 (fun n => n + 1) else m

/-- Entry `imap[b][k]` of IndexMap, if the barcode and the key are present. -/
def entryOf (imap : IndexMap) (b : String) (k : ScafKey) : Option Int :=
  (mapFind imap b).bind (fun sm => mapFind sm k)

/-- Apply a sequence of flush updates in order. -/
def applyHits (hs : List Hit) (imap : IndexMap) : IndexMap :=
  hs.foldl (fun i h => applyHit (some h) i) imap

/-- Value of the local variable `index` for a line (empty for a header,
which is skipped). -/
def lineIndex (l : SamLine) : String :=
  match l with
  | SamLine.header => ""
  | SamLine.record r => indexOf r.readName

/-- Apply the multiplicity updates of a sequence of lines in order. -/
def applyCounts (lines : List SamLine) (m : CountMap) : CountMap :=
  lines.foldl (fun m2 l => applyCount (lineIndex l) m2) m

/-- Count `imap[b][k]` of IndexMap, 0 when the barcode or the key is absent. -/
def countOf (imap : IndexMap) (b : String) (k : ScafKey) : Int :=
  (entryOf imap b k).getD 0

/-- First mate of the next read, `r2_ACGT`. -/
def mateC : SamRecord := { mateA with readName := "r2_ACGT" }

/-- Reference: the line is a non-header record whose read name contains an
underscore and whose substring after the first underscore equals `b`, is
non-empty and passes `checkIndex`. -/
def carries (b : String) (l : SamLine) : Bool :=
  match l with
  | SamLine.header => false
  | SamLine.record r =>
    r.readName.data.contains '_' && (readNameSpl r.readName == b) && (b != "") && checkIndex b

/-- Number of flush updates in `hs` that increment the entry `(b, k)`. -/
def hitCount (hs : List Hit) (b : String) (k : ScafKey) : Nat :=
  (hs.filter (fun h => decide (h.1 = b ∧ h.2.1 = k))).length

/-- Some flush update in `hs` increments or creates the entry `(b, k)`. -/
def touches (hs : List Hit) (b : String) (k : ScafKey) : Bool :=
  hs.any (fun h => decide (h.1 = b ∧ (h.2.1 = k ∨ h.2.2 = k)))

/-- Guard `!readyToAddIndex.empty() && !readyToAddRefName.empty() &&
readyToAddRefName.compare("*") != 0 && readyToAddPos != -1` of the flush
block of `readBAM`. -/
def readyToAdd (s : ReadState) : Bool :=
  s.readyToAddIndex != "" && s.readyToAddRefName != "" && s.readyToAddRefName != "*"
    && s.readyToAddPos != -1

/-- Second mate of the read `r2_ACGT`: flag 147, scaffold `S1`, position 300. -/
def mateD : SamRecord := { mateB with readName := "r2_ACGT" }

/-- First mate of the read `r1_ACGT` at position 1500000000 of the scaffold
`S1`. -/
def mateFarA : SamRecord := { mateA with pos := 1500000000 }

/-- Second mate of the read `r1_ACGT` at position 1500000000 of the scaffold
`S1`. -/
def mateFarB : SamRecord := { mateB with pos := 1500000000 }

/-! ## Sequence identity (`checkChar`, `calcSequenceIdentity`) -/

/-- Function `checkChar(c)`. -/
def checkChar (c : Char) : Bool :=
  c == 'M' || c == '=' || c == 'X' || c == 'I'

/-- Function `isdigit` of the C locale. -/
def isdigit (c : Char) : Bool :=
  48 ≤ c.toNat && c.toNat ≤ 57

/-- Decimal value of a sequence of digit characters. -/
def decimal (ds : List Char) : Nat :=
  ds.foldl (fun n c => 10 * n + (c.toNat - 48)) 0

/-- State of the loop of `calcSequenceIdentity` over the CIGAR string: the
characters inserted into the string stream `ss` since it was last emptied,
whether the fail bit of `ss` is set, and `qalen`. -/
structure CigarState where
  digits : List Char
  failed : Bool
  qalen : Int

/-- Statements `ss << "\t"; int value = 0; ss >> value;`: the value read and
the fail bit of `ss` afterwards.  A stream that has failed reads nothing and
`value` stays 0; an extraction that finds no digit stores 0 and sets the
fail bit; a number above `INT_MAX` stores `INT_MAX` and sets the fail bit. -/
def readValue (st : CigarState) : Int × Bool :=
  if st.failed || st.digits.isEmpty then (0, true)
  else if 2147483647 < decimal st.digits then (2147483647, true)
  else ((decimal st.digits : Int), false)

/-- Body of the loop of `calcSequenceIdentity` over the CIGAR string for the
character `c`.  `ss.str("")` empties the stream and leaves the fail bit as it
is; `ss << c` inserts nothing once the stream has failed; `qalen += value` is
an addition of 32-bit `int`. -/
def cigarStep (st : CigarState) (c : Char) : CigarState :=
  if !isdigit c then
    if checkChar c then
      { digits := [], failed := (readValue st).2,
        qalen := wrapInt (st.qalen + (readValue st).1) }
    else { st with digits := [] }
  else if st.failed then st
  else { st with digits := st.digits ++ [c] }

/-- Value of `qalen` after the loop of `calcSequenceIdentity` over `cigar`. -/
def qalenOf (cigar : String) : Int :=
  (cigar.data.foldl cigarStep { digits := [], failed := false, qalen := 0 }).qalen

/-- Characters that follow the first occurrence of `tag` in a string:
`line.find(tag)` and the position `found + tag.length()`. -/
def afterFirst (tag : List Char) : List Char → Option (List Char)
  | [] => none
  | c :: cs =>
    if tag.isPrefixOf (c :: cs) then some ((c :: cs).drop tag.length) else afterFirst tag cs

/-- Function `isspace` of the C locale: space, `\t`, `\n`, `\v`, `\f`, `\r`. -/
def isspace (c : Char) : Bool :=
  c.toNat == 32 || (9 ≤ c.toNat && c.toNat ≤ 13)

/-- Function `strtol(s, 0, 10)` with a 64-bit `long`: leading white space is
skipped, then an optional sign and the longest run of digits are read; the
result is 0 when there is no digit and is clamped to the range of `long`. -/
def strtol (s : List Char) : Int :=
  let s1 := s.dropWhile isspace
  let s2 := if s1.head? == some '-' || s1.head? == some '+' then s1.drop 1 else s1
  let n : Int := decimal (s2.takeWhile isdigit)
  let v := if s1.head? == some '-' then -n else n
  max (-9223372036854775808) (min v 9223372036854775807)

/-- Value of `edit_dist` in `calcSequenceIdentity`: 0 when the line has no
`NM:i:`, else the `long` that `strtol` reads after its first occurrence,
converted to `int`. -/
def editDistOf (line : String) : Int :=
  match afterFirst "NM:i:".data line.data with
  | some rest => wrapInt (strtol rest)
  | none => 0

/-- Operations on `double` that `calcSequenceIdentity` uses: the conversions
from `int` and from `size_t`, the division and the multiplication. -/
structure DoubleOps (δ : Type) where
  ofInt : Int → δ
  ofNat : Nat → δ
  div : δ → δ → δ
  mul : δ → δ → δ

/-- Function `calcSequenceIdentity(line, cigar, seq)`, over the operations
`F` on `double`. -/
def calcSequenceIdentity {δ : Type} (F : DoubleOps δ) (line cigar seq : String) : δ :=
  let qalen := qalenOf cigar
  let edit_dist := editDistOf line
  if qalen ≠ 0 then
    let mins := F.ofInt (wrapInt (qalen - edit_dist))
    let div := F.div mins (F.ofNat seq.length)
    F.mul div (F.ofInt 100)
  else F.ofInt 0

/-! ## Arithmetic of `double` (IEEE 754 binary64, round to nearest even) -/

/-- Finite binary64 number `m * 2^e`; a nonzero number is held with
`2^52 <= |m| < 2^53`, zero as `m = 0`, `e = 0`. -/
structure Dbl where
  m : Int
  e : Int
  deriving DecidableEq

/-- Number of binary digits of `n`, with `fuel` at least that number. -/
def bitLength : Nat → Nat → Nat
  | 0, _ => 0
  | fuel + 1, n => if n = 0 then 0 else bitLength fuel (n / 2) + 1

/-- Numerator and denominator of `(n / d) / 2^k`. -/
def scaleBy (n d : Nat) (k : Int) : Nat × Nat :=
  if 0 ≤ k then (n, d * 2 ^ k.toNat) else (n * 2 ^ (-k).toNat, d)

/-- Exponent `f` with `2^f <= n / d < 2^(f+1)`, for positive `n` and `d`. -/
def floorLog2 (n d : Nat) : Int :=
  let t : Int := (bitLength n n : Int) - (bitLength d d : Int)
  if (scaleBy n d t).2 ≤ (scaleBy n d t).1 then t else t - 1

/-- Rounding of the positive rational `n / d` to 53 significant binary
digits, to nearest and to even on a tie: the pair `(m, k)` with
`2^52 <= m < 2^53` and `m * 2^k` the rounded value. -/
def roundNearestEven (n d : Nat) : Nat × Int :=
  let k := floorLog2 n d - 52
  let q := (scaleBy n d k).1 / (scaleBy n d k).2
  let r := (scaleBy n d k).1 % (scaleBy n d k).2
  let m := if (scaleBy n d k).2 < 2 * r ∨ (2 * r = (scaleBy n d k).2 ∧ q % 2 = 1) then q + 1 else q
  if m = 2 ^ 53 then (2 ^ 52, k + 1) else (m, k)

/-- The binary64 number nearest to the rational `z / d`; `none` when `d = 0`
or when the rounded value is outside the range of the normal binary64
numbers (an infinity, a NaN or a subnormal number, which `Dbl` does not
hold). -/
def roundRat (z : Int) (d : Nat) : Option Dbl :=
  if d = 0 then none
  else if z = 0 then some { m := 0, e := 0 }
  else
    let r := roundNearestEven z.natAbs d
    if r.2 < -1074 ∨ 971 < r.2 then none
    else some { m := if z < 0 then -(r.1 : Int) else (r.1 : Int), e := r.2 }

/-- The binary64 number nearest to `(z / d) * 2^e`. -/
def roundScaled (z : Int) (d : Nat) (e : Int) : Option Dbl :=
  if 0 ≤ e then roundRat (z * 2 ^ e.toNat) d else roundRat z (d * 2 ^ (-e).toNat)

/-- Operations of `double` as IEEE 754 binary64 with rounding to nearest
even, on the finite normal numbers. -/
def binary64 : DoubleOps (Option Dbl) :=
  { ofInt := fun z => roundRat z 1,
    ofNat := fun n => roundRat (n : Int) 1,
    div := fun x y =>
      x.bind (fun a => y.bind (fun b =>
        roundScaled (if b.m < 0 then -a.m else a.m) b.m.natAbs (a.e - b.e))),
    mul := fun x y =>
      x.bind (fun a => y.bind (fun b => roundScaled (a.m * b.m) 1 (a.e + b.e))) }

/-- Rational value of a binary64 number. -/
def Dbl.toRat (x : Dbl) : ℚ :=
  (x.m : ℚ) * (2 : ℚ) ^ x.e

/-- Conversion of a `double` to `int`, as in
`int si = calcSequenceIdentity(line, cigar, seq)`: the fractional part is
discarded. -/
def Dbl.toInt (x : Dbl) : Int :=
  if 0 ≤ x.e then x.m * 2 ^ x.e.toNat else Int.tdiv x.m (2 ^ (-x.e).toNat)

/-- Alignment line of a read of 100 bases with the annotation `NM:i:71`. -/
def lineNM71 : String :=
  "r1_ACGT\t99\tS1\t100\t60\t100M\t=\t300\t400\tNM:i:71"

/-- Read sequence of 100 bases. -/
def read100 : String :=
  String.mk (List.replicate 100 'A')

/-! ## Reference definitions for the sequence identity -/

/-- A run of a CIGAR string: the digits of its length and its operation
character. -/
abbrev CigarRun := List Char × Char

/-- A run is made of one or more decimal digits followed by one operation
character, which is not a digit. -/
def WellFormedRun (r : CigarRun) : Prop :=
  r.1 ≠ [] ∧ (∀ c ∈ r.1, isdigit c = true) ∧ isdigit r.2 = false

/-- The CIGAR string made of the given runs. -/
def renderCigar (runs : List CigarRun) : String :=
  String.mk (runs.foldr (fun r acc => r.1 ++ r.2 :: acc) [])

/-- Reference value of `qalen`, in the words of the specification: the sum
of the lengths of the runs whose operation is `M`, `=`, `X` or `I`. -/
def qalenSpec (runs : List CigarRun) : Nat :=
  (runs.map (fun r =>
    if r.2 = 'M' ∨ r.2 = '=' ∨ r.2 = 'X' ∨ r.2 = 'I' then decimal r.1 else 0)).sum

/-- Reference value of the edit distance of a line: `e` is 0 and the line
has no `NM:i:`, or `e` is the decimal integer that follows the first
`NM:i:` of the line. -/
def EditDistance (line : String) (e : Nat) : Prop :=
  (e = 0 ∧ ∀ pre post : List Char, line.data ≠ pre ++ "NM:i:".data ++ post)
  ∨ ∃ pre ds rest : List Char, line.data = pre ++ "NM:i:".data ++ (ds ++ rest)
      ∧ (∀ p q : List Char, line.data = p ++ "NM:i:".data ++ q → pre.length ≤ p.length)
      ∧ ds ≠ [] ∧ (∀ c ∈ ds, isdigit c = true)
      ∧ (∀ c, rest.head? = some c → isdigit c = false)
      ∧ e = decimal ds

/-! ## Containers: basic facts -/

theorem mapFind_mapSet_self {κ ν : Type} [DecidableEq κ] (lt : κ → κ → Bool) (m : List (κ × ν))
    (k : κ) (v : ν) : mapFind (mapSet lt m k v) k = some v := by
  induction m with
  | nil => simp [mapSet, mapFind]
  | cons hd t ih =>
    obtain ⟨k1, v1⟩ := hd
    by_cases h1 : k1 = k
    · simp [mapSet, mapFind, h1]
    · by_cases h2 : lt k k1 = true
      · simp [mapSet, mapFind, h1, h2]
      · simp [mapSet, mapFind, h1, h2, ih]

theorem mapFind_mapSet_ne {κ ν : Type} [DecidableEq κ] (lt : κ → κ → Bool) (m : List (κ × ν))
    (k k2 : κ) (v : ν) (hne : k ≠ k2) : mapFind (mapSet lt m k v) k2 = mapFind m k2 := by
  induction m with
  | nil => simp [mapSet, mapFind, hne]
  | cons hd t ih =>
    obtain ⟨k1, v1⟩ := hd
    by_cases h1 : k1 = k
    · subst h1
      simp [mapSet, mapFind, hne]
    · by_cases h2 : lt k k1 = true
      · simp [mapSet, mapFind, h1, h2, hne]
      · by_cases h3 : k1 = k2
        · subst h3
          simp [mapSet, mapFind, h1, h2]
        · simp [mapSet, mapFind, h1, h2, h3, ih]

theorem mapFind_mapUpd_self {κ ν : Type} [DecidableEq κ] (lt : κ → κ → Bool) (m : List (κ × ν))
    (k : κ) (d : ν) (f : ν → ν) :
    mapFind (mapUpd lt m k d f) k = some (f ((mapFind m k).getD d)) := by
  simp [mapUpd, mapFind_mapSet_self]

theorem mapFind_mapUpd_ne {κ ν : Type} [DecidableEq κ] (lt : κ → κ → Bool) (m : List (κ × ν))
    (k k2 : κ) (d : ν) (f : ν → ν) (hne : k ≠ k2) :
    mapFind (mapUpd lt m k d f) k2 = mapFind m k2 := by
  simp [mapUpd, mapFind_mapSet_ne lt m k k2 _ hne]

theorem mapFind_isSome_iff {κ ν : Type} [DecidableEq κ] (m : List (κ × ν)) (k : κ) :
    (mapFind m k).isSome = true ↔ k ∈ m.map Prod.fst := by
  induction m with
  | nil => simp [mapFind]
  | cons hd t ih =>
    obtain ⟨k1, v1⟩ := hd
    by_cases h1 : k1 = k
    · simp [mapFind, h1]
    · have h2 : ¬ k = k1 := fun h => h1 h.symm
      simp [mapFind, h1, h2, ih]

theorem mapFind_eq_none_iff {κ ν : Type} [DecidableEq κ] (m : List (κ × ν)) (k : κ) :
    mapFind m k = none ↔ k ∉ m.map Prod.fst := by
  rw [← mapFind_isSome_iff]
  cases mapFind m k <;> simp

theorem mapAt_fst {κ ν : Type} [DecidableEq κ] (lt : κ → κ → Bool) (m : List (κ × ν)) (k : κ)
    (d : ν) : (mapAt lt m k d).1 = (mapFind m k).getD d := by
  unfold mapAt
  cases mapFind m k <;> rfl

theorem mapAt_snd_of_mem {κ ν : Type} [DecidableEq κ] (lt : κ → κ → Bool) (m : List (κ × ν))
    (k : κ) (d : ν) (h : k ∈ m.map Prod.fst) : (mapAt lt m k d).2 = m := by
  unfold mapAt
  have h1 := (mapFind_isSome_iff m k).2 h
  cases hf : mapFind m k with
  | none => rw [hf] at h1; simp at h1
  | some v => rfl

theorem mapFind_mapAt_getD {κ ν : Type} [DecidableEq κ] (lt : κ → κ → Bool) (m : List (κ × ν))
    (k k2 : κ) (d : ν) : (mapFind (mapAt lt m k d).2 k2).getD d = (mapFind m k2).getD d := by
  unfold mapAt
  cases hf : mapFind m k with
  | some v => rfl
  | none =>
    by_cases hk : k = k2
    · subst hk
      simp [mapFind_mapSet_self, hf]
    · simp [mapFind_mapSet_ne lt m k k2 d hk]

theorem strLt_iff (a b : String) : strLt a b = true ↔ a < b := by
  simp [strLt, String.lt_iff_toList_lt]


/-! ## Graph builder: entries below `min_links` -/

theorem getMax_fold_lt (L : Int) (l : List Int) (s : (Int × Int) × Int) (hs : s.1.1 < L)
    (hl : ∀ c ∈ l, c < L) :
    ((l.foldl
      (fun (s : (Int × Int) × Int) x => if s.1.1 < x then ((x, s.2), s.2 + 1) else (s.1, s.2 + 1))
      s).1).1 < L := by
  induction l generalizing s with
  | nil => simpa using hs
  | cons x t ih =>
    simp only [List.foldl_cons]
    apply ih
    · by_cases hx : s.1.1 < x
      · simp [hx, hl x (List.mem_cons_self x t)]
      · simp [hx, hs]
    · intro c hc
      exact hl c (List.mem_cons_of_mem x hc)

theorem getMax_lt_of_counts (L : Int) (l : List Int) (hne : l ≠ [])
    (hl : ∀ c ∈ l, 0 ≤ c ∧ c < L) : (getMaxValueAndIndex l).1 < L := by
  unfold getMaxValueAndIndex
  apply getMax_fold_lt
  · cases l with
    | nil => exact absurd rfl hne
    | cons x t =>
      have := hl x (List.mem_cons_self x t)
      show (0 : Int) < L
      omega
  · intro c hc
    exact (hl c hc).2

theorem createStep_of_not_significant (P : ArcsParams) (st : Graph × VidVdesMap)
    (e : PairKey × List Int)
    (h : checkSignificance P (getMaxValueAndIndex e.2).1
      (secondOf e.2 (getMaxValueAndIndex e.2).1) = false) : createStep P st e = st := by
  simp [createStep, h]

/-- C5: an entry of the PairMap whose maximum orientation count (the `max`
of `getMaxValueAndIndex`, which for a non-empty vector of counts is its
greatest element) is below `min_links` fails `checkSignificance` for every
value of `second`, also 0, and `createGraph` builds the same graph as it
builds without that entry: the entry adds no node and no edge. -/
theorem createGraph_skips_below_min_links (P : ArcsParams) (l1 l2 : PairMap)
    (e : PairKey × List Int) (g : Graph)
    (h : (getMaxValueAndIndex e.2).1 < P.min_links
      ∨ (e.2 ≠ [] ∧ ∀ c ∈ e.2, 0 ≤ c ∧ c < P.min_links)) :
    (∀ second, checkSignificance P (getMaxValueAndIndex e.2).1 second = false)
    ∧ (∀ st, createStep P st e = st)
    ∧ createGraph P (l1 ++ e :: l2) g = createGraph P (l1 ++ l2) g := by
  have hlt : (getMaxValueAndIndex e.2).1 < P.min_links := by
    rcases h with h | ⟨hne, hc⟩
    · exact h
    · exact getMax_lt_of_counts P.min_links e.2 hne hc
  have hsig : ∀ second, checkSignificance P (getMaxValueAndIndex e.2).1 second = false := by
    intro second
    simp [checkSignificance, hlt]
  have hstep : ∀ st, createStep P st e = st :=
    fun st => createStep_of_not_significant P st e (hsig _)
  refine ⟨hsig, hstep, ?_⟩
  simp [createGraph, List.foldl_append, hstep]

theorem createGraph_skips_below_min_links_witness :
    (∀ second, checkSignificance { sampleParams with min_links := 10 }
        (getMaxValueAndIndex [8, 0, 0, 0]).1 second = false)
    ∧ (∀ st, createStep { sampleParams with min_links := 10 } st (("S1", "S2"), [8, 0, 0, 0]) = st)
    ∧ createGraph { sampleParams with min_links := 10 }
        ([] ++ (("S1", "S2"), [8, 0, 0, 0]) :: []) emptyGraph
      = createGraph { sampleParams with min_links := 10 } ([] ++ []) emptyGraph :=
  createGraph_skips_below_min_links { sampleParams with min_links := 10 } [] []
    (("S1", "S2"), [8, 0, 0, 0]) emptyGraph (Or.inl (by decide))

/-! ## Degree pruner -/

theorem removeFold_vertices (fl : List Nat) (g : Graph) :
    (fl.foldl (fun h v => removeVertex (clearVertex h v) v) g).vertices
      = g.vertices.filter (fun w => decide (w.1 ∉ fl)) := by
  induction fl generalizing g with
  | nil => simp
  | cons v t ih =>
    simp only [List.foldl_cons]
    rw [ih]
    simp only [removeVertex, clearVertex, List.filter_filter]
    apply List.filter_congr
    intro w _
    simp only [List.mem_cons, not_or]
    by_cases h1 : w.1 = v <;> by_cases h2 : w.1 ∈ t <;> simp [h1, h2]

theorem removeFold_edges (fl : List Nat) (g : Graph) :
    (fl.foldl (fun h v => removeVertex (clearVertex h v) v) g).edges
      = g.edges.filter (fun e => decide (e.src ∉ fl ∧ e.tgt ∉ fl)) := by
  induction fl generalizing g with
  | nil => simp
  | cons v t ih =>
    simp only [List.foldl_cons]
    rw [ih]
    simp only [removeVertex, clearVertex, List.filter_filter]
    apply List.filter_congr
    intro e _
    simp only [List.mem_cons, not_or]
    by_cases h1 : e.src = v <;> by_cases h2 : e.src ∈ t <;> by_cases h3 : e.tgt = v <;>
      by_cases h4 : e.tgt ∈ t <;> simp [h1, h2, h3, h4]

theorem removeDegreeNodes_vertices (g : Graph) (d : Int) :
    (removeDegreeNodes g d).vertices = g.vertices.filter (fun w => decide (w.1 ∉ flagged g d)) :=
  removeFold_vertices (flagged g d) g

theorem removeDegreeNodes_edges (g : Graph) (d : Int) :
    (removeDegreeNodes g d).edges
      = g.edges.filter (fun e => decide (e.src ∉ flagged g d ∧ e.tgt ∉ flagged g d)) :=
  removeFold_edges (flagged g d) g

theorem degree_filter_le (g h : Graph) (p : Edge → Bool) (he : h.edges = g.edges.filter p)
    (v : Nat) : degree h v ≤ degree g v := by
  unfold degree
  rw [he]
  have h1 : ((g.edges.filter p).filter (fun e => decide (e.src = v))).length
      ≤ (g.edges.filter (fun e => decide (e.src = v))).length :=
    List.Sublist.length_le (List.Sublist.filter _ (List.filter_sublist _))
  have h2 : ((g.edges.filter p).filter (fun e => decide (e.tgt = v))).length
      ≤ (g.edges.filter (fun e => decide (e.tgt = v))).length :=
    List.Sublist.length_le (List.Sublist.filter _ (List.filter_sublist _))
  omega

theorem removeDegreeNodes_degree_le (g : Graph) (d : Int) :
    ∀ w ∈ (removeDegreeNodes g d).vertices, (degree (removeDegreeNodes g d) w.1 : Int) ≤ d := by
  intro w hw
  rw [removeDegreeNodes_vertices] at hw
  obtain ⟨hwg, hnf⟩ := List.mem_filter.1 hw
  have hnf2 : w.1 ∉ flagged g d := by simpa using hnf
  have hdeg : ¬ d < (degree g w.1 : Int) := by
    intro hlt
    apply hnf2
    unfold flagged
    exact List.mem_map.2 ⟨w, List.mem_filter.2 ⟨hwg, by simpa using hlt⟩, rfl⟩
  have hle := degree_filter_le g (removeDegreeNodes g d) _ (removeDegreeNodes_edges g d) w.1
  have : (degree (removeDegreeNodes g d) w.1 : Int) ≤ (degree g w.1 : Int) := by exact_mod_cast hle
  omega

/-- C7 (as amended): when the configured maximum degree is not 0,
`writePostRemovalGraph` runs `removeDegreeNodes`, and in the graph it leaves
no remaining node has a degree greater than `max_degree`. -/
theorem writePostRemovalGraph_degree_le (P : ArcsParams) (g : Graph) (hd : P.max_degree ≠ 0) :
    ∀ w ∈ (writePostRemovalGraph P g).vertices,
      (degree (writePostRemovalGraph P g) w.1 : Int) ≤ P.max_degree := by
  have h : writePostRemovalGraph P g = removeDegreeNodes g P.max_degree := by
    simp [writePostRemovalGraph, hd]
  rw [h]
  exact removeDegreeNodes_degree_le g P.max_degree

theorem writePostRemovalGraph_degree_le_witness :
    ({ sampleParams with max_degree := 2 } : ArcsParams).max_degree ≠ 0
    ∧ ∀ w ∈ (writePostRemovalGraph { sampleParams with max_degree := 2 } starGraph).vertices,
      (degree (writePostRemovalGraph { sampleParams with max_degree := 2 } starGraph) w.1 : Int)
        ≤ ({ sampleParams with max_degree := 2 } : ArcsParams).max_degree :=
  ⟨by decide,
    writePostRemovalGraph_degree_le { sampleParams with max_degree := 2 } starGraph (by decide)⟩

/-- C7 (as stated) fails for the threshold 0: `writePostRemovalGraph` then
leaves the graph as it is, and the centre of the star keeps its degree 3. -/
theorem writePostRemovalGraph_zero_keeps_degree :
    sampleParams.max_degree = 0
    ∧ (0, "S1") ∈ (writePostRemovalGraph sampleParams starGraph).vertices
    ∧ ¬ ((degree (writePostRemovalGraph sampleParams starGraph) 0 : Int) ≤ sampleParams.max_degree) := by
  decide

/-! ## Paired-record linker: acceptance of a pair -/

theorem countIndex_eq (s : ReadState) (index : String) :
    countIndex s index = { s with indexMultMap := (countIndex s index).indexMultMap } := by
  unfold countIndex
  split <;> rfl

theorem acceptPair_congr (P : ArcsParams) (s t : ReadState) (r : SamRecord)
    (h1 : t.prevFlag = s.prevFlag) (h2 : t.prevMapq = s.prevMapq) (h3 : t.prevSI = s.prevSI)
    (h4 : t.prevRef = s.prevRef) : acceptPair P t r = acceptPair P s r := by
  simp [acceptPair, h1, h2, h3, h4]

theorem readRecord_second_mate (P : ArcsParams) (s : ReadState) (r : SamRecord)
    (hct : s.ct = 2) (hname : r.readName = s.prevRN) :
    readRecord P s r
      = if acceptPair P s r then
          { countIndex s (indexOf r.readName) with
              readyToAddIndex := indexOf r.readName, readyToAddRefName := r.scafName,
              readyToAddPos := Int.tdiv (wrapInt (s.prevPos + r.pos)) 2, ct := 3 }
        else { countIndex s (indexOf r.readName) with ct := 3 } := by
  dsimp only [readRecord]
  have hc := countIndex_eq s (indexOf r.readName)
  generalize countIndex s (indexOf r.readName) = c at hc ⊢
  have e1 : c.ct = 2 := by rw [hc]; exact hct
  have e2 : c.prevRN = s.prevRN := by rw [hc]
  have e3 : c.prevPos = s.prevPos := by rw [hc]
  have h1 : skipUnpaired c r = c := by
    simp [skipUnpaired, hname, e2]
  have h2 : wrapCt c = c := by
    simp [wrapCt, e1]
  have h3 : acceptPair P c r = acceptPair P s r :=
    acceptPair_congr P s c r (by rw [hc]) (by rw [hc]) (by rw [hc]) (by rw [hc])
  simp only [h1, h2]
  by_cases ha : acceptPair P s r = true
  · simp [pairing, e1, e3, h3, ha]
  · simp [pairing, e1, h3, ha]

/-- C9 (as amended): when `readBAM` holds a first mate (`ct == 2`) and the
next record has the same read name, the pair is marked ready to add (the
pending barcode, scaffold and position `(prevPos + pos) / 2`, computed in
32-bit `int` arithmetic, are written) if and only if the
second record's read sequence is non-empty, both flags pass `checkFlag`,
both mapping qualities are nonzero, both identities are at least `seq_id`,
both records name the same scaffold, that name is neither `*` nor empty, and
the barcode is non-empty; otherwise the pending fields keep their values.
No other field of the two records takes part. -/
theorem readRecord_ready_iff (P : ArcsParams) (s : ReadState) (r : SamRecord)
    (hct : s.ct = 2) (hname : r.readName = s.prevRN) :
    ((readRecord P s r).readyToAddIndex, (readRecord P s r).readyToAddRefName,
        (readRecord P s r).readyToAddPos)
      = (if (r.seq ≠ "" ∧ checkFlag r.flag = true ∧ checkFlag s.prevFlag = true
            ∧ r.mapq ≠ 0 ∧ s.prevMapq ≠ 0 ∧ P.seq_id ≤ r.si ∧ P.seq_id ≤ s.prevSI
            ∧ s.prevRef = r.scafName ∧ r.scafName ≠ "*" ∧ r.scafName ≠ ""
            ∧ indexOf r.readName ≠ "")
         then (indexOf r.readName, r.scafName, Int.tdiv (wrapInt (s.prevPos + r.pos)) 2)
         else (s.readyToAddIndex, s.readyToAddRefName, s.readyToAddPos))
    ∧ (s.readyToAddIndex = "" →
        ((readRecord P s r).readyToAddIndex ≠ "" ↔
          (r.seq ≠ "" ∧ checkFlag r.flag = true ∧ checkFlag s.prevFlag = true
            ∧ r.mapq ≠ 0 ∧ s.prevMapq ≠ 0 ∧ P.seq_id ≤ r.si ∧ P.seq_id ≤ s.prevSI
            ∧ s.prevRef = r.scafName ∧ r.scafName ≠ "*" ∧ r.scafName ≠ ""
            ∧ indexOf r.readName ≠ ""))) := by
  have hc := countIndex_eq s (indexOf r.readName)
  have hidx : (countIndex s (indexOf r.readName)).readyToAddIndex = s.readyToAddIndex := by
    rw [hc]
  have href : (countIndex s (indexOf r.readName)).readyToAddRefName = s.readyToAddRefName := by
    rw [hc]
  have hpos : (countIndex s (indexOf r.readName)).readyToAddPos = s.readyToAddPos := by
    rw [hc]
  rw [readRecord_second_mate P s r hct hname]
  by_cases ha : acceptPair P s r = true
  · have ha2 := ha
    simp only [acceptPair, Bool.and_eq_true, bne_iff_ne, ne_eq, decide_eq_true_eq,
      beq_iff_eq] at ha2
    have hcond : r.seq ≠ "" ∧ checkFlag r.flag = true ∧ checkFlag s.prevFlag = true
        ∧ r.mapq ≠ 0 ∧ s.prevMapq ≠ 0 ∧ P.seq_id ≤ r.si ∧ P.seq_id ≤ s.prevSI
        ∧ s.prevRef = r.scafName ∧ r.scafName ≠ "*" ∧ r.scafName ≠ ""
        ∧ indexOf r.readName ≠ "" := by tauto
    rw [if_pos ha, if_pos hcond]
    exact ⟨rfl, fun _ => ⟨fun _ => hcond, fun h => h.2.2.2.2.2.2.2.2.2.2⟩⟩
  · have hnot : ¬ (r.seq ≠ "" ∧ checkFlag r.flag = true ∧ checkFlag s.prevFlag = true
        ∧ r.mapq ≠ 0 ∧ s.prevMapq ≠ 0 ∧ P.seq_id ≤ r.si ∧ P.seq_id ≤ s.prevSI
        ∧ s.prevRef = r.scafName ∧ r.scafName ≠ "*" ∧ r.scafName ≠ ""
        ∧ indexOf r.readName ≠ "") := by
      intro h
      apply ha
      simp only [acceptPair, Bool.and_eq_true, bne_iff_ne, ne_eq, decide_eq_true_eq,
        beq_iff_eq]
      tauto
    rw [if_neg ha, if_neg hnot]
    refine ⟨?_, fun hpend => ⟨fun h => ?_, fun h => absurd h hnot⟩⟩
    · show ((countIndex s (indexOf r.readName)).readyToAddIndex,
        (countIndex s (indexOf r.readName)).readyToAddRefName,
        (countIndex s (indexOf r.readName)).readyToAddPos) = _
      rw [hidx, href, hpos]
    · exfalso
      apply h
      show (countIndex s (indexOf r.readName)).readyToAddIndex = ""
      rw [hidx]
      exact hpend

theorem readRecord_ready_iff_witness :
    (holdingA sampleParams).ct = 2 ∧ mateB.readName = (holdingA sampleParams).prevRN
    ∧ (holdingA sampleParams).readyToAddIndex = ""
    ∧ ((readRecord sampleParams (holdingA sampleParams) mateB).readyToAddIndex,
        (readRecord sampleParams (holdingA sampleParams) mateB).readyToAddRefName,
        (readRecord sampleParams (holdingA sampleParams) mateB).readyToAddPos)
      = ("ACGT", "S1", 200)
    ∧ (readRecord sampleParams (holdingA sampleParams) mateB).readyToAddIndex ≠ "" :=
  ⟨by decide, by decide, by decide, by decide,
    ((readRecord_ready_iff sampleParams (holdingA sampleParams) mateB
      (by decide) (by decide)).2 (by decide)).2 (by decide)⟩

/-- C9 (as stated) fails: with `seq_id` 0 the held first mate `mateA` and the
second record `mateShort` meet every condition the claim lists, yet the pair
is not marked ready to add, because the second record has no sequence. -/
theorem readRecord_rejects_empty_sequence :
    (holdingA { sampleParams with seq_id := 0 }).ct = 2
    ∧ mateShort.readName = (holdingA { sampleParams with seq_id := 0 }).prevRN
    ∧ (checkFlag mateShort.flag = true
      ∧ checkFlag (holdingA { sampleParams with seq_id := 0 }).prevFlag = true
      ∧ mateShort.mapq ≠ 0 ∧ (holdingA { sampleParams with seq_id := 0 }).prevMapq ≠ 0
      ∧ (0 : Int) ≤ mateShort.si ∧ (0 : Int) ≤ (holdingA { sampleParams with seq_id := 0 }).prevSI
      ∧ (holdingA { sampleParams with seq_id := 0 }).prevRef = mateShort.scafName
      ∧ mateShort.scafName ≠ "*" ∧ mateShort.scafName ≠ ""
      ∧ indexOf mateShort.readName ≠ "")
    ∧ (readRecord { sampleParams with seq_id := 0 }
        (holdingA { sampleParams with seq_id := 0 }) mateShort).readyToAddIndex = "" := by
  decide

/-! ## Paired-record linker: scaffolds that are filtered out -/

theorem flush_imap_of_small (P : ArcsParams) (s : ReadState)
    (h : (mapFind s.sMap s.readyToAddRefName).getD 0 < P.min_size) :
    (flush P s).imap = s.imap := by
  have h2 : ¬ P.min_size ≤ (mapAt noLt s.sMap s.readyToAddRefName 0).1 := by
    rw [mapAt_fst]
    omega
  unfold flush
  split
  · simp [h2]
  · rfl

theorem preamble_fields (s : ReadState) (r : SamRecord) (index : String) :
    (wrapCt (skipUnpaired (countIndex s index) r)).imap = s.imap
    ∧ (wrapCt (skipUnpaired (countIndex s index) r)).sMap = s.sMap
    ∧ (wrapCt (skipUnpaired (countIndex s index) r)).readyToAddIndex = s.readyToAddIndex
    ∧ (wrapCt (skipUnpaired (countIndex s index) r)).readyToAddRefName = s.readyToAddRefName
    ∧ (wrapCt (skipUnpaired (countIndex s index) r)).readyToAddPos = s.readyToAddPos := by
  unfold wrapCt skipUnpaired countIndex
  split_ifs <;> simp

theorem pairing_imap (P : ArcsParams) (w : ReadState) (r : SamRecord) (index : String) :
    (pairing P w r index).imap = w.imap
    ∨ (pairing P w r index).imap
        = (flush P { w with prevRN := r.readName, prevSI := r.si, prevFlag := r.flag,
                            prevMapq := r.mapq, prevRef := r.scafName, prevPos := r.pos }).imap := by
  unfold pairing
  split_ifs <;> simp

theorem readRecord_imap_of_small (P : ArcsParams) (s : ReadState) (r : SamRecord)
    (h : (mapFind s.sMap s.readyToAddRefName).getD 0 < P.min_size) :
    (readRecord P s r).imap = s.imap := by
  obtain ⟨h1, h2, _, h4, _⟩ := preamble_fields s r (indexOf r.readName)
  show (pairing P (wrapCt (skipUnpaired (countIndex s (indexOf r.readName)) r)) r
    (indexOf r.readName)).imap = s.imap
  rcases pairing_imap P (wrapCt (skipUnpaired (countIndex s (indexOf r.readName)) r)) r
    (indexOf r.readName) with hp | hp
  · rw [hp, h1]
  · rw [hp, flush_imap_of_small]
    · exact h1
    · show (mapFind (wrapCt (skipUnpaired (countIndex s (indexOf r.readName)) r)).sMap
        (wrapCt (skipUnpaired (countIndex s (indexOf r.readName)) r)).readyToAddRefName).getD 0
          < P.min_size
      rw [h2, h4]
      exact h

/-- C10 (as amended): a pending pair whose scaffold has a length below
`min_size` in the scaffold size index, or is absent from the index while
`min_size` is positive, is dropped: flushing it, and the whole processing of
the record that triggers the flush, leave IndexMap exactly as it was, for
every value of `end_length`. -/
theorem flush_drops_filtered_scaffold (P : ArcsParams) (s : ReadState)
    (h : (∃ size, mapFind s.sMap s.readyToAddRefName = some size ∧ size < P.min_size)
      ∨ (mapFind s.sMap s.readyToAddRefName = none ∧ 0 < P.min_size)) :
    (flush P s).imap = s.imap ∧ ∀ r, (readRecord P s r).imap = s.imap := by
  have hsmall : (mapFind s.sMap s.readyToAddRefName).getD 0 < P.min_size := by
    rcases h with ⟨size, h1, h2⟩ | ⟨h1, h2⟩
    · rw [h1]; exact h2
    · rw [h1]; exact h2
  exact ⟨flush_imap_of_small P s hsmall, fun r => readRecord_imap_of_small P s r hsmall⟩

theorem flush_drops_filtered_scaffold_witness :
    (mapFind (readBAM sampleParams (pairOnS9.take 2) [] [] [("S1", 1000)]).sMap
        (readBAM sampleParams (pairOnS9.take 2) [] [] [("S1", 1000)]).readyToAddRefName = none
      ∧ 0 < sampleParams.min_size)
    ∧ (readBAM sampleParams (pairOnS9.take 2) [] [] [("S1", 1000)]).readyToAddRefName = "S9"
    ∧ (flush sampleParams (readBAM sampleParams (pairOnS9.take 2) [] [] [("S1", 1000)])).imap
        = (readBAM sampleParams (pairOnS9.take 2) [] [] [("S1", 1000)]).imap :=
  ⟨by decide, by decide,
    (flush_drops_filtered_scaffold sampleParams
      (readBAM sampleParams (pairOnS9.take 2) [] [] [("S1", 1000)])
      (Or.inr (by decide))).1⟩

/-- C10 (as stated) fails for `min_size` 0: the scaffold `S9` is absent from
the size index, is read as having length 0, passes `size >= min_size`, and
the accepted pair at mean position 200 is counted at its Tail end, which
creates the barcode's entry in IndexMap. -/
theorem readBAM_counts_absent_scaffold :
    mapFind [("S1", (1000 : Int))] "S9" = none
    ∧ (readBAM { sampleParams with min_size := 0 } pairOnS9 [] [] [("S1", 1000)]).imap
      = [("ACGT", [(("S9", false), 1), (("S9", true), 0)])] := by
  decide

/-! ## Containers: entries and keys after an update -/

theorem mapSet_mapSet {κ ν : Type} [DecidableEq κ] (lt : κ → κ → Bool) (m : List (κ × ν))
    (k : κ) (v v2 : ν) : mapSet lt (mapSet lt m k v) k v2 = mapSet lt m k v2 := by
  induction m with
  | nil => simp [mapSet]
  | cons hd t ih =>
    obtain ⟨k1, v1⟩ := hd
    by_cases h1 : k1 = k
    · simp [mapSet, h1]
    · by_cases h2 : lt k k1 = true
      · simp [mapSet, h1, h2]
      · simp [mapSet, h1, h2, ih]

theorem mem_mapSet {κ ν : Type} [DecidableEq κ] (lt : κ → κ → Bool) (m : List (κ × ν))
    (k : κ) (v : ν) (e : κ × ν) (he : e ∈ mapSet lt m k v) : e ∈ m ∨ e = (k, v) := by
  induction m with
  | nil => simpa [mapSet] using he
  | cons hd t ih =>
    obtain ⟨k1, v1⟩ := hd
    by_cases h1 : k1 = k
    · simp only [mapSet, h1, if_true, List.mem_cons] at he
      rcases he with he | he
      · exact Or.inr he
      · exact Or.inl (List.mem_cons_of_mem _ he)
    · by_cases h2 : lt k k1 = true
      · simp only [mapSet, h1, h2, if_true, if_false, List.mem_cons] at he
        rcases he with he | he | he
        · exact Or.inr he
        · exact Or.inl (List.mem_cons.2 (Or.inl he))
        · exact Or.inl (List.mem_cons_of_mem _ he)
      · simp only [mapSet, h1, h2, if_false, List.mem_cons, Bool.false_eq_true] at he
        rcases he with he | he
        · exact Or.inl (List.mem_cons.2 (Or.inl he))
        · rcases ih he with h | h
          · exact Or.inl (List.mem_cons_of_mem _ h)
          · exact Or.inr h

theorem keys_mapSet {κ ν : Type} [DecidableEq κ] (lt : κ → κ → Bool) (m : List (κ × ν))
    (k k2 : κ) (v : ν) : k2 ∈ (mapSet lt m k v).map Prod.fst ↔ k2 = k ∨ k2 ∈ m.map Prod.fst := by
  rw [← mapFind_isSome_iff, ← mapFind_isSome_iff]
  by_cases h : k = k2
  · subst h
    simp [mapFind_mapSet_self]
  · rw [mapFind_mapSet_ne lt m k k2 v h]
    have : ¬ k2 = k := fun h2 => h h2.symm
    simp [this]

theorem keys_mapUpd {κ ν : Type} [DecidableEq κ] (lt : κ → κ → Bool) (m : List (κ × ν))
    (k k2 : κ) (d : ν) (f : ν → ν) :
    k2 ∈ (mapUpd lt m k d f).map Prod.fst ↔ k2 = k ∨ k2 ∈ m.map Prod.fst :=
  keys_mapSet lt m k k2 _

theorem mapFind_some_mem {κ ν : Type} [DecidableEq κ] (m : List (κ × ν)) (k : κ) (v : ν)
    (h : mapFind m k = some v) : (k, v) ∈ m := by
  induction m with
  | nil => simp [mapFind] at h
  | cons hd t ih =>
    obtain ⟨k1, v1⟩ := hd
    by_cases h1 : k1 = k
    · simp only [mapFind, h1, if_true, Option.some.injEq] at h
      rw [h1, h]
      exact List.mem_cons_self _ _
    · simp only [mapFind, h1, if_false] at h
      exact List.mem_cons_of_mem _ (ih h)

/-! ## Paired-record linker: both end entries -/

theorem addHit_eq (imap : IndexMap) (index : String) (key keyR : ScafKey) :
    addHit imap index key keyR
      = mapSet noLt imap index
          (if mapCount (mapUpd scafKeyLt ((mapFind imap index).getD []) key 0 (fun n => n + 1)) keyR = 0
           then mapSet scafKeyLt
              (mapUpd scafKeyLt ((mapFind imap index).getD []) key 0 (fun n => n + 1)) keyR 0
           else mapUpd scafKeyLt ((mapFind imap index).getD []) key 0 (fun n => n + 1)) := by
  unfold addHit
  simp only [mapUpd, mapAt, mapFind_mapSet_self, Option.getD_some, mapSet_mapSet]
  split_ifs <;> simp [mapSet_mapSet]

theorem balanced_addHit (imap : IndexMap) (index : String) (key keyR : ScafKey)
    (hR : keyR = (key.1, !key.2)) (h : Balanced imap) : Balanced (addHit imap index key keyR) := by
  have hold : ∀ k ∈ ((mapFind imap index).getD []).map Prod.fst,
      (k.1, !k.2) ∈ ((mapFind imap index).getD []).map Prod.fst := by
    cases hf : mapFind imap index with
    | none => simp
    | some sm => exact h (index, sm) (mapFind_some_mem imap index sm hf)
  have hK : key = (keyR.1, !keyR.2) := by rw [hR]; simp
  rw [addHit_eq]
  intro e he
  rcases mem_mapSet noLt imap index _ e he with he | he
  · exact h e he
  · rw [he]
    generalize (mapFind imap index).getD [] = old at hold
    intro k hk
    by_cases hc : mapCount (mapUpd scafKeyLt old key 0 (fun n => n + 1)) keyR = 0
    · simp only [hc, if_true] at hk ⊢
      rw [keys_mapSet, keys_mapUpd] at hk ⊢
      rcases hk with hk | hk | hk
      · right; left; rw [hk, ← hK]
      · left; rw [hk, ← hR]
      · right; right; exact hold k hk
    · simp only [hc, if_false] at hk ⊢
      have hin : keyR ∈ (mapUpd scafKeyLt old key 0 (fun n => n + 1)).map Prod.fst := by
        rw [← mapFind_isSome_iff]
        unfold mapCount at hc
        by_contra hcon
        exact hc (by simp [hcon])
      rw [keys_mapUpd] at hk
      rcases hk with hk | hk
      · rw [hk, ← hR]; exact hin
      · rw [keys_mapUpd]; right; exact hold k hk

theorem balanced_flush (P : ArcsParams) (s : ReadState) (h : Balanced s.imap) :
    Balanced (flush P s).imap := by
  unfold flush
  split
  · dsimp only
    split_ifs
    · exact balanced_addHit _ _ _ _ rfl h
    · exact balanced_addHit _ _ _ _ rfl h
    · exact h
    · exact h
  · exact h

theorem balanced_readRecord (P : ArcsParams) (s : ReadState) (r : SamRecord)
    (h : Balanced s.imap) : Balanced (readRecord P s r).imap := by
  obtain ⟨h1, _⟩ := preamble_fields s r (indexOf r.readName)
  show Balanced (pairing P (wrapCt (skipUnpaired (countIndex s (indexOf r.readName)) r)) r
    (indexOf r.readName)).imap
  rcases pairing_imap P (wrapCt (skipUnpaired (countIndex s (indexOf r.readName)) r)) r
    (indexOf r.readName) with hp | hp
  · rw [hp, h1]; exact h
  · rw [hp]
    apply balanced_flush
    show Balanced (wrapCt (skipUnpaired (countIndex s (indexOf r.readName)) r)).imap
    rw [h1]; exact h

theorem balanced_readLine (P : ArcsParams) (s : ReadState) (l : SamLine)
    (h : Balanced s.imap) : Balanced (readLine P s l).imap := by
  cases l with
  | header => exact h
  | record r => exact balanced_readRecord P s r h

theorem balanced_foldl (P : ArcsParams) (lines : List SamLine) (s : ReadState)
    (h : Balanced s.imap) : Balanced (lines.foldl (readLine P) s).imap := by
  induction lines generalizing s with
  | nil => exact h
  | cons l t ih => exact ih _ (balanced_readLine P s l h)

theorem mapCount_eq_one_iff {κ ν : Type} [DecidableEq κ] (m : List (κ × ν)) (k : κ) :
    mapCount m k = 1 ↔ k ∈ m.map Prod.fst := by
  rw [← mapFind_isSome_iff]
  unfold mapCount
  split_ifs with h <;> simp [h]

/-- C2: `readBAM` preserves the invariant of IndexMap.  If, in the starting
IndexMap, every scaffold under a barcode that has one end key has the other
one too, the same holds after any record stream: for every barcode `b` and
scaffold `sc`, `IndexMap[b]` contains `(sc, Head)` iff it contains
`(sc, Tail)`. -/
theorem readBAM_keeps_both_ends (P : ArcsParams) (lines : List SamLine) (imap : IndexMap)
    (indexMultMap sMap : CountMap) (h : Balanced imap) :
    Balanced (readBAM P lines imap indexMultMap sMap).imap
    ∧ ∀ b sm, mapFind (readBAM P lines imap indexMultMap sMap).imap b = some sm →
        ∀ sc, (mapCount sm (sc, true) = 1 ↔ mapCount sm (sc, false) = 1) := by
  have hb : Balanced (readBAM P lines imap indexMultMap sMap).imap :=
    balanced_foldl P lines (initState imap indexMultMap sMap) h
  refine ⟨hb, ?_⟩
  intro b sm hf sc
  have hmem := mapFind_some_mem _ b sm hf
  rw [mapCount_eq_one_iff, mapCount_eq_one_iff]
  constructor
  · intro hk
    simpa using hb (b, sm) hmem (sc, true) hk
  · intro hk
    simpa using hb (b, sm) hmem (sc, false) hk

theorem readBAM_keeps_both_ends_witness :
    Balanced [("ACGT", [(("S1", false), 0), (("S1", true), 2)])]
    ∧ (readBAM { sampleParams with min_size := 0 } pairOnS9
        [("ACGT", [(("S1", false), 0), (("S1", true), 2)])] [] [("S1", 1000)]).imap
      = [("ACGT", [(("S1", false), 0), (("S1", true), 2), (("S9", false), 1), (("S9", true), 0)])]
    ∧ Balanced (readBAM { sampleParams with min_size := 0 } pairOnS9
        [("ACGT", [(("S1", false), 0), (("S1", true), 2)])] [] [("S1", 1000)]).imap :=
  ⟨by unfold Balanced; decide, by decide,
    (readBAM_keeps_both_ends { sampleParams with min_size := 0 } pairOnS9
      [("ACGT", [(("S1", false), 0), (("S1", true), 2)])] [] [("S1", 1000)]
      (by unfold Balanced; decide)).1⟩

/-! ## Pairing: the multiplicity filter -/

theorem pairStep_mult (P : ArcsParams) (st : PairState) (e : String × ScafMap) (k : String) :
    (mapFind (pairStep P st e).mult k).getD 0 = (mapFind st.mult k).getD 0 := by
  unfold pairStep
  dsimp only
  split_ifs <;> exact mapFind_mapAt_getD noLt st.mult e.1 k 0

theorem pairStep_pmap (P : ArcsParams) (st : PairState) (e : String × ScafMap) :
    (pairStep P st e).pmap
      = if P.min_mult ≤ (mapFind st.mult e.1).getD 0 ∧ (mapFind st.mult e.1).getD 0 ≤ P.max_mult
        then (pairOuter P (e.2.map Prod.fst) (e.2.map Prod.fst) (e.2, st.pmap)).2
        else st.pmap := by
  unfold pairStep
  dsimp only
  rw [mapAt_fst]
  split_ifs <;> rfl

theorem pairStep_pmap_congr (P : ArcsParams) (st st2 : PairState) (e : String × ScafMap)
    (hp : st.pmap = st2.pmap)
    (hm : ∀ k, (mapFind st.mult k).getD 0 = (mapFind st2.mult k).getD 0) :
    (pairStep P st e).pmap = (pairStep P st2 e).pmap := by
  rw [pairStep_pmap, pairStep_pmap, hp, hm e.1]

theorem pairFold_congr (P : ArcsParams) (l : IndexMap) (st st2 : PairState)
    (hp : st.pmap = st2.pmap)
    (hm : ∀ k, (mapFind st.mult k).getD 0 = (mapFind st2.mult k).getD 0) :
    (l.foldl (pairStep P) st).pmap = (l.foldl (pairStep P) st2).pmap := by
  induction l generalizing st st2 with
  | nil => exact hp
  | cons e t ih =>
    simp only [List.foldl_cons]
    apply ih
    · exact pairStep_pmap_congr P st st2 e hp hm
    · intro k
      rw [pairStep_mult, pairStep_mult, hm k]

theorem pairFold_mult (P : ArcsParams) (l : IndexMap) (st : PairState) (k : String) :
    (mapFind (l.foldl (pairStep P) st).mult k).getD 0 = (mapFind st.mult k).getD 0 := by
  induction l generalizing st with
  | nil => rfl
  | cons e t ih =>
    simp only [List.foldl_cons]
    rw [ih, pairStep_mult]

/-- C4: a barcode whose multiplicity in the multiplicity map (0 when the
barcode is absent from it) is below `min_mult` or above `max_mult` changes
nothing in PairMap: `pairContigs` yields the same PairMap as on the IndexMap
without that barcode, whatever the head/tail counts `sm` of the barcode are. -/
theorem pairContigs_ignores_out_of_range (P : ArcsParams) (l1 l2 : IndexMap) (b : String)
    (sm : ScafMap) (pmap : PairMap) (mult : CountMap)
    (h : (mapFind mult b).getD 0 < P.min_mult ∨ P.max_mult < (mapFind mult b).getD 0) :
    (pairContigs P (l1 ++ (b, sm) :: l2) pmap mult).pmap
      = (pairContigs P (l1 ++ l2) pmap mult).pmap := by
  unfold pairContigs
  simp only [List.foldl_append, List.foldl_cons]
  apply pairFold_congr
  · rw [pairStep_pmap]
    have hm := pairFold_mult P l1 { imap := [], pmap := pmap, mult := mult } b
    simp only at hm
    have hno : ¬ (P.min_mult ≤ (mapFind (l1.foldl (pairStep P)
          { imap := [], pmap := pmap, mult := mult }).mult b).getD 0
        ∧ (mapFind (l1.foldl (pairStep P)
          { imap := [], pmap := pmap, mult := mult }).mult b).getD 0 ≤ P.max_mult) := by
      rw [hm]
      omega
    simp only [hno, if_false]
  · intro k
    exact pairStep_mult P _ (b, sm) k

theorem pairContigs_ignores_out_of_range_witness :
    ((mapFind [("ACGT", (200000 : Int)), ("TTTT", 60)] "ACGT").getD 0 < sampleParams.min_mult
      ∨ sampleParams.max_mult < (mapFind [("ACGT", (200000 : Int)), ("TTTT", 60)] "ACGT").getD 0)
    ∧ (pairContigs sampleParams ([] ++ ("ACGT", countsACGT) :: [("TTTT", countsTTTT)]) []
        [("ACGT", 200000), ("TTTT", 60)]).pmap
      = (pairContigs sampleParams ([] ++ [("TTTT", countsTTTT)]) []
        [("ACGT", 200000), ("TTTT", 60)]).pmap :=
  ⟨by decide,
    pairContigs_ignores_out_of_range sampleParams [] [("TTTT", countsTTTT)] "ACGT" countsACGT []
      [("ACGT", 200000), ("TTTT", 60)] (Or.inr (by decide))⟩

/-! ## Pairing: the effect of the loops on `pmap` -/

theorem addLink_eq (pm : PairMap) (pair : PairKey) (i : Nat) :
    mapUpd pairKeyLt
        (if mapCount pm pair = 0 then mapSet pairKeyLt pm pair [0, 0, 0, 0] else pm) pair []
        (fun v => vecInc v i)
      = addLink pm pair i := by
  unfold addLink mapUpd mapCount
  cases hf : mapFind pm pair with
  | none => simp [mapFind_mapSet_self, mapSet_mapSet]
  | some v => simp [hf]

theorem pairBody_eq (P : ArcsParams) (sm : ScafMap) (ko kp : ScafKey) (st : ScafMap × PairMap)
    (hs : ∀ k, (mapFind st.1 k).getD 0 = (mapFind sm k).getD 0) :
    (pairBody P ko kp st).2 = linkBody P sm ko kp st.2
    ∧ ∀ k, (mapFind (pairBody P ko kp st).1 k).getD 0 = (mapFind sm k).getD 0 := by
  unfold pairBody linkBody classify
  simp only [mapAt_fst, mapFind_mapAt_getD, hs, addLink_eq]
  generalize headOrTail P ((mapFind sm (ko.1, true)).getD 0)
    ((mapFind sm (ko.1, false)).getD 0) = rA
  generalize headOrTail P ((mapFind sm (kp.1, true)).getD 0)
    ((mapFind sm (kp.1, false)).getD 0) = rB
  generalize (strLt ko.1 kp.1 && ko.2 && kp.2) = g
  obtain ⟨vA, hA⟩ := rA
  obtain ⟨vB, hB⟩ := rB
  cases g <;> cases vA <;> cases vB <;> cases hA <;> cases hB <;>
    simp [orientation, mapFind_mapAt_getD, hs]

theorem pairInner_eq (P : ArcsParams) (sm : ScafMap) (ko : ScafKey) (ks : List ScafKey)
    (st : ScafMap × PairMap) (hs : ∀ k, (mapFind st.1 k).getD 0 = (mapFind sm k).getD 0) :
    (pairInner P ko ks st).2 = ks.foldl (fun pm kp => linkBody P sm ko kp pm) st.2
    ∧ ∀ k, (mapFind (pairInner P ko ks st).1 k).getD 0 = (mapFind sm k).getD 0 := by
  unfold pairInner
  induction ks generalizing st with
  | nil => exact ⟨rfl, hs⟩
  | cons kp t ih =>
    simp only [List.foldl_cons]
    obtain ⟨h1, h2⟩ := pairBody_eq P sm ko kp st hs
    rw [← h1]
    exact ih _ h2

theorem pairOuter_eq (P : ArcsParams) (sm : ScafMap) (os ks : List ScafKey)
    (st : ScafMap × PairMap) (hs : ∀ k, (mapFind st.1 k).getD 0 = (mapFind sm k).getD 0) :
    (pairOuter P os ks st).2
      = os.foldl (fun pm ko => ks.foldl (fun pm2 kp => linkBody P sm ko kp pm2) pm) st.2
    ∧ ∀ k, (mapFind (pairOuter P os ks st).1 k).getD 0 = (mapFind sm k).getD 0 := by
  unfold pairOuter
  induction os generalizing st with
  | nil => exact ⟨rfl, hs⟩
  | cons ko t ih =>
    simp only [List.foldl_cons]
    obtain ⟨h1, h2⟩ := pairInner_eq P sm ko ks st hs
    rw [← h1]
    exact ih _ h2

theorem foldl_obs_once {κ σ τ : Type} [DecidableEq κ] (f : σ → κ → σ) (obs : σ → τ) (x0 : κ)
    (g : τ → τ) (hne : ∀ s x, x ≠ x0 → obs (f s x) = obs s)
    (heq : ∀ s, obs (f s x0) = g (obs s)) (l : List κ) (hnd : l.Nodup) (s : σ) :
    (x0 ∈ l → obs (l.foldl f s) = g (obs s)) ∧ (x0 ∉ l → obs (l.foldl f s) = obs s) := by
  induction l generalizing s with
  | nil => simp
  | cons x t ih =>
    obtain ⟨hx, ht⟩ := List.nodup_cons.1 hnd
    simp only [List.foldl_cons]
    obtain ⟨ih1, ih2⟩ := ih ht (f s x)
    by_cases hx0 : x = x0
    · subst hx0
      refine ⟨fun _ => ?_, fun h => absurd (List.mem_cons_self _ _) h⟩
      rw [ih2 hx, heq]
    · refine ⟨fun h => ?_, fun h => ?_⟩
      · rcases List.mem_cons.1 h with h | h
        · exact absurd h.symm hx0
        · rw [ih1 h, hne s x hx0]
      · rw [ih2 (fun h2 => h (List.mem_cons_of_mem _ h2)), hne s x hx0]

theorem mapFind_addLink (pm : PairMap) (pair K : PairKey) (i : Nat) :
    mapFind (addLink pm pair i) K
      = if pair = K then some (vecInc ((mapFind pm K).getD [0, 0, 0, 0]) i) else mapFind pm K := by
  unfold addLink
  by_cases h : pair = K
  · subst h
    simp [mapFind_mapSet_self]
  · simp [h, mapFind_mapSet_ne pairKeyLt pm pair K _ h]

theorem mapFind_linkBody (P : ArcsParams) (sm : ScafMap) (ko kp : ScafKey) (pm : PairMap)
    (a b : String) :
    mapFind (linkBody P sm ko kp pm) (a, b)
      = if ko = (a, true) ∧ kp = (b, true)
          ∧ (strLt a b && (classify P sm a).1 && (classify P sm b).1) = true
        then some (vecInc ((mapFind pm (a, b)).getD [0, 0, 0, 0])
          (orientation (classify P sm a).2 (classify P sm b).2))
        else mapFind pm (a, b) := by
  obtain ⟨a1, fa⟩ := ko
  obtain ⟨b1, fb⟩ := kp
  unfold linkBody
  by_cases hk : a1 = a ∧ b1 = b
  · obtain ⟨rfl, rfl⟩ := hk
    cases fa <;> cases fb <;> simp [mapFind_addLink]
    by_cases hc : strLt a1 b1 = true ∧ (classify P sm a1).1 = true ∧ (classify P sm b1).1 = true
    · obtain ⟨h1, h2, h3⟩ := hc
      simp [h1, h2, h3, mapFind_addLink]
    · have hc2 : ¬ ((strLt a1 b1 = true ∧ (classify P sm a1).1 = true)
          ∧ (classify P sm b1).1 = true) := fun h => hc ⟨h.1.1, h.1.2, h.2⟩
      simp [hc2]
  · have hne : ¬ ((a1, b1) : PairKey) = (a, b) := by
      intro h
      apply hk
      simpa using h
    have hne2 : ¬ (((a1, fa) : ScafKey) = (a, true) ∧ ((b1, fb) : ScafKey) = (b, true) ∧
        (strLt a b && (classify P sm a).1 && (classify P sm b).1) = true) := by
      intro h
      apply hk
      exact ⟨(Prod.mk.injEq _ _ _ _ ▸ h.1).1, (Prod.mk.injEq _ _ _ _ ▸ h.2.1).1⟩
    rw [if_neg hne2]
    split_ifs
    · rw [mapFind_addLink, if_neg hne]
    · rfl

theorem mapFind_inner (P : ArcsParams) (sm : ScafMap) (ko : ScafKey) (ks : List ScafKey)
    (pm : PairMap) (a b : String) (hnd : ks.Nodup) :
    mapFind (ks.foldl (fun pm2 kp => linkBody P sm ko kp pm2) pm) (a, b)
      = if (b, true) ∈ ks ∧ ko = (a, true)
          ∧ (strLt a b && (classify P sm a).1 && (classify P sm b).1) = true
        then some (vecInc ((mapFind pm (a, b)).getD [0, 0, 0, 0])
          (orientation (classify P sm a).2 (classify P sm b).2))
        else mapFind pm (a, b) := by
  obtain ⟨h1, h2⟩ := foldl_obs_once (fun pm2 kp => linkBody P sm ko kp pm2)
    (fun pm2 => mapFind pm2 (a, b)) (b, true)
    (fun o => if ko = (a, true) ∧ (strLt a b && (classify P sm a).1 && (classify P sm b).1) = true
      then some (vecInc (o.getD [0, 0, 0, 0]) (orientation (classify P sm a).2 (classify P sm b).2))
      else o)
    (by
      intro s x hx
      show mapFind (linkBody P sm ko x s) (a, b) = mapFind s (a, b)
      rw [mapFind_linkBody, if_neg]
      exact fun h => hx h.2.1)
    (by
      intro s
      show mapFind (linkBody P sm ko (b, true) s) (a, b) = _
      rw [mapFind_linkBody]
      simp)
    ks hnd pm
  by_cases hb : (b, true) ∈ ks
  · rw [h1 hb]
    simp [hb]
  · rw [h2 hb]
    simp [hb]

theorem mapFind_outer (P : ArcsParams) (sm : ScafMap) (os ks : List ScafKey)
    (pm : PairMap) (a b : String) (hos : os.Nodup) (hks : ks.Nodup) :
    mapFind (os.foldl (fun pm1 ko => ks.foldl (fun pm2 kp => linkBody P sm ko kp pm2) pm1) pm)
        (a, b)
      = if (a, true) ∈ os ∧ (b, true) ∈ ks
          ∧ (strLt a b && (classify P sm a).1 && (classify P sm b).1) = true
        then some (vecInc ((mapFind pm (a, b)).getD [0, 0, 0, 0])
          (orientation (classify P sm a).2 (classify P sm b).2))
        else mapFind pm (a, b) := by
  obtain ⟨h1, h2⟩ := foldl_obs_once
    (fun pm1 ko => ks.foldl (fun pm2 kp => linkBody P sm ko kp pm2) pm1)
    (fun pm2 => mapFind pm2 (a, b)) (a, true)
    (fun o => if (b, true) ∈ ks ∧ (strLt a b && (classify P sm a).1 && (classify P sm b).1) = true
      then some (vecInc (o.getD [0, 0, 0, 0]) (orientation (classify P sm a).2 (classify P sm b).2))
      else o)
    (by
      intro s x hx
      show mapFind (ks.foldl (fun pm2 kp => linkBody P sm x kp pm2) s) (a, b) = mapFind s (a, b)
      rw [mapFind_inner P sm x ks s a b hks, if_neg]
      exact fun h => hx h.2.1)
    (by
      intro s
      show mapFind (ks.foldl (fun pm2 kp => linkBody P sm (a, true) kp pm2) s) (a, b) = _
      rw [mapFind_inner P sm (a, true) ks s a b hks]
      simp)
    os hos pm
  by_cases ha : (a, true) ∈ os
  · rw [h1 ha]
    simp [ha]
  · rw [h2 ha]
    simp [ha]

theorem mapFind_pairStep (P : ArcsParams) (st : PairState) (e : String × ScafMap)
    (a b : String) (hnd : (e.2.map Prod.fst).Nodup) :
    mapFind (pairStep P st e).pmap (a, b)
      = if linked P ((mapFind st.mult e.1).getD 0) e.2 a b = true
        then some (vecInc ((mapFind st.pmap (a, b)).getD [0, 0, 0, 0])
          (orientation (classify P e.2 a).2 (classify P e.2 b).2))
        else mapFind st.pmap (a, b) := by
  rw [pairStep_pmap]
  by_cases hr : P.min_mult ≤ (mapFind st.mult e.1).getD 0
      ∧ (mapFind st.mult e.1).getD 0 ≤ P.max_mult
  · rw [if_pos hr, (pairOuter_eq P e.2 _ _ (e.2, st.pmap) (fun _ => rfl)).1,
      mapFind_outer P e.2 _ _ _ a b hnd hnd]
    unfold linked
    simp only [Bool.and_eq_true, decide_eq_true_eq]
    by_cases hc : (a, true) ∈ e.2.map Prod.fst ∧ (b, true) ∈ e.2.map Prod.fst
        ∧ (strLt a b = true ∧ (classify P e.2 a).1 = true) ∧ (classify P e.2 b).1 = true
    · rw [if_pos hc, if_pos]
      exact ⟨⟨⟨⟨⟨hr, hc.1⟩, hc.2.1⟩, hc.2.2.1.1⟩, hc.2.2.1.2⟩, hc.2.2.2⟩
    · rw [if_neg hc, if_neg]
      intro h
      exact hc ⟨h.1.1.1.1.2, h.1.1.1.2, ⟨h.1.1.2, h.1.2⟩, h.2⟩
  · rw [if_neg hr, if_neg]
    unfold linked
    simp only [Bool.and_eq_true, decide_eq_true_eq]
    intro h
    exact hr h.1.1.1.1.1

/-! ## Pairing: agreement with the reference definition -/

theorem counters_getD (n0 n1 n2 n3 : Nat) :
    (counters n0 n1 n2 n3).getD [0, 0, 0, 0] = [(n0 : Int), n1, n2, n3] := by
  unfold counters
  split_ifs with h
  · obtain ⟨h0, h1, h2, h3⟩ := h
    simp [h0, h1, h2, h3]
  · rfl

theorem supports_eq (P : ArcsParams) (mult : CountMap) (a b : String) (k : Nat)
    (e : String × ScafMap) (hbal : ∀ key ∈ e.2.map Prod.fst, (key.1, !key.2) ∈ e.2.map Prod.fst)
    (hab : strLt a b = true) :
    supports P mult a b k e
      = (linked P ((mapFind mult e.1).getD 0) e.2 a b
          && decide (orientation (classify P e.2 a).2 (classify P e.2 b).2 = k)) := by
  have hocc : ∀ s, occurs e.2 s = decide ((s, true) ∈ e.2.map Prod.fst) := by
    intro s
    unfold occurs
    by_cases h1 : (s, true) ∈ e.2.map Prod.fst
    · simp [h1]
    · have h2 : (s, false) ∉ e.2.map Prod.fst := by
        intro h
        apply h1
        simpa using hbal (s, false) h
      simp only [h1, h2, decide_False, Bool.or_self]
  have hor : ∀ x y, orientationOf x y = orientation x y := by
    intro x y
    cases x <;> cases y <;> rfl
  unfold supports linked
  rw [hocc a, hocc b, hab, hor]
  simp only [Bool.and_true]

theorem linkCount_cons (P : ArcsParams) (mult : CountMap) (a b : String) (k : Nat)
    (e : String × ScafMap) (t : IndexMap) :
    linkCount P (e :: t) mult a b k
      = linkCount P t mult a b k + (if supports P mult a b k e = true then 1 else 0) := by
  unfold linkCount
  by_cases h : supports P mult a b k e = true
  · simp [List.filter_cons, h]
  · simp [List.filter_cons, h]

theorem orientation_lt (x y : Bool) :
    orientation x y = 0 ∨ orientation x y = 1 ∨ orientation x y = 2 ∨ orientation x y = 3 := by
  cases x <;> cases y <;> simp [orientation]

theorem counters_succ (n0 n1 n2 n3 : Nat) (i : Nat) (hi : i = 0 ∨ i = 1 ∨ i = 2 ∨ i = 3) :
    some (vecInc [(n0 : Int), n1, n2, n3] i)
      = counters (n0 + (if i = 0 then 1 else 0)) (n1 + (if i = 1 then 1 else 0))
          (n2 + (if i = 2 then 1 else 0)) (n3 + (if i = 3 then 1 else 0)) := by
  rcases hi with rfl | rfl | rfl | rfl <;> simp [vecInc, counters]

theorem pairFold_counters (P : ArcsParams) (mult : CountMap) (a b : String)
    (hab : strLt a b = true) (l : IndexMap)
    (hnd : ∀ e ∈ l, (e.2.map Prod.fst).Nodup) (hbal : Balanced l)
    (st : PairState) (n0 n1 n2 n3 : Nat)
    (hst : mapFind st.pmap (a, b) = counters n0 n1 n2 n3)
    (hm : ∀ k, (mapFind st.mult k).getD 0 = (mapFind mult k).getD 0) :
    mapFind (l.foldl (pairStep P) st).pmap (a, b)
      = counters (n0 + linkCount P l mult a b 0) (n1 + linkCount P l mult a b 1)
          (n2 + linkCount P l mult a b 2) (n3 + linkCount P l mult a b 3) := by
  induction l generalizing st n0 n1 n2 n3 with
  | nil => simpa [linkCount] using hst
  | cons e t ih =>
    have hnd2 : ∀ e2 ∈ t, (e2.2.map Prod.fst).Nodup :=
      fun e2 h2 => hnd e2 (List.mem_cons_of_mem _ h2)
    have hbal2 : Balanced t := fun e2 h2 => hbal e2 (List.mem_cons_of_mem _ h2)
    have hm2 : ∀ k, (mapFind (pairStep P st e).mult k).getD 0 = (mapFind mult k).getD 0 := by
      intro k
      rw [pairStep_mult, hm k]
    have step := mapFind_pairStep P st e a b (hnd e (List.mem_cons_self _ _))
    rw [hm e.1, hst, counters_getD] at step
    have hsup := fun k => supports_eq P mult a b k e (hbal e (List.mem_cons_self _ _)) hab
    simp only [List.foldl_cons, linkCount_cons, hsup]
    by_cases hl : linked P ((mapFind mult e.1).getD 0) e.2 a b = true
    · rw [if_pos hl, counters_succ _ _ _ _ _ (orientation_lt _ _)] at step
      have h := ih hnd2 hbal2 (pairStep P st e) _ _ _ _ step hm2
      rw [h]
      simp only [hl, Bool.true_and, decide_eq_true_eq]
      congr 1 <;> omega
    · rw [if_neg hl] at step
      have h := ih hnd2 hbal2 (pairStep P st e) _ _ _ _ step hm2
      rw [h]
      simp [hl]

/-- C1: `pairContigs` equals its reference definition.  Starting from an
empty PairMap, on an IndexMap whose ScafMaps have distinct keys and hold both
end entries of every scaffold, for every pair of scaffolds `a < b` the entry
`PairMap[(a, b)]` is `pairMapRef`: the key is present iff one of the four
numbers `linkCount .. k` (the number of barcodes in the multiplicity range
under which both scaffolds occur, are significant, and have the flags of
orientation `k`) is positive, and its value is then the 4-element vector of
these numbers. -/
theorem pairContigs_eq_reference (P : ArcsParams) (imap : IndexMap) (mult : CountMap)
    (a b : String) (hnd : ∀ e ∈ imap, (e.2.map Prod.fst).Nodup) (hbal : Balanced imap)
    (hab : strLt a b = true) :
    mapFind (pairContigs P imap [] mult).pmap (a, b) = pairMapRef P imap mult a b
    ∧ ((a, b) ∈ (pairContigs P imap [] mult).pmap.map Prod.fst
        ↔ ∃ k, k < 4 ∧ 0 < linkCount P imap mult a b k)
    ∧ (∀ v, mapFind (pairContigs P imap [] mult).pmap (a, b) = some v →
        v = [(linkCount P imap mult a b 0 : Int), linkCount P imap mult a b 1,
             linkCount P imap mult a b 2, linkCount P imap mult a b 3]) := by
  have h := pairFold_counters P mult a b hab imap hnd hbal
    { imap := [], pmap := [], mult := mult } 0 0 0 0 (by simp [mapFind, counters]) (fun _ => rfl)
  simp only [Nat.zero_add] at h
  have heq : mapFind (pairContigs P imap [] mult).pmap (a, b) = pairMapRef P imap mult a b := h
  refine ⟨heq, ?_, ?_⟩
  · rw [← mapFind_isSome_iff, heq]
    unfold pairMapRef counters
    constructor
    · intro hs
      split_ifs at hs with hz
      · simp at hs
      · by_contra hno
        apply hz
        refine ⟨?_, ?_, ?_, ?_⟩ <;>
          (by_contra h0
           exact hno ⟨_, by decide, Nat.pos_of_ne_zero h0⟩)
    · rintro ⟨k, hk, hpos⟩
      have hz : ¬ (linkCount P imap mult a b 0 = 0 ∧ linkCount P imap mult a b 1 = 0
          ∧ linkCount P imap mult a b 2 = 0 ∧ linkCount P imap mult a b 3 = 0) := by
        rintro ⟨h0, h1, h2, h3⟩
        have : k = 0 ∨ k = 1 ∨ k = 2 ∨ k = 3 := by omega
        rcases this with rfl | rfl | rfl | rfl <;> omega
      simp [hz]
  · intro v hv
    rw [heq] at hv
    unfold pairMapRef counters at hv
    split_ifs at hv
    exact (Option.some.inj hv).symm

theorem pairContigs_eq_reference_witness :
    (∀ e ∈ sampleIndexMap, (e.2.map Prod.fst).Nodup) ∧ Balanced sampleIndexMap
    ∧ strLt "S1" "S2" = true
    ∧ pairMapRef sampleParams sampleIndexMap [("ACGT", 60), ("TTTT", 60)] "S1" "S2"
        = some [1, 1, 0, 0]
    ∧ mapFind (pairContigs sampleParams sampleIndexMap [] [("ACGT", 60), ("TTTT", 60)]).pmap
        ("S1", "S2")
      = pairMapRef sampleParams sampleIndexMap [("ACGT", 60), ("TTTT", 60)] "S1" "S2" :=
  ⟨by decide, by unfold Balanced; decide, by decide, by decide,
    (pairContigs_eq_reference sampleParams sampleIndexMap [("ACGT", 60), ("TTTT", 60)] "S1" "S2"
      (by decide) (by unfold Balanced; decide) (by decide)).1⟩

/-! ## Pairing: the keys of `pmap` -/

theorem pairKeyLt_iff (x y : PairKey) :
    pairKeyLt x y = true ↔ x.1 < y.1 ∨ (x.1 = y.1 ∧ x.2 < y.2) := by
  simp [pairKeyLt, strLt_iff]

theorem pairKeyLt_irrefl (x : PairKey) : pairKeyLt x x = false := by
  cases h : pairKeyLt x x with
  | false => rfl
  | true =>
    rcases (pairKeyLt_iff x x).1 h with h1 | ⟨_, h2⟩
    · exact absurd h1 (lt_irrefl _)
    · exact absurd h2 (lt_irrefl _)

theorem pairKeyLt_trans (x y z : PairKey) (h1 : pairKeyLt x y = true) (h2 : pairKeyLt y z = true) :
    pairKeyLt x z = true := by
  rw [pairKeyLt_iff] at *
  rcases h1 with h1 | ⟨e1, h1⟩ <;> rcases h2 with h2 | ⟨e2, h2⟩
  · exact Or.inl (lt_trans h1 h2)
  · exact Or.inl (e2 ▸ h1)
  · exact Or.inl (e1 ▸ h2)
  · exact Or.inr ⟨e1.trans e2, lt_trans h1 h2⟩

theorem pairKeyLt_total (x y : PairKey) (hne : x ≠ y) (h : pairKeyLt x y = false) :
    pairKeyLt y x = true := by
  have h2 : ¬ (x.1 < y.1 ∨ (x.1 = y.1 ∧ x.2 < y.2)) := by
    rw [← pairKeyLt_iff, h]
    simp
  rw [pairKeyLt_iff]
  rcases lt_trichotomy x.1 y.1 with h1 | h1 | h1
  · exact absurd (Or.inl h1) h2
  · rcases lt_trichotomy x.2 y.2 with h3 | h3 | h3
    · exact absurd (Or.inr ⟨h1, h3⟩) h2
    · exact absurd (Prod.ext h1 h3) hne
    · exact Or.inr ⟨h1.symm, h3⟩
  · exact Or.inl h1

theorem sorted_mapSet {κ ν : Type} [DecidableEq κ] (lt : κ → κ → Bool)
    (htrans : ∀ x y z, lt x y = true → lt y z = true → lt x z = true)
    (htotal : ∀ x y, x ≠ y → lt x y = false → lt y x = true)
    (m : List (κ × ν)) (k : κ) (v : ν)
    (hs : m.Pairwise (fun x y => lt x.1 y.1 = true)) :
    (mapSet lt m k v).Pairwise (fun x y => lt x.1 y.1 = true) := by
  induction m with
  | nil => simp [mapSet]
  | cons hd t ih =>
    obtain ⟨k1, v1⟩ := hd
    obtain ⟨hhd, ht⟩ := List.pairwise_cons.1 hs
    by_cases h1 : k1 = k
    · subst h1
      simp only [mapSet, if_true]
      exact List.pairwise_cons.2 ⟨hhd, ht⟩
    · by_cases h2 : lt k k1 = true
      · simp only [mapSet, h1, h2, if_true, if_false]
        refine List.pairwise_cons.2 ⟨?_, hs⟩
        intro y hy
        rcases List.mem_cons.1 hy with hy | hy
        · rw [hy]; exact h2
        · exact htrans _ _ _ h2 (hhd y hy)
      · simp only [mapSet, h1, h2, if_false, Bool.false_eq_true]
        refine List.pairwise_cons.2 ⟨?_, ih ht⟩
        intro y hy
        rcases mem_mapSet lt t k v y hy with hy | hy
        · exact hhd y hy
        · rw [hy]
          exact htotal k k1 (fun h => h1 h.symm) (by simpa using h2)

theorem nodup_keys_of_sorted (pm : PairMap)
    (hs : pm.Pairwise (fun x y => pairKeyLt x.1 y.1 = true)) : (pm.map Prod.fst).Nodup := by
  rw [List.Nodup, List.pairwise_map]
  refine List.Pairwise.imp ?_ hs
  intro x y hxy heq
  rw [heq, pairKeyLt_irrefl] at hxy
  exact absurd hxy (by simp)

theorem sorted_linkBody (P : ArcsParams) (sm : ScafMap) (ko kp : ScafKey) (pm : PairMap)
    (hs : pm.Pairwise (fun x y => pairKeyLt x.1 y.1 = true)) :
    (linkBody P sm ko kp pm).Pairwise (fun x y => pairKeyLt x.1 y.1 = true) := by
  unfold linkBody
  split_ifs
  · exact sorted_mapSet pairKeyLt pairKeyLt_trans pairKeyLt_total pm _ _ hs
  · exact hs

theorem foldl_preserves {σ κ : Type} (Q : σ → Prop) (f : σ → κ → σ)
    (hf : ∀ s x, Q s → Q (f s x)) (l : List κ) (s : σ) (h : Q s) : Q (l.foldl f s) := by
  induction l generalizing s with
  | nil => exact h
  | cons x t ih => exact ih _ (hf s x h)

theorem pairStep_preserves (Q : PairMap → Prop) (P : ArcsParams)
    (hQ : ∀ sm ko kp pm, Q pm → Q (linkBody P sm ko kp pm))
    (st : PairState) (e : String × ScafMap) (h : Q st.pmap) : Q (pairStep P st e).pmap := by
  rw [pairStep_pmap]
  split_ifs
  · rw [(pairOuter_eq P e.2 _ _ (e.2, st.pmap) (fun _ => rfl)).1]
    apply foldl_preserves Q _ _ _ _ h
    intro pm ko hpm
    apply foldl_preserves Q _ _ _ _ hpm
    intro pm2 kp hpm2
    exact hQ e.2 ko kp pm2 hpm2
  · exact h

theorem pairContigs_preserves (Q : PairMap → Prop) (P : ArcsParams)
    (hQ : ∀ sm ko kp pm, Q pm → Q (linkBody P sm ko kp pm))
    (imap : IndexMap) (pmap : PairMap) (mult : CountMap) (h : Q pmap) :
    Q (pairContigs P imap pmap mult).pmap := by
  unfold pairContigs
  exact foldl_preserves (fun (st : PairState) => Q st.pmap) _ (pairStep_preserves Q P hQ) imap _ h

/-- C3: every key `(a, b)` that `pairContigs` inserts into PairMap satisfies
`a < b` in string order, so `a ≠ b`, and the reversed key `(b, a)` is never
inserted; the keys of the resulting PairMap are pairwise distinct, so that
each unordered pair of scaffolds has at most one entry. -/
theorem pairContigs_keys_canonical (P : ArcsParams) (imap : IndexMap) (mult : CountMap)
    (pmap : PairMap) (hs : pmap.Pairwise (fun x y => pairKeyLt x.1 y.1 = true)) :
    (∀ a b, (a, b) ∈ (pairContigs P imap pmap mult).pmap.map Prod.fst →
        (a, b) ∉ pmap.map Prod.fst →
        (strLt a b = true ∧ a < b ∧ a ≠ b)
        ∧ ((b, a) ∈ (pairContigs P imap pmap mult).pmap.map Prod.fst → (b, a) ∈ pmap.map Prod.fst))
    ∧ ((pairContigs P imap pmap mult).pmap.map Prod.fst).Nodup := by
  have hcanon : ∀ a b, (a, b) ∈ (pairContigs P imap pmap mult).pmap.map Prod.fst →
      (a, b) ∉ pmap.map Prod.fst → strLt a b = true := by
    intro a b hin hout
    by_contra hlt
    have hfind : mapFind (pairContigs P imap pmap mult).pmap (a, b) = mapFind pmap (a, b) := by
      apply pairContigs_preserves (fun pm => mapFind pm (a, b) = mapFind pmap (a, b)) P _ imap
        pmap mult rfl
      intro sm ko kp pm hpm
      rw [mapFind_linkBody, if_neg, hpm]
      intro h
      apply hlt
      have := h.2.2
      simp only [Bool.and_eq_true] at this
      exact this.1.1
    rw [← mapFind_isSome_iff, hfind, mapFind_isSome_iff] at hin
    exact hout hin
  refine ⟨?_, ?_⟩
  · intro a b hin hout
    have hab := hcanon a b hin hout
    have hab2 : a < b := (strLt_iff a b).1 hab
    refine ⟨⟨hab, hab2, ne_of_lt hab2⟩, ?_⟩
    intro hrev
    by_contra hrout
    have hba : b < a := (strLt_iff b a).1 (hcanon b a hrev hrout)
    exact lt_asymm hab2 hba
  · apply nodup_keys_of_sorted
    exact pairContigs_preserves _ P (fun sm ko kp pm h => sorted_linkBody P sm ko kp pm h)
      imap pmap mult hs

theorem pairContigs_keys_canonical_witness :
    ([] : PairMap).Pairwise (fun x y => pairKeyLt x.1 y.1 = true)
    ∧ (pairContigs sampleParams sampleIndexMap [] [("ACGT", 60), ("TTTT", 60)]).pmap
        = [(("S1", "S2"), [1, 1, 0, 0])]
    ∧ ((pairContigs sampleParams sampleIndexMap [] [("ACGT", 60), ("TTTT", 60)]).pmap.map
        Prod.fst).Nodup :=
  ⟨List.Pairwise.nil, by decide,
    (pairContigs_keys_canonical sampleParams sampleIndexMap [("ACGT", 60), ("TTTT", 60)] []
      List.Pairwise.nil).2⟩

/-! ## Scenario: two scaffolds linked by one barcode -/

theorem scenario_pmap (P : ArcsParams) (mult : CountMap) (m : Int)
    (hreads : P.min_reads = 5) (hmin : P.min_mult = 1) (hmax : P.max_mult = 100)
    (hm : mapFind mult "ACGTACGT" = some m) (h1 : 1 ≤ m) (h2 : m ≤ 100)
    (hsig : P.normalTest 8 8 = true) :
    (pairContigs P scenarioIndexMap [] mult).pmap = [(("S1", "S2"), [1, 0, 0, 0])] := by
  have e1 : strLt "S1" "S2" = true := by decide
  have e2 : strLt "S1" "S1" = false := by decide
  have e3 : strLt "S2" "S1" = false := by decide
  have e4 : strLt "S2" "S2" = false := by decide
  have hot : headOrTail P 8 0 = (true, true) := by
    simp [headOrTail, hreads, hsig]
  have hr : P.min_mult ≤ m ∧ m ≤ P.max_mult := by rw [hmin, hmax]; exact ⟨h1, h2⟩
  simp [pairContigs, scenarioIndexMap, pairStep, mapAt, hm, hr, pairOuter, pairInner, pairBody,
    e1, e2, e3, e4, mapFind, hot, mapCount, mapSet, mapUpd, vecInc]

/-- C8 (as amended): in the scenario (barcode `ACGTACGT` of multiplicity in
`[1, 100]`, `S1` and `S2` with Head count 8 and Tail count 0, `min_reads` 5,
the normal test accepting 8 of 8 as it does at `error_percent` 0.05),
`headOrTail` marks both scaffolds significant favouring Head, `pairContigs`
yields `PairMap[(S1, S2)] = [1, 0, 0, 0]` (one link per barcode, not one per
read pair), and `createGraph` (with `min_links` at most 1 and the normal
test accepting 1 against 0) creates the nodes `S1`, `S2` and the single edge
`(S1, S2)` with weight 1 and orientation Head-Head (index 0). -/
theorem scenario_single_link (P : ArcsParams) (mult : CountMap) (m : Int)
    (hreads : P.min_reads = 5) (hmin : P.min_mult = 1) (hmax : P.max_mult = 100)
    (hm : mapFind mult "ACGTACGT" = some m) (h1 : 1 ≤ m) (h2 : m ≤ 100)
    (hsig : P.normalTest 8 8 = true) (hlinks : P.min_links ≤ 1)
    (hedge : P.normalTest 1 0 = true) :
    headOrTail P 8 0 = (true, true)
    ∧ (pairContigs P scenarioIndexMap [] mult).pmap = [(("S1", "S2"), [1, 0, 0, 0])]
    ∧ (createGraph P (pairContigs P scenarioIndexMap [] mult).pmap emptyGraph).1.vertices
        = [(0, "S1"), (1, "S2")]
    ∧ (createGraph P (pairContigs P scenarioIndexMap [] mult).pmap emptyGraph).1.edges
        = [{ src := 0, tgt := 1, orientation := 0, weight := 1 }] := by
  have hot : headOrTail P 8 0 = (true, true) := by
    simp [headOrTail, hreads, hsig]
  have hpm := scenario_pmap P mult m hreads hmin hmax hm h1 h2 hsig
  have hnl : ¬ (1 : Int) < P.min_links := by omega
  have hcs : checkSignificance P 1 0 = true := by
    simp [checkSignificance, hnl, hedge]
  have hgm : getMaxValueAndIndex [1, 0, 0, 0] = (1, 0) := by decide
  have hso : secondOf [1, 0, 0, 0] 1 = 0 := by decide
  have hne : ¬ ("S1" = "S2") := by decide
  refine ⟨hot, hpm, ?_, ?_⟩ <;>
    simp [hpm, createGraph, createStep, hgm, hso, hcs, ensureVertex, mapCount, mapFind, addVertex,
      emptyGraph, mapSet, mapAt, addEdge, hne]

theorem scenario_single_link_witness :
    (sampleParams.min_reads = 5 ∧ sampleParams.min_mult = 1 ∧ sampleParams.max_mult = 100
      ∧ mapFind [("ACGTACGT", (16 : Int))] "ACGTACGT" = some 16
      ∧ sampleParams.normalTest 8 8 = true ∧ sampleParams.min_links ≤ 1
      ∧ sampleParams.normalTest 1 0 = true)
    ∧ (createGraph sampleParams
        (pairContigs sampleParams scenarioIndexMap [] [("ACGTACGT", 16)]).pmap emptyGraph).1.edges
        = [{ src := 0, tgt := 1, orientation := 0, weight := 1 }] :=
  ⟨by decide,
    (scenario_single_link sampleParams [("ACGTACGT", 16)] 16 (by decide) (by decide) (by decide)
      (by decide) (by decide) (by decide) (by decide) (by decide) (by decide)).2.2.2⟩

/-- C8 (as stated) fails: in the scenario `headOrTail` does mark both
scaffolds significant favouring Head, but `PairMap[(S1, S2)]` is
`[1, 0, 0, 0]`, not `[8, 0, 0, 0]`, and the edge has weight 1, not 8. -/
theorem scenario_weight_is_not_eight :
    headOrTail sampleParams 8 0 = (true, true)
    ∧ mapFind (pairContigs sampleParams scenarioIndexMap [] [("ACGTACGT", 16)]).pmap ("S1", "S2")
        = some [1, 0, 0, 0]
    ∧ mapFind (pairContigs sampleParams scenarioIndexMap [] [("ACGTACGT", 16)]).pmap ("S1", "S2")
        ≠ some [8, 0, 0, 0]
    ∧ (createGraph sampleParams
        (pairContigs sampleParams scenarioIndexMap [] [("ACGTACGT", 16)]).pmap emptyGraph).1.edges
        = [{ src := 0, tgt := 1, orientation := 0, weight := 1 }] := by
  decide

/-! ## Graph builder: nodes and edges -/

theorem mapSet_noLt_of_not_mem {κ ν : Type} [DecidableEq κ] (m : List (κ × ν)) (k : κ) (v : ν)
    (h : k ∉ m.map Prod.fst) : mapSet noLt m k v = m ++ [(k, v)] := by
  induction m with
  | nil => simp [mapSet]
  | cons hd t ih =>
    obtain ⟨k1, v1⟩ := hd
    have h1 : ¬ k1 = k := by
      intro he
      apply h
      simp [he]
    have h2 : k ∉ t.map Prod.fst := by
      intro he
      apply h
      simp only [List.map_cons, List.mem_cons]
      exact Or.inr he
    simp [mapSet, h1, noLt, ih h2]

theorem ensureVertex_cases (st : Graph × VidVdesMap) (scaf : String) :
    (scaf ∈ st.2.map Prod.fst ∧ ensureVertex st scaf = st)
    ∨ (scaf ∉ st.2.map Prod.fst
        ∧ ensureVertex st scaf
          = ({ st.1 with vertices := st.1.vertices ++ [(st.1.next, scaf)], next := st.1.next + 1 },
             st.2 ++ [(scaf, st.1.next)])) := by
  unfold ensureVertex
  by_cases h : scaf ∈ st.2.map Prod.fst
  · left
    have hc : mapCount st.2 scaf = 1 := (mapCount_eq_one_iff st.2 scaf).2 h
    simp [h, hc]
  · right
    have hc : mapCount st.2 scaf = 0 := by
      unfold mapCount
      have := (mapFind_eq_none_iff st.2 scaf).2 h
      simp [this]
    simp [h, hc, addVertex, mapSet_noLt_of_not_mem st.2 scaf _ h]

theorem nodesOk_ensureVertex (st : Graph × VidVdesMap) (scaf : String) (h : NodesOk st) :
    NodesOk (ensureVertex st scaf) := by
  rcases ensureVertex_cases st scaf with ⟨_, he⟩ | ⟨hn, he⟩
  · rw [he]; exact h
  · rw [he]
    obtain ⟨h1, h2, h3, h4⟩ := h
    refine ⟨?_, ?_, ?_, ?_⟩
    · simp [h1]
    · simp only [List.map_append, List.map_cons, List.map_nil]
      refine List.Nodup.append h2 (List.nodup_singleton _) ?_
      intro x hx hx2
      rw [List.mem_singleton] at hx2
      exact hn (hx2 ▸ hx)
    · simp only [List.map_append, List.map_cons, List.map_nil]
      refine List.Nodup.append h3 (List.nodup_singleton _) ?_
      intro x hx hx2
      rw [List.mem_singleton] at hx2
      obtain ⟨p, hp, hpx⟩ := List.mem_map.1 hx
      have := h4 p hp
      omega
    · intro p hp
      rcases List.mem_append.1 hp with hp | hp
      · have := h4 p hp
        show p.2 < st.1.next + 1
        omega
      · rw [List.mem_singleton] at hp
        rw [hp]
        show st.1.next < st.1.next + 1
        omega

theorem ensureVertex_mono (st : Graph × VidVdesMap) (scaf : String) :
    (∀ p ∈ st.2, p ∈ (ensureVertex st scaf).2)
    ∧ (ensureVertex st scaf).1.edges = st.1.edges
    ∧ scaf ∈ (ensureVertex st scaf).2.map Prod.fst := by
  rcases ensureVertex_cases st scaf with ⟨hm, he⟩ | ⟨_, he⟩
  · rw [he]; exact ⟨fun p hp => hp, rfl, hm⟩
  · rw [he]
    refine ⟨fun p hp => List.mem_append_left _ hp, rfl, ?_⟩
    simp

theorem createStep_significant (P : ArcsParams) (st : Graph × VidVdesMap)
    (e : PairKey × List Int)
    (h : checkSignificance P (getMaxValueAndIndex e.2).1
      (secondOf e.2 (getMaxValueAndIndex e.2).1) = true) :
    ∃ da db, (e.1.1, da) ∈ (ensureVertex (ensureVertex st e.1.1) e.1.2).2
      ∧ (e.1.2, db) ∈ (ensureVertex (ensureVertex st e.1.1) e.1.2).2
      ∧ createStep P st e
        = (addEdge (ensureVertex (ensureVertex st e.1.1) e.1.2).1 da db
            (getMaxValueAndIndex e.2).1 (getMaxValueAndIndex e.2).2,
           (ensureVertex (ensureVertex st e.1.1) e.1.2).2) := by
  have ha : e.1.1 ∈ (ensureVertex (ensureVertex st e.1.1) e.1.2).2.map Prod.fst := by
    obtain ⟨p, hp, hpe⟩ := List.mem_map.1 (ensureVertex_mono st e.1.1).2.2
    exact List.mem_map.2 ⟨p, (ensureVertex_mono _ e.1.2).1 p hp, hpe⟩
  have hb : e.1.2 ∈ (ensureVertex (ensureVertex st e.1.1) e.1.2).2.map Prod.fst :=
    (ensureVertex_mono _ e.1.2).2.2
  have hstep : createStep P st e
      = (addEdge (ensureVertex (ensureVertex st e.1.1) e.1.2).1
          (mapAt noLt (ensureVertex (ensureVertex st e.1.1) e.1.2).2 e.1.1 0).1
          (mapAt noLt (mapAt noLt (ensureVertex (ensureVertex st e.1.1) e.1.2).2 e.1.1 0).2
            e.1.2 0).1
          (getMaxValueAndIndex e.2).1 (getMaxValueAndIndex e.2).2,
         (mapAt noLt (mapAt noLt (ensureVertex (ensureVertex st e.1.1) e.1.2).2 e.1.1 0).2
            e.1.2 0).2) := by
    simp [createStep, h]
  rw [hstep]
  generalize ensureVertex (ensureVertex st e.1.1) e.1.2 = st2 at ha hb ⊢
  rw [mapAt_snd_of_mem noLt st2.2 e.1.1 0 ha, mapAt_snd_of_mem noLt st2.2 e.1.2 0 hb,
    mapAt_fst, mapAt_fst]
  have ha2 := (mapFind_isSome_iff st2.2 e.1.1).2 ha
  have hb2 := (mapFind_isSome_iff st2.2 e.1.2).2 hb
  cases hfa : mapFind st2.2 e.1.1 with
  | none => rw [hfa] at ha2; simp at ha2
  | some da =>
    cases hfb : mapFind st2.2 e.1.2 with
    | none => rw [hfb] at hb2; simp at hb2
    | some db =>
      exact ⟨da, db, mapFind_some_mem _ _ _ hfa, mapFind_some_mem _ _ _ hfb, rfl⟩

theorem createStep_cases (P : ArcsParams) (st : Graph × VidVdesMap) (e : PairKey × List Int) :
    createStep P st e = st
    ∨ ∃ da db, (e.1.1, da) ∈ (ensureVertex (ensureVertex st e.1.1) e.1.2).2
      ∧ (e.1.2, db) ∈ (ensureVertex (ensureVertex st e.1.1) e.1.2).2
      ∧ createStep P st e
        = (addEdge (ensureVertex (ensureVertex st e.1.1) e.1.2).1 da db
            (getMaxValueAndIndex e.2).1 (getMaxValueAndIndex e.2).2,
           (ensureVertex (ensureVertex st e.1.1) e.1.2).2) := by
  cases h : checkSignificance P (getMaxValueAndIndex e.2).1
      (secondOf e.2 (getMaxValueAndIndex e.2).1) with
  | false => exact Or.inl (createStep_of_not_significant P st e h)
  | true => exact Or.inr (createStep_significant P st e h)

theorem nodesOk_createStep (P : ArcsParams) (st : Graph × VidVdesMap) (e : PairKey × List Int)
    (h : NodesOk st) : NodesOk (createStep P st e) := by
  rcases createStep_cases P st e with he | ⟨da, db, _, _, he⟩
  · rw [he]; exact h
  · rw [he]
    exact nodesOk_ensureVertex _ e.1.2 (nodesOk_ensureVertex st e.1.1 h)

theorem edgesOk_createStep (P : ArcsParams) (done : List PairKey) (st : Graph × VidVdesMap)
    (e : PairKey × List Int) (hn : NodesOk st) (he : EdgesOk done st)
    (hnew : e.1 ∉ done) (hlt : strLt e.1.1 e.1.2 = true)
    (hdone : ∀ k ∈ done, strLt k.1 k.2 = true) :
    EdgesOk (done ++ [e.1]) (createStep P st e) := by
  obtain ⟨he1, he2⟩ := he
  rcases createStep_cases P st e with hs | ⟨da, db, hda, hdb, hs⟩
  · rw [hs]
    refine ⟨?_, he2⟩
    intro x hx
    obtain ⟨a, b, hab, h1, h2⟩ := he1 x hx
    exact ⟨a, b, List.mem_append_left _ hab, h1, h2⟩
  · rw [hs]
    have hn2 : NodesOk (ensureVertex (ensureVertex st e.1.1) e.1.2) :=
      nodesOk_ensureVertex _ e.1.2 (nodesOk_ensureVertex st e.1.1 hn)
    have hmono : ∀ p ∈ st.2, p ∈ (ensureVertex (ensureVertex st e.1.1) e.1.2).2 :=
      fun p hp => (ensureVertex_mono _ e.1.2).1 p ((ensureVertex_mono st e.1.1).1 p hp)
    have hedges : (ensureVertex (ensureVertex st e.1.1) e.1.2).1.edges = st.1.edges := by
      rw [(ensureVertex_mono _ e.1.2).2.1, (ensureVertex_mono st e.1.1).2.1]
    generalize ensureVertex (ensureVertex st e.1.1) e.1.2 = st2 at hda hdb hn2 hmono hedges
    obtain ⟨_, _, hsnd, _⟩ := hn2
    have hinj : ∀ a1 a2 d, (a1, d) ∈ st2.2 → (a2, d) ∈ st2.2 → a1 = a2 := by
      intro a1 a2 d h1 h2
      have := List.inj_on_of_nodup_map hsnd h1 h2 rfl
      exact (Prod.mk.injEq _ _ _ _ ▸ this).1
    refine ⟨?_, ?_⟩
    · intro x hx
      simp only [addEdge, hedges, List.mem_append, List.mem_singleton] at hx
      rcases hx with hx | hx
      · obtain ⟨a, b, hab, h1, h2⟩ := he1 x hx
        exact ⟨a, b, List.mem_append_left _ hab, hmono _ h1, hmono _ h2⟩
      · refine ⟨e.1.1, e.1.2, List.mem_append_right _ (List.mem_singleton.2 rfl), ?_, ?_⟩
        · rw [hx]; exact hda
        · rw [hx]; exact hdb
    · simp only [addEdge, hedges]
      rw [List.pairwise_append]
      refine ⟨he2, List.pairwise_singleton _ _, ?_⟩
      intro x hx y hy
      rw [List.mem_singleton] at hy
      rw [hy]
      obtain ⟨a, b, hab, h1, h2⟩ := he1 x hx
      have h1m := hmono _ h1
      have h2m := hmono _ h2
      rintro (⟨hs1, hs2⟩ | ⟨hs1, hs2⟩)
      · simp only at hs1 hs2
        rw [hs1] at h1m
        rw [hs2] at h2m
        have ea := hinj _ _ _ h1m hda
        have eb := hinj _ _ _ h2m hdb
        apply hnew
        have hk : e.1 = (a, b) := Prod.ext ea.symm eb.symm
        rw [hk]
        exact hab
      · simp only at hs1 hs2
        rw [hs1] at h1m
        rw [hs2] at h2m
        have ea := hinj _ _ _ h1m hdb
        have eb := hinj _ _ _ h2m hda
        have hrev := hdone (a, b) hab
        simp only [ea, eb] at hrev
        have l1 : e.1.1 < e.1.2 := (strLt_iff _ _).1 hlt
        have l2 : e.1.2 < e.1.1 := (strLt_iff _ _).1 hrev
        exact lt_asymm l1 l2

theorem createFold_ok (P : ArcsParams) (l : PairMap) (done : List PairKey)
    (st : Graph × VidVdesMap) (hn : NodesOk st) (he : EdgesOk done st)
    (hnd : (done ++ l.map Prod.fst).Nodup)
    (hcan : ∀ k ∈ done ++ l.map Prod.fst, strLt k.1 k.2 = true) :
    NodesOk (l.foldl (createStep P) st)
    ∧ EdgesOk (done ++ l.map Prod.fst) (l.foldl (createStep P) st) := by
  induction l generalizing done st with
  | nil => simpa using ⟨hn, he⟩
  | cons e t ih =>
    have hassoc : done ++ (e :: t).map Prod.fst = (done ++ [e.1]) ++ t.map Prod.fst := by simp
    rw [hassoc] at hnd hcan ⊢
    simp only [List.foldl_cons]
    have hnew : e.1 ∉ done := by
      intro hin
      have h1 := (List.nodup_append.1 (List.nodup_append.1 hnd).1).2.2
      exact h1 hin (List.mem_singleton.2 rfl)
    have hlt : strLt e.1.1 e.1.2 = true :=
      hcan e.1 (List.mem_append_left _ (List.mem_append_right _ (List.mem_singleton.2 rfl)))
    have hdone : ∀ k ∈ done, strLt k.1 k.2 = true :=
      fun k hk => hcan k (List.mem_append_left _ (List.mem_append_left _ hk))
    exact ih (done ++ [e.1]) (createStep P st e) (nodesOk_createStep P st e hn)
      (edgesOk_createStep P done st e hn he hnew hlt hdone) hnd hcan

theorem nodesOk_empty : NodesOk (emptyGraph, []) := by
  simp [NodesOk, emptyGraph]

theorem edgesOk_empty : EdgesOk [] (emptyGraph, []) := by
  simp [EdgesOk, emptyGraph]

theorem canonical_linkBody (P : ArcsParams) (sm : ScafMap) (ko kp : ScafKey) (pm : PairMap)
    (h : ∀ k ∈ pm.map Prod.fst, strLt k.1 k.2 = true) :
    ∀ k ∈ (linkBody P sm ko kp pm).map Prod.fst, strLt k.1 k.2 = true := by
  unfold linkBody
  split_ifs with hc
  · intro k hk
    unfold addLink at hk
    rcases (keys_mapSet pairKeyLt pm _ k _).1 hk with h1 | h1
    · rw [h1]
      simp only [Bool.and_eq_true] at hc
      exact hc.1.1.1.1
    · exact h k h1
  · exact h

theorem pairContigs_pairMap (P : ArcsParams) (imap : IndexMap) (mult : CountMap) :
    ((pairContigs P imap [] mult).pmap.map Prod.fst).Nodup
    ∧ ∀ k ∈ (pairContigs P imap [] mult).pmap.map Prod.fst, strLt k.1 k.2 = true := by
  constructor
  · apply nodup_keys_of_sorted
    exact pairContigs_preserves _ P (fun sm ko kp pm h => sorted_linkBody P sm ko kp pm h)
      imap [] mult List.Pairwise.nil
  · exact pairContigs_preserves (fun pm => ∀ k ∈ pm.map Prod.fst, strLt k.1 k.2 = true) P
      (fun sm ko kp pm h => canonical_linkBody P sm ko kp pm h) imap [] mult
      (fun k hk => by simp at hk)

/-- C6: in the graph `createGraph` builds from an empty graph there is at
most one node per scaffold id; and for every PairMap, that is a map whose
keys are distinct and ordered `first < second` (the invariant that the type
`PairMap` documents), every edge joins two distinct existing nodes and no
two edges join the same two nodes.  The PairMap that `pairContigs` fills
from an empty map, which is the one `createGraph` receives, is such a map,
so the graph built from it has these properties. -/
theorem createGraph_simple_graph (P : ArcsParams) (pmap : PairMap) :
    (((createGraph P pmap emptyGraph).1.vertices.map Prod.snd).Nodup
      ∧ ((createGraph P pmap emptyGraph).1.vertices.map Prod.fst).Nodup)
    ∧ ((pmap.map Prod.fst).Nodup → (∀ k ∈ pmap.map Prod.fst, strLt k.1 k.2 = true) →
        (∀ e ∈ (createGraph P pmap emptyGraph).1.edges,
          e.src ≠ e.tgt
          ∧ e.src ∈ (createGraph P pmap emptyGraph).1.vertices.map Prod.fst
          ∧ e.tgt ∈ (createGraph P pmap emptyGraph).1.vertices.map Prod.fst)
        ∧ (createGraph P pmap emptyGraph).1.edges.Pairwise (fun e1 e2 => ¬ sameEnds e1 e2))
    ∧ (∀ (imap : IndexMap) (mult : CountMap),
        (∀ e ∈ (createGraph P (pairContigs P imap [] mult).pmap emptyGraph).1.edges,
          e.src ≠ e.tgt
          ∧ e.src ∈ (createGraph P (pairContigs P imap [] mult).pmap emptyGraph).1.vertices.map
              Prod.fst
          ∧ e.tgt ∈ (createGraph P (pairContigs P imap [] mult).pmap emptyGraph).1.vertices.map
              Prod.fst)
        ∧ (createGraph P (pairContigs P imap [] mult).pmap emptyGraph).1.edges.Pairwise
            (fun e1 e2 => ¬ sameEnds e1 e2)) := by
  have main : ∀ pm : PairMap,
      (((createGraph P pm emptyGraph).1.vertices.map Prod.snd).Nodup
        ∧ ((createGraph P pm emptyGraph).1.vertices.map Prod.fst).Nodup)
      ∧ ((pm.map Prod.fst).Nodup → (∀ k ∈ pm.map Prod.fst, strLt k.1 k.2 = true) →
          (∀ e ∈ (createGraph P pm emptyGraph).1.edges,
            e.src ≠ e.tgt
            ∧ e.src ∈ (createGraph P pm emptyGraph).1.vertices.map Prod.fst
            ∧ e.tgt ∈ (createGraph P pm emptyGraph).1.vertices.map Prod.fst)
          ∧ (createGraph P pm emptyGraph).1.edges.Pairwise (fun e1 e2 => ¬ sameEnds e1 e2)) := by
    intro pmap
    have hN : NodesOk (createGraph P pmap emptyGraph) :=
      foldl_preserves NodesOk (createStep P) (fun s x h => nodesOk_createStep P s x h) pmap _
        nodesOk_empty
    obtain ⟨hv, hk, hd, _⟩ := hN
    have hfst : (createGraph P pmap emptyGraph).1.vertices.map Prod.fst
        = (createGraph P pmap emptyGraph).2.map Prod.snd := by
      rw [hv, List.map_map]; rfl
    have hsnd : (createGraph P pmap emptyGraph).1.vertices.map Prod.snd
        = (createGraph P pmap emptyGraph).2.map Prod.fst := by
      rw [hv, List.map_map]; rfl
    refine ⟨⟨hsnd ▸ hk, hfst ▸ hd⟩, ?_⟩
    intro hnd hcan
    obtain ⟨_, hE1, hE2⟩ := createFold_ok P pmap [] (emptyGraph, []) nodesOk_empty edgesOk_empty
      (by simpa using hnd) (by simpa using hcan)
    refine ⟨?_, hE2⟩
    intro e he
    obtain ⟨a, b, hab, h1, h2⟩ := hE1 e he
    have hab2 : strLt a b = true := hcan (a, b) (by simpa using hab)
    have hlt : a < b := (strLt_iff a b).1 hab2
    refine ⟨?_, ?_, ?_⟩
    · intro heq
      rw [heq] at h1
      have := List.inj_on_of_nodup_map hd h1 h2 rfl
      exact ne_of_lt hlt (Prod.mk.injEq _ _ _ _ ▸ this).1
    · rw [hfst]
      exact List.mem_map.2 ⟨_, h1, rfl⟩
    · rw [hfst]
      exact List.mem_map.2 ⟨_, h2, rfl⟩
  refine ⟨(main pmap).1, (main pmap).2, ?_⟩
  intro imap mult
  obtain ⟨hnd, hcan⟩ := pairContigs_pairMap P imap mult
  exact (main _).2 hnd hcan

theorem createGraph_simple_graph_witness :
    (starPairMap.map Prod.fst).Nodup ∧ (∀ k ∈ starPairMap.map Prod.fst, strLt k.1 k.2 = true)
    ∧ (createGraph sampleParams starPairMap emptyGraph).1.edges.length = 3
    ∧ (createGraph sampleParams starPairMap emptyGraph).1.edges.Pairwise
        (fun e1 e2 => ¬ sameEnds e1 e2) :=
  ⟨by decide, by decide, by decide,
    ((createGraph_simple_graph sampleParams starPairMap).2.1 (by decide) (by decide)).2⟩

/-! ## Head/tail classifier -/

/-- C11: when `head + tail < min_reads`, `headOrTail` returns
`(false, false)`, whatever the outcome of the normal test (that is, whatever
`error_percent` is). -/
theorem headOrTail_below_min_reads (P : ArcsParams) (head tail : Int)
    (h : head + tail < P.min_reads) : headOrTail P head tail = (false, false) := by
  simp [headOrTail, h]

theorem headOrTail_below_min_reads_witness :
    (2 : Int) + 2 < sampleParams.min_reads ∧ headOrTail sampleParams 2 2 = (false, false) :=
  ⟨by decide, headOrTail_below_min_reads sampleParams 2 2 (by decide)⟩

theorem headOrTail_cases (P : ArcsParams) (head tail : Int) :
    headOrTail P head tail = (false, false)
    ∨ headOrTail P head tail = (true, decide (tail ≤ head)) := by
  unfold headOrTail
  by_cases h1 : head + tail < P.min_reads
  · simp [h1]
  · by_cases h2 : P.normalTest (max head tail) (head + tail) = true
    · right
      simp only [h1, h2, if_true, if_false]
      by_cases h3 : tail ≤ head
      · simp [h3, max_eq_left h3]
      · have h4 : max head tail = tail := max_eq_right (by omega)
        have h5 : ¬ tail = head := by omega
        simp [h3, h4, h5]
    · simp [h1, h2]

/-- C12: when `headOrTail` reports significance, its second component is
true iff `head >= tail` (a tie is reported as Head) and false iff
`tail > head`; when it reports no significance the second component is
false. -/
theorem headOrTail_names_larger_side (P : ArcsParams) (head tail : Int) :
    ((headOrTail P head tail).1 = true →
      ((headOrTail P head tail).2 = true ↔ tail ≤ head)
      ∧ ((headOrTail P head tail).2 = false ↔ head < tail))
    ∧ ((headOrTail P head tail).1 = false → (headOrTail P head tail).2 = false) := by
  rcases headOrTail_cases P head tail with h | h
  · rw [h]
    simp
  · rw [h]
    refine ⟨fun _ => ⟨?_, ?_⟩, fun hf => absurd hf (by simp)⟩
    · simp
    · simp only [decide_eq_false_iff_not, not_le]

theorem headOrTail_names_larger_side_witness :
    (headOrTail sampleParams 0 8).1 = true ∧ headOrTail sampleParams 8 0 = (true, true)
    ∧ ((headOrTail sampleParams 0 8).2 = false ↔ (0 : Int) < 8) :=
  ⟨by decide, by decide,
    ((headOrTail_names_larger_side sampleParams 0 8).1 (by decide)).2⟩

/-- C17: for a fixed tail count `t` and head counts `h < h2`, if
`headOrTail h t` is significant favouring Tail and `headOrTail h2 t` is
significant favouring Head, then some `h3` with `h < h3 ≤ h2` is not
significant or is the tie `h3 = t`: a significant Tail result never turns
into a significant Head result without passing the tie. -/
theorem headOrTail_monotonic (P : ArcsParams) (t h h2 : Int) (hlt : h < h2)
    (htail : headOrTail P h t = (true, false)) (hhead : headOrTail P h2 t = (true, true)) :
    ∃ h3, h < h3 ∧ h3 ≤ h2 ∧ ((headOrTail P h3 t).1 = false ∨ h3 = t) := by
  have _ := hlt
  have ht : h < t := by
    rcases headOrTail_cases P h t with hc | hc
    · rw [hc] at htail
      simp at htail
    · rw [hc] at htail
      have := (Prod.mk.injEq _ _ _ _ ▸ htail).2
      simpa using this
  have ht2 : t ≤ h2 := by
    rcases headOrTail_cases P h2 t with hc | hc
    · rw [hc] at hhead
      simp at hhead
    · rw [hc] at hhead
      have := (Prod.mk.injEq _ _ _ _ ▸ hhead).2
      simpa using this
  exact ⟨t, ht, ht2, Or.inr rfl⟩

theorem headOrTail_monotonic_witness :
    (0 : Int) < 20 ∧ headOrTail sampleParams 0 8 = (true, false)
    ∧ headOrTail sampleParams 20 8 = (true, true)
    ∧ ∃ h3, (0 : Int) < h3 ∧ h3 ≤ 20 ∧ ((headOrTail sampleParams h3 8).1 = false ∨ h3 = 8) :=
  ⟨by decide, by decide, by decide,
    headOrTail_monotonic sampleParams 8 0 20 (by decide) (by decide) (by decide)⟩

/-! ## Alignment stream classifier -/

/-- C15: `checkIndex s` is true iff every character of `s`, upper-cased, is
one of `A`, `T`, `G`, `C`; in particular it is true for the empty string. -/
theorem checkIndex_iff (s : String) :
    (checkIndex s = true ↔
      ∀ c ∈ s.data, c.toUpper = 'A' ∨ c.toUpper = 'T' ∨ c.toUpper = 'G' ∨ c.toUpper = 'C')
    ∧ checkIndex "" = true := by
  refine ⟨?_, by decide⟩
  unfold checkIndex
  rw [List.all_eq_true]
  constructor
  · intro h c hc
    have := h c hc
    simp only [Bool.not_eq_true', Bool.and_eq_false_imp, Bool.and_eq_true, bne_iff_ne, ne_eq,
      bne_eq_false_iff_eq] at this
    by_contra hno
    simp only [not_or] at hno
    exact hno.2.2.2 (this ⟨⟨hno.1, hno.2.1⟩, hno.2.2.1⟩)
  · intro h c hc
    rcases h c hc with h1 | h1 | h1 | h1 <;> simp [h1]

/-! ## Paired-record linker: the cut-off -/

theorem wrapInt_eq_self (x : Int) (h1 : -2147483648 ≤ x) (h2 : x < 2147483648) :
    wrapInt x = x := by
  unfold wrapInt
  rw [Int.emod_eq_of_lt (by omega) (by omega)]
  omega

/-- While `end_length * 2` fits in a 32-bit `int`, the cut-off `readBAM`
computes (non-strict comparison `size <= 2 * end_length`) equals the
specified cut-off (strict comparison): at `size = 2 * end_length` both give
`end_length`. -/
theorem cutOffOf_eq_spec (P : ArcsParams) (size : Int)
    (hlo : -1073741824 ≤ P.end_length) (hhi : P.end_length < 1073741824) :
    cutOffOf P size = cutOffSpec P.end_length size := by
  unfold cutOffOf cutOffSpec
  rw [wrapInt_eq_self (P.end_length * 2) (by omega) (by omega)]
  by_cases h0 : P.end_length = 0
  · simp [h0]
  · by_cases h1 : size < 2 * P.end_length
    · have h2 : size ≤ P.end_length * 2 := by omega
      simp [h0, h1, h2]
    · by_cases h2 : size ≤ P.end_length * 2
      · have h3 : size = P.end_length * 2 := by omega
        simp only [h0, h1, h2, or_true, false_or, if_true, if_false, or_self]
        rw [h3]
        exact Int.mul_tdiv_cancel _ (by decide)
      · simp [h0, h1, h2]

/-- C19 (the code at the failing input): with `end_length = 1073741824` and a
scaffold of length 1000 the product `cutOff * 2` of `readBAM` does not fit
in a 32-bit `int` and wraps to -2147483648, the test `size <= cutOff * 2`
fails and the cut-off stays 1073741824; the scaffold is shorter than twice
the end length, and the specified cut-off is `size / 2 = 500`. -/
theorem cutOffOf_product_overflows :
    (0 : Int) ≤ 1000 ∧ (0 : Int) ≤ 1073741824
    ∧ wrapInt (1073741824 * 2) = -2147483648
    ∧ cutOffOf { sampleParams with end_length := 1073741824 } 1000 = 1073741824
    ∧ cutOffSpec 1073741824 1000 = 500
    ∧ cutOffOf { sampleParams with end_length := 1073741824 } 1000
        ≠ cutOffSpec 1073741824 1000 := by decide

/-! ## Paired-record linker: the maps do not steer the state machine -/

theorem flush_withMaps (P : ArcsParams) (s : ReadState) (i : IndexMap) (m : CountMap) :
    flush P (withMaps s i m) = withMaps (flush P s) (applyHit (pendingHit P s) i) m := by
  unfold flush pendingHit withMaps
  simp only [mapAt_fst]
  split_ifs <;> simp [applyHit]

theorem countIndex_withMaps (s : ReadState) (i : IndexMap) (m : CountMap) (index : String) :
    countIndex (withMaps s i m) index = withMaps (countIndex s index) i (applyCount index m) := by
  unfold countIndex withMaps applyCount
  split_ifs <;> rfl

theorem skipUnpaired_withMaps (s : ReadState) (i : IndexMap) (m : CountMap) (r : SamRecord) :
    skipUnpaired (withMaps s i m) r = withMaps (skipUnpaired s r) i m := by
  unfold skipUnpaired withMaps
  split_ifs <;> rfl

theorem wrapCt_withMaps (s : ReadState) (i : IndexMap) (m : CountMap) :
    wrapCt (withMaps s i m) = withMaps (wrapCt s) i m := by
  unfold wrapCt withMaps
  split_ifs <;> rfl

theorem pendingHit_congr (P : ArcsParams) (s t : ReadState) (h1 : t.sMap = s.sMap)
    (h2 : t.readyToAddIndex = s.readyToAddIndex)
    (h3 : t.readyToAddRefName = s.readyToAddRefName)
    (h4 : t.readyToAddPos = s.readyToAddPos) : pendingHit P t = pendingHit P s := by
  unfold pendingHit
  rw [h1, h2, h3, h4]

theorem pairing_withMaps (P : ArcsParams) (w : ReadState) (i : IndexMap) (m : CountMap)
    (r : SamRecord) (index : String) :
    pairing P (withMaps w i m) r index
      = withMaps (pairing P w r index)
          (applyHit (if w.ct = 1 ∧ r.readName ≠ w.prevRN then pendingHit P w else none) i) m := by
  unfold pairing
  by_cases h1 : w.ct = 1
  · by_cases h2 : r.readName = w.prevRN
    · simp [withMaps, h1, h2, applyHit]
    · have e :
          ({ withMaps w i m with
              prevRN := r.readName, prevSI := r.si, prevFlag := r.flag,
              prevMapq := r.mapq, prevRef := r.scafName, prevPos := r.pos } : ReadState)
          = withMaps
              { w with
                prevRN := r.readName, prevSI := r.si, prevFlag := r.flag,
                prevMapq := r.mapq, prevRef := r.scafName, prevPos := r.pos } i m := rfl
      have hc1 : (withMaps w i m).ct = 1 := h1
      have hc2 : r.readName ≠ (withMaps w i m).prevRN := h2
      rw [if_pos hc1, if_pos hc2, if_pos h1, if_pos h2, e, flush_withMaps, if_pos ⟨h1, h2⟩]
      rfl
  · have hc1 : ¬ (withMaps w i m).ct = 1 := h1
    have hn : ¬ (w.ct = 1 ∧ r.readName ≠ w.prevRN) := fun h => h1 h.1
    rw [if_neg hc1, if_neg h1, if_neg hn]
    by_cases h3 : w.ct = 2
    · have hc3 : (withMaps w i m).ct = 2 := h3
      have ha : acceptPair P (withMaps w i m) r = acceptPair P w r :=
        acceptPair_congr P w _ r rfl rfl rfl rfl
      rw [if_pos hc3, if_pos h3, ha]
      split_ifs <;> rfl
    · have hc3 : ¬ (withMaps w i m).ct = 2 := h3
      rw [if_neg hc3, if_neg h3]
      rfl

theorem preamble_ctl (s : ReadState) (r : SamRecord) (index : String) :
    (wrapCt (skipUnpaired (countIndex s index) r)).ct = (wrapCt (skipUnpaired s r)).ct
    ∧ (wrapCt (skipUnpaired (countIndex s index) r)).prevRN = s.prevRN := by
  unfold wrapCt skipUnpaired countIndex
  split_ifs <;> simp_all

theorem readRecord_withMaps (P : ArcsParams) (s : ReadState) (i : IndexMap) (m : CountMap)
    (r : SamRecord) :
    readRecord P (withMaps s i m) r
      = withMaps (readRecord P s r) (applyHit (recordHit P s r) i)
          (applyCount (indexOf r.readName) m) := by
  obtain ⟨_, f2, f3, f4, f5⟩ := preamble_fields s r (indexOf r.readName)
  obtain ⟨g1, g2⟩ := preamble_ctl s r (indexOf r.readName)
  have hhit : (if (wrapCt (skipUnpaired (countIndex s (indexOf r.readName)) r)).ct = 1
        ∧ r.readName ≠ (wrapCt (skipUnpaired (countIndex s (indexOf r.readName)) r)).prevRN
      then pendingHit P (wrapCt (skipUnpaired (countIndex s (indexOf r.readName)) r))
      else none) = recordHit P s r := by
    unfold recordHit
    rw [g1, g2, pendingHit_congr P s _ f2 f3 f4 f5]
  dsimp only [readRecord]
  rw [countIndex_withMaps, skipUnpaired_withMaps, wrapCt_withMaps, pairing_withMaps, hhit]
  rfl

theorem readLine_withMaps (P : ArcsParams) (s : ReadState) (l : SamLine) :
    ∃ (h : Option Hit),
      (∀ i m, readLine P (withMaps s i m) l
        = withMaps (readLine P s l) (applyHit h i) (applyCount (lineIndex l) m))
      ∧ (∀ x, h = some x → x.2.2 = (x.2.1.1, !x.2.1.2)) := by
  cases l with
  | header =>
    refine ⟨none, fun i m => ?_, ?_⟩
    · simp [readLine, applyHit, lineIndex, applyCount, withMaps]
    · intro x h
      simp at h
  | record r =>
    refine ⟨recordHit P s r, fun i m => readRecord_withMaps P s i m r, ?_⟩
    intro x h
    unfold recordHit pendingHit at h
    split_ifs at h <;> simp at h <;> rw [← h] <;> rfl

theorem withMaps_withMaps (s : ReadState) (i i2 : IndexMap) (m m2 : CountMap) :
    withMaps (withMaps s i m) i2 m2 = withMaps s i2 m2 := rfl

theorem readFold_withMaps (P : ArcsParams) (lines : List SamLine) (s : ReadState) :
    ∃ (H : List Hit),
      (∀ i m, lines.foldl (readLine P) (withMaps s i m)
        = withMaps (lines.foldl (readLine P) s) (applyHits H i) (applyCounts lines m))
      ∧ (∀ x ∈ H, x.2.2 = (x.2.1.1, !x.2.1.2)) := by
  induction lines generalizing s with
  | nil => exact ⟨[], fun i m => rfl, fun x hx => by simp at hx⟩
  | cons l t ih =>
    obtain ⟨h, h1, h2⟩ := readLine_withMaps P s l
    obtain ⟨H, H1, H2⟩ := ih (readLine P s l)
    cases h with
    | none =>
      refine ⟨H, fun i m => ?_, H2⟩
      simp only [List.foldl_cons, h1, applyHit]
      rw [H1]
      rfl
    | some x =>
      refine ⟨x :: H, fun i m => ?_, ?_⟩
      · simp only [List.foldl_cons, h1]
        rw [H1]
        rfl
      · intro y hy
        rcases List.mem_cons.1 hy with hy | hy
        · rw [hy]; exact h2 x rfl
        · exact H2 y hy

theorem readBAM_maps (P : ArcsParams) (lines : List SamLine) (sMap : CountMap) :
    ∃ (H : List Hit),
      (∀ i m, (readBAM P lines i m sMap).imap = applyHits H i
        ∧ (readBAM P lines i m sMap).indexMultMap = applyCounts lines m)
      ∧ (∀ x ∈ H, x.2.2 = (x.2.1.1, !x.2.1.2)) := by
  obtain ⟨H, H1, H2⟩ := readFold_withMaps P lines (initState [] [] sMap)
  refine ⟨H, fun i m => ?_, H2⟩
  have e : readBAM P lines i m sMap
      = lines.foldl (readLine P) (withMaps (initState [] [] sMap) i m) := rfl
  rw [e, H1]
  exact ⟨rfl, rfl⟩

/-! ## Paired-record linker: entries of IndexMap after a flush -/

theorem mapFind_addHit (imap : IndexMap) (index : String) (key keyR : ScafKey) (b : String) :
    mapFind (addHit imap index key keyR) b
      = if index = b then
          some (if mapCount (mapUpd scafKeyLt ((mapFind imap index).getD []) key 0
                  (fun n => n + 1)) keyR = 0
                then mapSet scafKeyLt
                  (mapUpd scafKeyLt ((mapFind imap index).getD []) key 0 (fun n => n + 1)) keyR 0
                else mapUpd scafKeyLt ((mapFind imap index).getD []) key 0 (fun n => n + 1))
        else mapFind imap b := by
  rw [addHit_eq]
  by_cases h : index = b
  · subst h
    rw [mapFind_mapSet_self, if_pos rfl]
  · rw [mapFind_mapSet_ne noLt imap index b _ h, if_neg h]

theorem entryOf_addHit (imap : IndexMap) (index : String) (key keyR : ScafKey)
    (hne : key ≠ keyR) (b : String) (k : ScafKey) :
    entryOf (addHit imap index key keyR) b k
      = if b = index ∧ k = key then some ((entryOf imap b k).getD 0 + 1)
        else if b = index ∧ k = keyR then some ((entryOf imap b k).getD 0)
        else entryOf imap b k := by
  unfold entryOf
  rw [mapFind_addHit]
  by_cases hb : index = b
  · subst hb
    simp only [if_true, Option.some_bind, true_and]
    have hold : ∀ k2, (mapFind imap index).bind (fun sm => mapFind sm k2)
        = mapFind ((mapFind imap index).getD []) k2 := by
      intro k2
      cases mapFind imap index with
      | none => simp [mapFind]
      | some sm => simp
    rw [hold k]
    generalize (mapFind imap index).getD [] = old
    have hkR : mapFind (mapUpd scafKeyLt old key 0 (fun n => n + 1)) keyR = mapFind old keyR :=
      mapFind_mapUpd_ne scafKeyLt old key keyR 0 _ hne
    by_cases hc : mapCount (mapUpd scafKeyLt old key 0 (fun n => n + 1)) keyR = 0
    · have hnone : mapFind old keyR = none := by
        unfold mapCount at hc
        rw [hkR] at hc
        cases hf : mapFind old keyR with
        | none => rfl
        | some v => rw [hf] at hc; simp at hc
      rw [if_pos hc]
      by_cases h1 : k = key
      · subst h1
        rw [if_pos rfl, mapFind_mapSet_ne scafKeyLt _ keyR k 0 (fun h => hne h.symm),
          mapFind_mapUpd_self]
      · rw [if_neg h1]
        by_cases h2 : k = keyR
        · subst h2
          rw [if_pos rfl, mapFind_mapSet_self, hnone]
          rfl
        · rw [if_neg h2, mapFind_mapSet_ne scafKeyLt _ keyR k 0 (fun h => h2 h.symm),
            mapFind_mapUpd_ne scafKeyLt old key k 0 _ (fun h => h1 h.symm)]
    · rw [if_neg hc]
      by_cases h1 : k = key
      · subst h1
        rw [if_pos rfl, mapFind_mapUpd_self]
      · rw [if_neg h1]
        by_cases h2 : k = keyR
        · subst h2
          rw [if_pos rfl, hkR]
          cases hf : mapFind old k with
          | none =>
            exfalso
            apply hc
            unfold mapCount
            rw [hkR, hf]
            rfl
          | some v => rfl
        · rw [if_neg h2, mapFind_mapUpd_ne scafKeyLt old key k 0 _ (fun h => h1 h.symm)]
  · have hb2 : ¬ b = index := fun h => hb h.symm
    simp only [hb, hb2, if_false, false_and]

theorem isSome_addHit (imap : IndexMap) (index : String) (key keyR : ScafKey) (b : String) :
    (mapFind (addHit imap index key keyR) b).isSome
      = (decide (b = index) || (mapFind imap b).isSome) := by
  rw [mapFind_addHit]
  by_cases hb : index = b
  · subst hb
    simp
  · have hb2 : ¬ b = index := fun h => hb h.symm
    simp [hb, hb2]

theorem readRecord_imap_eq (P : ArcsParams) (s : ReadState) (r : SamRecord) :
    (readRecord P s r).imap = applyHit (recordHit P s r) s.imap := by
  have h := readRecord_withMaps P s s.imap s.indexMultMap r
  have e : withMaps s s.imap s.indexMultMap = s := rfl
  rw [e] at h
  rw [h]
  rfl

theorem countOf_addHit (imap : IndexMap) (index ref : String) (e : Bool) (b : String)
    (k : ScafKey) :
    countOf (addHit imap index (ref, e) (ref, !e)) b k
      = if b = index ∧ k = (ref, e) then countOf imap b k + 1 else countOf imap b k := by
  unfold countOf
  have hne : ((ref, e) : ScafKey) ≠ (ref, !e) := by
    intro h
    have := (Prod.mk.injEq _ _ _ _ ▸ h).2
    cases e <;> simp at this
  rw [entryOf_addHit imap index _ _ hne]
  split_ifs <;> rfl

/-- Flushing a ready pair.  Let `s` hold a first mate, `r` be its accepted
second mate and `y` the next record, of another read name; let `pos` be the
value `(prevPos + pos) / 2` as `readBAM` computes it in 32-bit `int`
arithmetic (not -1, so that the pair is flushed), `size` the length of the
scaffold (at least `min_size`) and `cutOff` the computed cut-off.  If `pos <= cutOff` the (scaffold, Head) count
of the barcode increases by exactly 1; otherwise, if `pos > size - cutOff`,
the (scaffold, Tail) count increases by exactly 1; otherwise IndexMap is
unchanged.  In every case all other counts are unchanged. -/
theorem flushed_pair_counts (P : ArcsParams) (s : ReadState) (r y : SamRecord)
    (pos size cutOff : Int) (hct : s.ct = 2) (hname : r.readName = s.prevRN)
    (hacc : acceptPair P s r = true) (hy : y.readName ≠ r.readName)
    (hpos : pos = Int.tdiv (wrapInt (s.prevPos + r.pos)) 2)
    (hsize : size = (mapFind s.sMap r.scafName).getD 0)
    (hcut : cutOff = cutOffOf P size) (hflush : pos ≠ -1) (hmin : P.min_size ≤ size) :
    (pos ≤ cutOff →
      countOf (readRecord P (readRecord P s r) y).imap (indexOf r.readName) (r.scafName, true)
        = countOf s.imap (indexOf r.readName) (r.scafName, true) + 1
      ∧ ∀ b k, ¬ (b = indexOf r.readName ∧ k = (r.scafName, true)) →
          countOf (readRecord P (readRecord P s r) y).imap b k = countOf s.imap b k)
    ∧ (¬ pos ≤ cutOff → size - cutOff < pos →
      countOf (readRecord P (readRecord P s r) y).imap (indexOf r.readName) (r.scafName, false)
        = countOf s.imap (indexOf r.readName) (r.scafName, false) + 1
      ∧ ∀ b k, ¬ (b = indexOf r.readName ∧ k = (r.scafName, false)) →
          countOf (readRecord P (readRecord P s r) y).imap b k = countOf s.imap b k)
    ∧ (¬ pos ≤ cutOff → ¬ size - cutOff < pos →
      (readRecord P (readRecord P s r) y).imap = s.imap) := by
  have hacc2 := hacc
  simp only [acceptPair, Bool.and_eq_true, bne_iff_ne, ne_eq, decide_eq_true_eq,
    beq_iff_eq] at hacc2
  obtain ⟨_, ⟨⟨_, hstar⟩, hemp⟩, hidx⟩ := hacc2
  have hc := countIndex_eq s (indexOf r.readName)
  have hs1 := readRecord_second_mate P s r hct hname
  rw [if_pos hacc] at hs1
  have f1 : (readRecord P s r).ct = 3 := by rw [hs1]
  have f2 : (readRecord P s r).prevRN = s.prevRN := by rw [hs1, hc]
  have f3 : (readRecord P s r).readyToAddIndex = indexOf r.readName := by rw [hs1]
  have f4 : (readRecord P s r).readyToAddRefName = r.scafName := by rw [hs1]
  have f5 : (readRecord P s r).readyToAddPos = pos := by rw [hs1, hpos]
  have f6 : (readRecord P s r).sMap = s.sMap := by rw [hs1, hc]
  have f7 : (readRecord P s r).imap = s.imap := by rw [hs1, hc]
  have hrec : recordHit P (readRecord P s r) y = pendingHit P (readRecord P s r) := by
    unfold recordHit
    have h1 : (wrapCt (skipUnpaired (readRecord P s r) y)).ct = 1 := by
      simp [wrapCt, skipUnpaired, f1]
    rw [if_pos]
    refine ⟨h1, ?_⟩
    rw [f2, ← hname]
    exact hy
  have hready : ((readRecord P s r).readyToAddIndex != "" && (readRecord P s r).readyToAddRefName != ""
      && (readRecord P s r).readyToAddRefName != "*" && (readRecord P s r).readyToAddPos != -1)
      = true := by
    rw [f3, f4, f5]
    simp only [Bool.and_eq_true, bne_iff_ne, ne_eq]
    exact ⟨⟨⟨hidx, hemp⟩, hstar⟩, hflush⟩
  have hmin2 : P.min_size ≤ (mapFind (readRecord P s r).sMap
      (readRecord P s r).readyToAddRefName).getD 0 := by
    rw [f6, f4, ← hsize]
    exact hmin
  have hpend : pendingHit P (readRecord P s r)
      = if pos ≤ cutOff then some (indexOf r.readName, (r.scafName, true), (r.scafName, false))
        else if size - cutOff < pos then
          some (indexOf r.readName, (r.scafName, false), (r.scafName, true))
        else none := by
    unfold pendingHit
    rw [if_pos hready, if_pos hmin2, f6, f4, f5, f3, ← hsize, ← hcut]
  rw [readRecord_imap_eq, hrec, hpend, f7]
  refine ⟨fun h1 => ?_, fun h1 h2 => ?_, fun h1 h2 => ?_⟩
  · rw [if_pos h1]
    simp only [applyHit]
    have := countOf_addHit s.imap (indexOf r.readName) r.scafName true
    simp only [Bool.not_true] at this
    refine ⟨?_, fun b k hbk => ?_⟩
    · rw [this, if_pos ⟨rfl, rfl⟩]
    · rw [this, if_neg hbk]
  · rw [if_neg h1, if_pos h2]
    simp only [applyHit]
    have := countOf_addHit s.imap (indexOf r.readName) r.scafName false
    simp only [Bool.not_false] at this
    refine ⟨?_, fun b k hbk => ?_⟩
    · rw [this, if_pos ⟨rfl, rfl⟩]
    · rw [this, if_neg hbk]
  · rw [if_neg h1, if_neg h2]
    rfl

theorem flushed_pair_counts_witness :
    ((holdingA sampleParams).ct = 2 ∧ mateB.readName = (holdingA sampleParams).prevRN
      ∧ acceptPair sampleParams (holdingA sampleParams) mateB = true
      ∧ mateC.readName ≠ mateB.readName
      ∧ (200 : Int) = Int.tdiv (wrapInt ((holdingA sampleParams).prevPos + mateB.pos)) 2
      ∧ (1000 : Int) = (mapFind (holdingA sampleParams).sMap mateB.scafName).getD 0
      ∧ (500 : Int) = cutOffOf sampleParams 1000 ∧ (200 : Int) ≠ -1
      ∧ sampleParams.min_size ≤ 1000 ∧ (200 : Int) ≤ 500)
    ∧ countOf (readRecord sampleParams (readRecord sampleParams (holdingA sampleParams) mateB)
          mateC).imap (indexOf mateB.readName) (mateB.scafName, true)
        = countOf (holdingA sampleParams).imap (indexOf mateB.readName) (mateB.scafName, true) + 1 :=
  ⟨by decide,
    ((flushed_pair_counts sampleParams (holdingA sampleParams) mateB mateC 200 1000 500
      (by decide) (by decide) (by decide) (by decide) (by decide) (by decide) (by decide)
      (by decide) (by decide)).1 (by decide)).1⟩

/-! ## Paired-record linker: barcode multiplicity -/

theorem carries_iff (b : String) (l : SamLine) :
    carries b l = true ↔ lineIndex l = b ∧ b ≠ "" := by
  cases l with
  | header =>
    simp only [carries, lineIndex]
    constructor
    · intro h; simp at h
    · rintro ⟨h1, h2⟩; exact absurd h1.symm h2
  | record r =>
    simp only [carries, lineIndex, indexOf, Bool.and_eq_true, beq_iff_eq, bne_iff_ne, ne_eq]
    constructor
    · rintro ⟨⟨⟨_, h2⟩, h3⟩, h4⟩
      rw [h2, if_pos h4]
      exact ⟨rfl, h3⟩
    · rintro ⟨h1, h2⟩
      by_cases hc : checkIndex (readNameSpl r.readName) = true
      · rw [if_pos hc] at h1
        rw [h1] at hc
        refine ⟨⟨⟨?_, h1⟩, h2⟩, hc⟩
        by_contra hno
        apply h2
        rw [← h1]
        unfold readNameSpl
        rw [if_neg hno]
      · rw [if_neg hc] at h1
        exact absurd h1.symm h2

theorem mapFind_applyCount (index : String) (m : CountMap) (b : String) :
    mapFind (applyCount index m) b
      = if index = b ∧ b ≠ "" then some ((mapFind m b).getD 0 + 1) else mapFind m b := by
  unfold applyCount
  by_cases h1 : index = b
  · subst h1
    by_cases h2 : index = ""
    · simp [h2]
    · simp [h2, mapFind_mapUpd_self]
  · by_cases h2 : index = ""
    · have h4 : ¬ (index = b ∧ b ≠ "") := fun h => h1 h.1
      rw [if_neg h4]
      simp [h2]
    · have h3 : (index != "") = true := by simpa using h2
      rw [if_pos h3, mapFind_mapUpd_ne noLt m index b 0 _ h1, if_neg (fun h => h1 h.1)]

theorem mapFind_applyCounts (lines : List SamLine) (m : CountMap) (b : String) :
    mapFind (applyCounts lines m) b
      = if (lines.filter (carries b)).length = 0 then mapFind m b
        else some ((mapFind m b).getD 0 + ((lines.filter (carries b)).length : Int)) := by
  unfold applyCounts
  induction lines generalizing m with
  | nil => simp
  | cons l t ih =>
    simp only [List.foldl_cons]
    rw [ih, mapFind_applyCount]
    by_cases hc : carries b l = true
    · have hc2 := (carries_iff b l).1 hc
      rw [if_pos hc2]
      simp only [List.filter_cons, hc, if_true, List.length_cons, Option.getD_some]
      by_cases ht : (t.filter (carries b)).length = 0
      · simp [ht]
      · simp only [ht, if_false, Nat.succ_ne_zero, Nat.cast_succ]
        congr 1
        omega
    · have hc2 : ¬ (lineIndex l = b ∧ b ≠ "") := fun h => hc ((carries_iff b l).2 h)
      rw [if_neg hc2]
      simp only [List.filter_cons, hc, if_false, Bool.false_eq_true]

/-- C14: `readBAM` increases the multiplicity of each barcode `b` by exactly
the number of non-header records whose read name contains an underscore and
whose substring after the first underscore equals `b`, is non-empty and
passes `checkIndex` (`carries b` reads no other field of the record); when
no record carries `b`, the entry of `b` in the multiplicity map is left as
it was. -/
theorem readBAM_multiplicity (P : ArcsParams) (lines : List SamLine) (imap : IndexMap)
    (mult sMap : CountMap) (b : String) :
    (mapFind (readBAM P lines imap mult sMap).indexMultMap b).getD 0
      = (mapFind mult b).getD 0 + ((lines.filter (carries b)).length : Int)
    ∧ ((lines.filter (carries b)).length = 0 →
        mapFind (readBAM P lines imap mult sMap).indexMultMap b = mapFind mult b) := by
  obtain ⟨H, H1, _⟩ := readBAM_maps P lines sMap
  rw [(H1 imap mult).2, mapFind_applyCounts]
  by_cases h : (lines.filter (carries b)).length = 0
  · simp [h]
  · simp [h]

theorem readBAM_multiplicity_witness :
    (pairOnS9.filter (carries "TTTT")).length = 0
    ∧ (pairOnS9.filter (carries "ACGT")).length = 3
    ∧ mapFind (readBAM sampleParams pairOnS9 [] [("TTTT", 7)] []).indexMultMap "TTTT"
        = mapFind [("TTTT", (7 : Int))] "TTTT" :=
  ⟨by decide, by decide,
    (readBAM_multiplicity sampleParams pairOnS9 [] [("TTTT", 7)] [] "TTTT").2 (by decide)⟩

/-! ## Paired-record linker: the order of the sources -/

theorem hitCount_of_not_touches (hs : List Hit) (b : String) (k : ScafKey)
    (h : touches hs b k = false) : hitCount hs b k = 0 := by
  unfold hitCount
  unfold touches at h
  rw [List.length_eq_zero, List.filter_eq_nil_iff]
  intro x hx hc
  rw [List.any_eq_false] at h
  apply h x hx
  simp only [decide_eq_true_eq] at hc ⊢
  exact ⟨hc.1, Or.inl hc.2⟩

theorem entryOf_applyHits (hs : List Hit) (hwf : ∀ x ∈ hs, x.2.2 = (x.2.1.1, !x.2.1.2))
    (i : IndexMap) (b : String) (k : ScafKey) :
    entryOf (applyHits hs i) b k
      = if touches hs b k = true
        then some ((entryOf i b k).getD 0 + (hitCount hs b k : Int))
        else entryOf i b k := by
  induction hs generalizing i with
  | nil => simp [applyHits, touches]
  | cons x t ih =>
    obtain ⟨index, key, keyR⟩ := x
    have hR : keyR = (key.1, !key.2) := hwf (index, key, keyR) (List.mem_cons_self _ _)
    have hne : key ≠ keyR := by
      intro h
      rw [hR] at h
      have := congrArg Prod.snd h
      cases hk : key.2 <;> simp [hk] at this
    have hstep : applyHits ((index, key, keyR) :: t) i = applyHits t (addHit i index key keyR) :=
      rfl
    rw [hstep, ih (fun y hy => hwf y (List.mem_cons_of_mem _ hy)), entryOf_addHit i index key keyR hne]
    have htc : touches ((index, key, keyR) :: t) b k
        = (decide (index = b ∧ (key = k ∨ keyR = k)) || touches t b k) := by
      simp [touches]
    have hcn : hitCount ((index, key, keyR) :: t) b k
        = hitCount t b k + (if index = b ∧ key = k then 1 else 0) := by
      unfold hitCount
      by_cases hc : index = b ∧ key = k
      · simp [List.filter_cons, hc]
      · simp [List.filter_cons, hc]
    rw [htc, hcn]
    by_cases hA : b = index ∧ k = key
    · obtain ⟨rfl, rfl⟩ := hA
      simp only [true_and, and_self, if_true, true_or, decide_True, Bool.true_or,
        Option.getD_some, Nat.cast_add, Nat.cast_one]
      by_cases ht : touches t b k = true
      · rw [if_pos ht]
        congr 1
        omega
      · have ht2 : touches t b k = false := by simpa using ht
        rw [if_neg ht, hitCount_of_not_touches t b k ht2]
        simp
    · rw [if_neg hA]
      have hA2 : ¬ (index = b ∧ key = k) := fun h => hA ⟨h.1.symm, h.2.symm⟩
      rw [if_neg hA2]
      by_cases hB : b = index ∧ k = keyR
      · obtain ⟨rfl, rfl⟩ := hB
        simp only [true_and, and_self, if_true, or_true, decide_True, Bool.true_or,
          Option.getD_some, Nat.add_zero]
        by_cases ht : touches t b k = true
        · rw [if_pos ht]
        · have ht2 : touches t b k = false := by simpa using ht
          rw [if_neg ht, hitCount_of_not_touches t b k ht2]
          simp
      · rw [if_neg hB]
        have hd : decide (index = b ∧ (key = k ∨ keyR = k)) = false := by
          rw [decide_eq_false_iff_not]
          rintro ⟨h1, h2 | h2⟩
          · exact hA ⟨h1.symm, h2.symm⟩
          · exact hB ⟨h1.symm, h2.symm⟩
        rw [hd]
        simp only [Bool.false_or, Nat.add_zero]

theorem isSome_applyHits (hs : List Hit) (i : IndexMap) (b : String) :
    (mapFind (applyHits hs i) b).isSome
      = (hs.any (fun h => decide (h.1 = b)) || (mapFind i b).isSome) := by
  induction hs generalizing i with
  | nil => simp [applyHits]
  | cons x t ih =>
    obtain ⟨index, key, keyR⟩ := x
    have hstep : applyHits ((index, key, keyR) :: t) i = applyHits t (addHit i index key keyR) :=
      rfl
    rw [hstep, ih, isSome_addHit]
    by_cases h : index = b
    · subst h
      simp
    · have h2 : ¬ b = index := fun e => h e.symm
      simp [h, h2]

/-- C13: the order of the sources does not matter.  Running `readBAM` on the
stream `A` and then on `B` (each call starting from its own fresh pairing
state, with the same scaffold sizes) gives the same multiplicity map and the
same IndexMap as running it on `B` and then on `A`: every barcode has the
same multiplicity entry, is present in IndexMap in both or in neither, and
has the same entry under every (scaffold, end) key. -/
theorem readBAM_order_irrelevant (P : ArcsParams) (A B : List SamLine) (imap : IndexMap)
    (mult sMap : CountMap) :
    (∀ b, mapFind (readBAM P B (readBAM P A imap mult sMap).imap
            (readBAM P A imap mult sMap).indexMultMap sMap).indexMultMap b
        = mapFind (readBAM P A (readBAM P B imap mult sMap).imap
            (readBAM P B imap mult sMap).indexMultMap sMap).indexMultMap b)
    ∧ (∀ b, (mapFind (readBAM P B (readBAM P A imap mult sMap).imap
            (readBAM P A imap mult sMap).indexMultMap sMap).imap b).isSome
        = (mapFind (readBAM P A (readBAM P B imap mult sMap).imap
            (readBAM P B imap mult sMap).indexMultMap sMap).imap b).isSome)
    ∧ (∀ b k, entryOf (readBAM P B (readBAM P A imap mult sMap).imap
            (readBAM P A imap mult sMap).indexMultMap sMap).imap b k
        = entryOf (readBAM P A (readBAM P B imap mult sMap).imap
            (readBAM P B imap mult sMap).indexMultMap sMap).imap b k) := by
  obtain ⟨HA, hA, wA⟩ := readBAM_maps P A sMap
  obtain ⟨HB, hB, wB⟩ := readBAM_maps P B sMap
  refine ⟨fun b => ?_, fun b => ?_, fun b k => ?_⟩
  · rw [(hB _ _).2, (hA _ _).2, (hA _ _).2, (hB _ _).2]
    simp only [mapFind_applyCounts]
    by_cases h1 : (A.filter (carries b)).length = 0 <;>
      by_cases h2 : (B.filter (carries b)).length = 0 <;>
      simp only [h1, h2, if_true, if_false, Option.getD_some]
    congr 1
    omega
  · rw [(hB _ _).1, (hA _ _).1, (hA _ _).1, (hB _ _).1]
    simp only [isSome_applyHits]
    cases HA.any (fun h => decide (h.1 = b)) <;> cases HB.any (fun h => decide (h.1 = b)) <;> rfl
  · rw [(hB _ _).1, (hA _ _).1, (hA _ _).1, (hB _ _).1]
    rw [entryOf_applyHits HB wB, entryOf_applyHits HA wA, entryOf_applyHits HA wA,
      entryOf_applyHits HB wB]
    cases h1 : touches HA b k <;> cases h2 : touches HB b k <;>
      simp only [if_true, if_false, Option.getD_some, Bool.false_eq_true]
    congr 1
    omega

/-! ## Paired-record linker: more than two records per read name -/

theorem flush_ctl (P : ArcsParams) (t : ReadState) :
    (flush P t).ct = t.ct ∧ (flush P t).prevRN = t.prevRN := by
  unfold flush
  split <;> exact ⟨rfl, rfl⟩

theorem readRecord_new_name (P : ArcsParams) (s : ReadState) (r : SamRecord)
    (hct : 1 ≤ s.ct) (hnew : r.readName ≠ s.prevRN) :
    (readRecord P s r).ct = 2 ∧ (readRecord P s r).prevRN = r.readName := by
  dsimp only [readRecord]
  have hc := countIndex_eq s (indexOf r.readName)
  generalize countIndex s (indexOf r.readName) = c at hc
  have e1 : c.ct = s.ct := by rw [hc]
  have e2 : c.prevRN = s.prevRN := by rw [hc]
  have hw : (wrapCt (skipUnpaired c r)).ct = 1 ∧ (wrapCt (skipUnpaired c r)).prevRN = s.prevRN := by
    have hne0 : r.readName ≠ c.prevRN := by rw [e2]; exact hnew
    by_cases h2 : c.ct = 2
    · have hs : skipUnpaired c r = { c with countUnpaired := c.countUnpaired + 1, ct := 1 } := by
        unfold skipUnpaired
        rw [if_pos ⟨h2, hne0⟩]
      rw [hs]
      unfold wrapCt
      have h13 : ¬ (3 : Int) ≤ 1 := by decide
      rw [if_neg h13]
      exact ⟨rfl, e2⟩
    · have hs : skipUnpaired c r = c := by
        unfold skipUnpaired
        rw [if_neg (fun h => h2 h.1)]
      rw [hs]
      unfold wrapCt
      by_cases h3 : (3 : Int) ≤ c.ct
      · rw [if_pos h3]
        exact ⟨rfl, e2⟩
      · rw [if_neg h3]
        refine ⟨?_, e2⟩
        omega
  generalize wrapCt (skipUnpaired c r) = w at hw
  obtain ⟨hw1, hw2⟩ := hw
  have hne : r.readName ≠ w.prevRN := by rw [hw2]; exact hnew
  unfold pairing
  rw [if_pos hw1, if_pos hne]
  obtain ⟨f1, f2⟩ := flush_ctl P
    { w with prevRN := r.readName, prevSI := r.si, prevFlag := r.flag, prevMapq := r.mapq,
             prevRef := r.scafName, prevPos := r.pos }
  constructor
  · show (flush P _).ct + 1 = 2
    rw [f1]
    show w.ct + 1 = 2
    omega
  · show (flush P _).prevRN = r.readName
    rw [f2]

theorem readRecord_repeat (P : ArcsParams) (s : ReadState) (r : SamRecord)
    (hct : s.ct = 1 ∨ 3 ≤ s.ct) (hname : r.readName = s.prevRN) :
    readRecord P s r
      = { countIndex s (indexOf r.readName) with
            ct := 1, readyToAddIndex := "", readyToAddRefName := "", readyToAddPos := -1 } := by
  dsimp only [readRecord]
  have hc := countIndex_eq s (indexOf r.readName)
  generalize countIndex s (indexOf r.readName) = c at hc ⊢
  have e1 : c.ct = s.ct := by rw [hc]
  have e2 : c.prevRN = s.prevRN := by rw [hc]
  have h1 : skipUnpaired c r = c := by
    simp [skipUnpaired, hname, e2]
  rw [h1]
  have h2 : wrapCt c = { c with ct := 1 } := by
    unfold wrapCt
    rcases hct with h | h
    · have h3 : ¬ (3 : Int) ≤ c.ct := by rw [e1, h]; decide
      rw [if_neg h3]
      have h4 : c.ct = 1 := by rw [e1, h]
      rw [← h4]
    · have h3 : (3 : Int) ≤ c.ct := by rw [e1]; exact h
      rw [if_pos h3]
  rw [h2]
  simp [pairing, hname, e2]

theorem readRecord_repeat_fields (P : ArcsParams) (s : ReadState) (r : SamRecord)
    (hct : s.ct = 1 ∨ 3 ≤ s.ct) (hname : r.readName = s.prevRN) :
    (readRecord P s r).imap = s.imap ∧ (readRecord P s r).ct = 1
    ∧ (readRecord P s r).prevRN = s.prevRN ∧ (readRecord P s r).readyToAddIndex = ""
    ∧ (readRecord P s r).readyToAddRefName = "" ∧ (readRecord P s r).readyToAddPos = -1 := by
  rw [readRecord_repeat P s r hct hname]
  have hc := countIndex_eq s (indexOf r.readName)
  refine ⟨?_, rfl, ?_, rfl, rfl, rfl⟩
  · show (countIndex s (indexOf r.readName)).imap = s.imap
    rw [hc]
  · show (countIndex s (indexOf r.readName)).prevRN = s.prevRN
    rw [hc]

theorem repeat_fold (P : ArcsParams) (rest : List SamRecord) (t : ReadState)
    (hct : t.ct = 1) (hrest : ∀ r ∈ rest, r.readName = t.prevRN)
    (h1 : t.readyToAddIndex = "") (h2 : t.readyToAddRefName = "") (h3 : t.readyToAddPos = -1) :
    (rest.foldl (readRecord P) t).imap = t.imap ∧ (rest.foldl (readRecord P) t).ct = 1
    ∧ (rest.foldl (readRecord P) t).prevRN = t.prevRN
    ∧ (rest.foldl (readRecord P) t).readyToAddIndex = ""
    ∧ (rest.foldl (readRecord P) t).readyToAddRefName = ""
    ∧ (rest.foldl (readRecord P) t).readyToAddPos = -1 := by
  induction rest generalizing t with
  | nil => exact ⟨rfl, hct, rfl, h1, h2, h3⟩
  | cons r u ih =>
    obtain ⟨g1, g2, g3, g4, g5, g6⟩ :=
      readRecord_repeat_fields P t r (Or.inl hct) (hrest r (List.mem_cons_self _ _))
    have hrest2 : ∀ x ∈ u, x.readName = (readRecord P t r).prevRN := by
      intro x hx
      rw [g3]
      exact hrest x (List.mem_cons_of_mem _ hx)
    obtain ⟨i1, i2, i3, i4, i5, i6⟩ := ih (readRecord P t r) g2 hrest2 g4 g5 g6
    simp only [List.foldl_cons]
    exact ⟨i1.trans g1, i2, i3.trans g3, i4, i5, i6⟩

theorem pendingHit_of_cleared (P : ArcsParams) (t : ReadState) (h : t.readyToAddIndex = "") :
    pendingHit P t = none := by
  unfold pendingHit
  simp [h]

/-- C20: protection against more than two records per read name.  When a
read name that differs from the tracked one occurs in three or more
consecutive records `r1, r2, r3, rest`, the run adds no Head or Tail count,
whether or not `r1` and `r2` form a qualifying pair: after the run IndexMap
is as it was after `r1` (whose arrival only flushes the pair of the read
before it, so IndexMap is unchanged when nothing was pending), the pending
pair is discarded by the third record and stays discarded for every further
record of the run, and the record that follows flushes nothing. -/
theorem run_of_three_adds_nothing (P : ArcsParams) (s : ReadState) (r1 r2 r3 : SamRecord)
    (rest : List SamRecord) (hct : 1 ≤ s.ct) (hnew : r1.readName ≠ s.prevRN)
    (h2 : r2.readName = r1.readName) (h3 : r3.readName = r1.readName)
    (hrest : ∀ r ∈ rest, r.readName = r1.readName) :
    ((r1 :: r2 :: r3 :: rest).foldl (readRecord P) s).imap = (readRecord P s r1).imap
    ∧ (s.readyToAddIndex = "" → ((r1 :: r2 :: r3 :: rest).foldl (readRecord P) s).imap = s.imap)
    ∧ ((r1 :: r2 :: r3 :: rest).foldl (readRecord P) s).readyToAddIndex = ""
    ∧ ((r1 :: r2 :: r3 :: rest).foldl (readRecord P) s).readyToAddRefName = ""
    ∧ ((r1 :: r2 :: r3 :: rest).foldl (readRecord P) s).readyToAddPos = -1
    ∧ ∀ y, (readRecord P ((r1 :: r2 :: r3 :: rest).foldl (readRecord P) s) y).imap
        = ((r1 :: r2 :: r3 :: rest).foldl (readRecord P) s).imap := by
  obtain ⟨a1, a2⟩ := readRecord_new_name P s r1 hct hnew
  have hb := readRecord_second_mate P (readRecord P s r1) r2 a1 (by rw [a2, h2])
  have hcI := countIndex_eq (readRecord P s r1) (indexOf r2.readName)
  have b1 : (readRecord P (readRecord P s r1) r2).ct = 3 := by
    rw [hb]; split_ifs <;> rfl
  have b2 : (readRecord P (readRecord P s r1) r2).prevRN = r1.readName := by
    rw [hb]
    split_ifs
    · show (countIndex (readRecord P s r1) (indexOf r2.readName)).prevRN = _
      rw [hcI]; exact a2
    · show (countIndex (readRecord P s r1) (indexOf r2.readName)).prevRN = _
      rw [hcI]; exact a2
  have b3 : (readRecord P (readRecord P s r1) r2).imap = (readRecord P s r1).imap := by
    rw [hb]
    split_ifs
    · show (countIndex (readRecord P s r1) (indexOf r2.readName)).imap = _
      rw [hcI]
    · show (countIndex (readRecord P s r1) (indexOf r2.readName)).imap = _
      rw [hcI]
  obtain ⟨c1, c2, c3, c4, c5, c6⟩ := readRecord_repeat_fields P
    (readRecord P (readRecord P s r1) r2) r3 (Or.inr (by rw [b1])) (by rw [b2, h3])
  have hrest2 : ∀ r ∈ rest,
      r.readName = (readRecord P (readRecord P (readRecord P s r1) r2) r3).prevRN := by
    intro r hr
    rw [c3, b2]
    exact hrest r hr
  obtain ⟨d1, _, _, d4, d5, d6⟩ := repeat_fold P rest
    (readRecord P (readRecord P (readRecord P s r1) r2) r3) c2 hrest2 c4 c5 c6
  have himap : ((r1 :: r2 :: r3 :: rest).foldl (readRecord P) s).imap = (readRecord P s r1).imap := by
    simp only [List.foldl_cons]
    rw [d1, c1, b3]
  refine ⟨himap, ?_, ?_, ?_, ?_, ?_⟩
  · intro hp
    rw [himap, readRecord_imap_eq]
    unfold recordHit
    split_ifs
    · rw [pendingHit_of_cleared P s hp]; rfl
    · rfl
  · simpa only [List.foldl_cons] using d4
  · simpa only [List.foldl_cons] using d5
  · simpa only [List.foldl_cons] using d6
  · intro y
    rw [readRecord_imap_eq]
    unfold recordHit
    split_ifs
    · rw [pendingHit_of_cleared P _ (by simpa only [List.foldl_cons] using d4)]; rfl
    · rfl

theorem run_of_three_adds_nothing_witness :
    (1 ≤ (initState [] [] [("S1", 1000)]).ct
      ∧ mateA.readName ≠ (initState [] [] [("S1", 1000)]).prevRN
      ∧ mateB.readName = mateA.readName
      ∧ (∀ r ∈ [mateB], r.readName = mateA.readName)
      ∧ (initState [] [] [("S1", 1000)]).readyToAddIndex = "")
    ∧ acceptPair sampleParams (holdingA sampleParams) mateB = true
    ∧ ([mateA, mateB, mateB, mateB].foldl (readRecord sampleParams)
        (initState [] [] [("S1", 1000)])).imap = (initState [] [] [("S1", 1000)]).imap :=
  ⟨by decide, by decide,
    (run_of_three_adds_nothing sampleParams (initState [] [] [("S1", 1000)]) mateA mateB mateB
      [mateB] (by decide) (by decide) (by decide) (by decide) (by decide)).2.1 (by decide)⟩

/-! ## Graph builder: the value of `second` -/

/-- C22 (the code at the failing input): for the count vector
`[5, 5, 0, 0]` the maximum 5 wins at index 0 and the largest of the three
counts at the other indices is 5, but the loop of `createGraph` skips every
count equal to the maximum and computes `second = 0`; with the default
parameters the entry is then accepted and gets an edge of orientation 0. -/
theorem second_skips_tied_maximum :
    getMaxValueAndIndex [5, 5, 0, 0] = (5, 0)
    ∧ ([5, 5, 0, 0].eraseIdx 0).foldl max (0 : Int) = 5
    ∧ secondOf [5, 5, 0, 0] (getMaxValueAndIndex [5, 5, 0, 0]).1 = 0
    ∧ (createGraph sampleParams [(("S1", "S2"), [5, 5, 0, 0])] emptyGraph).1.edges
        = [{ src := 0, tgt := 1, orientation := 0, weight := 5 }] := by
  decide

/-! ## Degree pruner: flag, then remove -/

theorem mem_flagged (g : Graph) (d : Int) (v : Nat) :
    v ∈ flagged g d ↔ v ∈ g.vertices.map Prod.fst ∧ d < (degree g v : Int) := by
  unfold flagged
  simp only [List.mem_map, List.mem_filter, decide_eq_true_eq]
  constructor
  · rintro ⟨w, ⟨hw, hd⟩, rfl⟩
    exact ⟨⟨w, hw, rfl⟩, hd⟩
  · rintro ⟨⟨w, hw, rfl⟩, hd⟩
    exact ⟨w, ⟨hw, hd⟩, rfl⟩

theorem removeDegreeNodes_vertices_eq (g : Graph) (d : Int) :
    (removeDegreeNodes g d).vertices
      = g.vertices.filter (fun w => decide ((degree g w.1 : Int) ≤ d)) := by
  rw [removeDegreeNodes_vertices]
  apply List.filter_congr
  intro w hw
  have hin : w.1 ∈ g.vertices.map Prod.fst := List.mem_map.2 ⟨w, hw, rfl⟩
  by_cases h : (degree g w.1 : Int) ≤ d
  · have : w.1 ∉ flagged g d := by
      rw [mem_flagged]
      intro hc
      omega
    simp [h, this]
  · have : w.1 ∈ flagged g d := by
      rw [mem_flagged]
      exact ⟨hin, by omega⟩
    simp [h, this]

/-- C24: flag-then-remove pruning.  After `removeDegreeNodes g d` the
remaining nodes are exactly the nodes whose degree in the original graph was
at most `d` (whatever happens to degrees while nodes are removed), and, in a
graph whose edges join nodes of the graph, the remaining edges are exactly
the original edges both of whose end nodes remain, unchanged in weight and
orientation. -/
theorem removeDegreeNodes_exact (g : Graph) (d : Int) :
    (removeDegreeNodes g d).vertices
      = g.vertices.filter (fun w => decide ((degree g w.1 : Int) ≤ d))
    ∧ ((∀ e ∈ g.edges, e.src ∈ g.vertices.map Prod.fst ∧ e.tgt ∈ g.vertices.map Prod.fst) →
        (removeDegreeNodes g d).edges
          = g.edges.filter (fun e =>
              decide (e.src ∈ (removeDegreeNodes g d).vertices.map Prod.fst
                ∧ e.tgt ∈ (removeDegreeNodes g d).vertices.map Prod.fst))) := by
  refine ⟨removeDegreeNodes_vertices_eq g d, fun hwf => ?_⟩
  have hrem : ∀ v, v ∈ g.vertices.map Prod.fst →
      (v ∈ (removeDegreeNodes g d).vertices.map Prod.fst ↔ v ∉ flagged g d) := by
    intro v hv
    rw [removeDegreeNodes_vertices_eq, mem_flagged]
    simp only [List.mem_map, List.mem_filter, decide_eq_true_eq]
    constructor
    · rintro ⟨w, ⟨_, hd⟩, rfl⟩ hc
      omega
    · intro hno
      obtain ⟨w, hw, rfl⟩ := List.mem_map.1 hv
      refine ⟨w, ⟨hw, ?_⟩, rfl⟩
      by_contra hc
      exact hno ⟨⟨w, hw, rfl⟩, by omega⟩
  rw [removeDegreeNodes_edges]
  apply List.filter_congr
  intro e he
  obtain ⟨h1, h2⟩ := hwf e he
  have e1 := hrem e.src h1
  have e2 := hrem e.tgt h2
  by_cases c1 : e.src ∈ flagged g d <;> by_cases c2 : e.tgt ∈ flagged g d <;>
    simp [c1, c2, e1, e2]

theorem removeDegreeNodes_exact_witness :
    (∀ e ∈ starGraph.edges,
      e.src ∈ starGraph.vertices.map Prod.fst ∧ e.tgt ∈ starGraph.vertices.map Prod.fst)
    ∧ (removeDegreeNodes starGraph 2).vertices = [(1, "S2"), (2, "S3"), (3, "S4")]
    ∧ (removeDegreeNodes starGraph 2).edges
        = starGraph.edges.filter (fun e =>
            decide (e.src ∈ (removeDegreeNodes starGraph 2).vertices.map Prod.fst
              ∧ e.tgt ∈ (removeDegreeNodes starGraph 2).vertices.map Prod.fst)) :=
  ⟨by decide, by decide, (removeDegreeNodes_exact starGraph 2).2 (by decide)⟩

/-! ## Graph builder: weight and orientation of an edge -/

theorem getMax_fold_spec (l pre : List Int) (m : Int) (kn : Nat)
    (hle : ∀ c ∈ pre, c ≤ m)
    (hinv : (m = 0 ∧ kn = 0)
      ∨ (0 < m ∧ pre[kn]? = some m ∧ ∀ j, j < kn → ∀ c, pre[j]? = some c → c < m)) :
    ∃ (m2 : Int) (k2 : Nat),
      (l.foldl
        (fun (s : (Int × Int) × Int) x => if s.1.1 < x then ((x, s.2), s.2 + 1) else (s.1, s.2 + 1))
        ((m, (kn : Int)), (pre.length : Int))).1 = (m2, (k2 : Int))
      ∧ (∀ c ∈ pre ++ l, c ≤ m2)
      ∧ ((m2 = 0 ∧ k2 = 0)
        ∨ (0 < m2 ∧ (pre ++ l)[k2]? = some m2
            ∧ ∀ j, j < k2 → ∀ c, (pre ++ l)[j]? = some c → c < m2)) := by
  induction l generalizing pre m kn with
  | nil =>
    refine ⟨m, kn, rfl, ?_, ?_⟩
    · simpa using hle
    · simpa using hinv
  | cons x t ih =>
    have hm0 : 0 ≤ m := by
      rcases hinv with ⟨h, _⟩ | ⟨h, _⟩ <;> omega
    have hlen : ((pre ++ [x]).length : Int) = (pre.length : Int) + 1 := by
      simp
    have happ : pre ++ x :: t = (pre ++ [x]) ++ t := by simp
    simp only [List.foldl_cons]
    rw [happ]
    by_cases hx : m < x
    · simp only [hx, if_true]
      rw [← hlen]
      apply ih (pre ++ [x]) x pre.length
      · intro c hc
        rcases List.mem_append.1 hc with hc | hc
        · have := hle c hc
          omega
        · rw [List.mem_singleton] at hc
          omega
      · right
        refine ⟨by omega, ?_, ?_⟩
        · rw [List.getElem?_append_right (Nat.le_refl _)]
          simp
        · intro j hj c hc
          rw [List.getElem?_append_left hj] at hc
          have hmem : c ∈ pre := List.mem_iff_getElem?.2 ⟨j, hc⟩
          have := hle c hmem
          omega
    · simp only [hx, if_false]
      rw [← hlen]
      apply ih (pre ++ [x]) m kn
      · intro c hc
        rcases List.mem_append.1 hc with hc | hc
        · exact hle c hc
        · rw [List.mem_singleton] at hc
          omega
      · rcases hinv with h | ⟨h1, h2, h3⟩
        · exact Or.inl h
        · right
          have hk : kn < pre.length := by
            by_contra hno
            rw [List.getElem?_eq_none (by omega)] at h2
            simp at h2
          refine ⟨h1, ?_, ?_⟩
          · rw [List.getElem?_append_left hk]
            exact h2
          · intro j hj c hc
            rw [List.getElem?_append_left (by omega)] at hc
            exact h3 j hj c hc

theorem getMax_spec (array : List Int)
    (h : (∃ c ∈ array, 0 < c) ∨ (array ≠ [] ∧ ∀ c ∈ array, 0 ≤ c)) :
    ∃ (mx : Int) (i : Nat), getMaxValueAndIndex array = (mx, (i : Int))
      ∧ (∀ c ∈ array, c ≤ mx) ∧ array[i]? = some mx
      ∧ ∀ j, j < i → ∀ c, array[j]? = some c → c < mx := by
  obtain ⟨m2, k2, h1, h2, h3⟩ := getMax_fold_spec array [] 0 0 (by simp) (Or.inl ⟨rfl, rfl⟩)
  simp only [List.nil_append, List.length_nil, Nat.cast_zero] at h1 h2 h3
  refine ⟨m2, k2, h1, h2, ?_⟩
  rcases h3 with ⟨hm, hk⟩ | ⟨_, h4, h5⟩
  · subst hm
    subst hk
    rcases h with ⟨c, hc, hpos⟩ | ⟨hne, hnn⟩
    · have := h2 c hc
      omega
    · cases array with
      | nil => exact absurd rfl hne
      | cons x t =>
        have e1 := h2 x (List.mem_cons_self _ _)
        have e2 := hnn x (List.mem_cons_self _ _)
        have : x = 0 := by omega
        subst this
        refine ⟨by simp, ?_⟩
        intro j hj
        omega
  · exact ⟨h4, h5⟩

/-- C23: `getMaxValueAndIndex` returns the maximum of a count vector and the
lowest index at which it occurs, for every vector with a positive element
(and for every non-empty vector of non-negative counts); and for an entry
that `createGraph` accepts, the single edge added for it has that maximum as
weight and that index (HH = 0, HT = 1, TH = 2, TT = 3) as orientation. -/
theorem accepted_edge_weight_orientation (P : ArcsParams) (st : Graph × VidVdesMap)
    (e : PairKey × List Int)
    (h : (∃ c ∈ e.2, 0 < c) ∨ (e.2 ≠ [] ∧ ∀ c ∈ e.2, 0 ≤ c)) :
    ∃ (mx : Int) (i : Nat), getMaxValueAndIndex e.2 = (mx, (i : Int))
      ∧ (∀ c ∈ e.2, c ≤ mx) ∧ e.2[i]? = some mx
      ∧ (∀ j, j < i → ∀ c, e.2[j]? = some c → c < mx)
      ∧ (checkSignificance P mx (secondOf e.2 mx) = true →
          ∃ da db, (createStep P st e).1.edges
            = st.1.edges ++ [{ src := da, tgt := db, orientation := (i : Int), weight := mx }]) := by
  obtain ⟨mx, i, h1, h2, h3, h4⟩ := getMax_spec e.2 h
  refine ⟨mx, i, h1, h2, h3, h4, ?_⟩
  intro hsig
  have hmx : (getMaxValueAndIndex e.2).1 = mx := by rw [h1]
  have hix : (getMaxValueAndIndex e.2).2 = (i : Int) := by rw [h1]
  obtain ⟨da, db, _, _, hs⟩ := createStep_significant P st e (by rw [hmx]; exact hsig)
  refine ⟨da, db, ?_⟩
  rw [hs, hmx, hix]
  have hedges : (ensureVertex (ensureVertex st e.1.1) e.1.2).1.edges = st.1.edges := by
    rw [(ensureVertex_mono _ e.1.2).2.1, (ensureVertex_mono st e.1.1).2.1]
  simp only [addEdge, hedges]

theorem accepted_edge_weight_orientation_witness :
    (∃ c ∈ [(2 : Int), 7, 7, 1], 0 < c)
    ∧ getMaxValueAndIndex [2, 7, 7, 1] = (7, 1)
    ∧ (createStep sampleParams (emptyGraph, []) (("S1", "S2"), [2, 7, 7, 1])).1.edges
        = [{ src := 0, tgt := 1, orientation := 1, weight := 7 }]
    ∧ ∃ (mx : Int) (i : Nat), getMaxValueAndIndex [2, 7, 7, 1] = (mx, (i : Int))
      ∧ (∀ c ∈ [(2 : Int), 7, 7, 1], c ≤ mx) ∧ [(2 : Int), 7, 7, 1][i]? = some mx
      ∧ (∀ j, j < i → ∀ c, [(2 : Int), 7, 7, 1][j]? = some c → c < mx)
      ∧ (checkSignificance sampleParams mx (secondOf [2, 7, 7, 1] mx) = true →
          ∃ da db, (createStep sampleParams (emptyGraph, []) (("S1", "S2"), [2, 7, 7, 1])).1.edges
            = (emptyGraph, ([] : VidVdesMap)).1.edges
              ++ [{ src := da, tgt := db, orientation := (i : Int), weight := mx }]) :=
  ⟨⟨7, by decide, by decide⟩, by decide, by decide,
    accepted_edge_weight_orientation sampleParams (emptyGraph, [])
      (("S1", "S2"), [2, 7, 7, 1]) (Or.inl ⟨7, by decide, by decide⟩)⟩

/-! ## Paired-record linker: unpaired reads and the end of the source -/

theorem flush_eq_of_not_ready (P : ArcsParams) (t : ReadState) (h : readyToAdd t = false) :
    flush P t = t := by
  unfold readyToAdd at h
  unfold flush
  rw [h]
  rfl

theorem readyToAdd_flush (P : ArcsParams) (t : ReadState) : readyToAdd (flush P t) = false := by
  cases h : readyToAdd t
  · rw [flush_eq_of_not_ready P t h]
    exact h
  · unfold readyToAdd at h
    unfold flush
    rw [h]
    rfl

theorem pendingHit_of_not_ready (P : ArcsParams) (t : ReadState) (h : readyToAdd t = false) :
    pendingHit P t = none := by
  unfold readyToAdd at h
  unfold pendingHit
  rw [h]
  rfl

theorem readRecord_new_name_eq (P : ArcsParams) (s : ReadState) (r : SamRecord)
    (hct : 1 ≤ s.ct) (hnew : r.readName ≠ s.prevRN) :
    readRecord P s r
      = { flush P
            { countIndex s (indexOf r.readName) with
                countUnpaired := if s.ct = 2 then s.countUnpaired + 1 else s.countUnpaired,
                ct := 1, prevRN := r.readName, prevSI := r.si, prevFlag := r.flag,
                prevMapq := r.mapq, prevRef := r.scafName, prevPos := r.pos } with ct := 2 } := by
  dsimp only [readRecord]
  have hc := countIndex_eq s (indexOf r.readName)
  generalize countIndex s (indexOf r.readName) = c at hc ⊢
  have e1 : c.ct = s.ct := by rw [hc]
  have e2 : c.prevRN = s.prevRN := by rw [hc]
  have e3 : c.countUnpaired = s.countUnpaired := by rw [hc]
  have hne0 : r.readName ≠ c.prevRN := by rw [e2]; exact hnew
  have hw : wrapCt (skipUnpaired c r)
      = { c with countUnpaired := if s.ct = 2 then s.countUnpaired + 1 else s.countUnpaired,
                 ct := 1 } := by
    by_cases h2 : c.ct = 2
    · have hs : skipUnpaired c r = { c with countUnpaired := c.countUnpaired + 1, ct := 1 } := by
        unfold skipUnpaired
        rw [if_pos ⟨h2, hne0⟩]
      rw [hs]
      unfold wrapCt
      have h13 : ¬ (3 : Int) ≤ 1 := by decide
      rw [if_neg h13, if_pos (e1 ▸ h2), e3]
    · have hs : skipUnpaired c r = c := by
        unfold skipUnpaired
        rw [if_neg (fun h => h2 h.1)]
      have h2s : ¬ s.ct = 2 := by rw [← e1]; exact h2
      rw [hs, if_neg h2s, ← e3]
      unfold wrapCt
      by_cases h3 : (3 : Int) ≤ c.ct
      · rw [if_pos h3]
      · rw [if_neg h3]
        have h1 : c.ct = 1 := by omega
        rw [← h1]
  rw [hw]
  have hp : pairing P
      { c with countUnpaired := if s.ct = 2 then s.countUnpaired + 1 else s.countUnpaired,
               ct := 1 } r (indexOf r.readName)
      = flush P
          { c with countUnpaired := if s.ct = 2 then s.countUnpaired + 1 else s.countUnpaired,
                   ct := 1, prevRN := r.readName, prevSI := r.si, prevFlag := r.flag,
                   prevMapq := r.mapq, prevRef := r.scafName, prevPos := r.pos } := by
    unfold pairing
    have hc1 : ({ c with
        countUnpaired := if s.ct = 2 then s.countUnpaired + 1 else s.countUnpaired,
        ct := 1 } : ReadState).ct = 1 := rfl
    have hc2 : r.readName ≠ ({ c with
        countUnpaired := if s.ct = 2 then s.countUnpaired + 1 else s.countUnpaired,
        ct := 1 } : ReadState).prevRN := hne0
    rw [if_pos hc1, if_pos hc2]
  rw [hp]
  have hf := (flush_ctl P
    { c with countUnpaired := if s.ct = 2 then s.countUnpaired + 1 else s.countUnpaired,
             ct := 1, prevRN := r.readName, prevSI := r.si, prevFlag := r.flag,
             prevMapq := r.mapq, prevRef := r.scafName, prevPos := r.pos }).1
  rw [hf]
  rfl

theorem readRecord_same_name (P : ArcsParams) (s : ReadState) (r : SamRecord)
    (hct : 1 ≤ s.ct) (h : r.readName = s.prevRN) :
    (readRecord P s r).prevRN = s.prevRN
    ∧ ((readRecord P s r).ct = 1 ∨ (readRecord P s r).ct = 3) := by
  have hc := countIndex_eq s (indexOf r.readName)
  by_cases h2 : s.ct = 2
  · rw [readRecord_second_mate P s r h2 h]
    split
    · refine ⟨?_, Or.inr rfl⟩
      show (countIndex s (indexOf r.readName)).prevRN = s.prevRN
      rw [hc]
    · refine ⟨?_, Or.inr rfl⟩
      show (countIndex s (indexOf r.readName)).prevRN = s.prevRN
      rw [hc]
  · have h13 : s.ct = 1 ∨ 3 ≤ s.ct := by omega
    obtain ⟨_, g2, g3, _⟩ := readRecord_repeat_fields P s r h13 h
    exact ⟨g3, Or.inl g2⟩

theorem readRecord_inv (P : ArcsParams) (s : ReadState) (r : SamRecord) (hct : 1 ≤ s.ct) :
    1 ≤ (readRecord P s r).ct
    ∧ ((readRecord P s r).ct = 2 → readyToAdd (readRecord P s r) = false)
    ∧ (readRecord P s r).prevRN = r.readName := by
  by_cases h : r.readName = s.prevRN
  · obtain ⟨g1, g2⟩ := readRecord_same_name P s r hct h
    refine ⟨by omega, fun h2 => by omega, ?_⟩
    rw [g1, h]
  · obtain ⟨g1, g2⟩ := readRecord_new_name P s r hct h
    refine ⟨by omega, fun _ => ?_, g2⟩
    rw [readRecord_new_name_eq P s r hct h]
    exact readyToAdd_flush P _

theorem readFold_inv (P : ArcsParams) (lines : List SamLine) (s : ReadState)
    (h1 : 1 ≤ s.ct) (h2 : s.ct = 2 → readyToAdd s = false) :
    1 ≤ (lines.foldl (readLine P) s).ct
    ∧ ((lines.foldl (readLine P) s).ct = 2 → readyToAdd (lines.foldl (readLine P) s) = false) := by
  induction lines generalizing s with
  | nil => exact ⟨h1, h2⟩
  | cons l u ih =>
    simp only [List.foldl_cons]
    cases l with
    | header => exact ih s h1 h2
    | record r =>
      obtain ⟨g1, g2, _⟩ := readRecord_inv P s r h1
      exact ih (readRecord P s r) g1 g2

theorem readBAM_inv (P : ArcsParams) (lines : List SamLine) (imap : IndexMap)
    (indexMultMap sMap : CountMap) :
    1 ≤ (readBAM P lines imap indexMultMap sMap).ct
    ∧ ((readBAM P lines imap indexMultMap sMap).ct = 2
        → readyToAdd (readBAM P lines imap indexMultMap sMap) = false) :=
  readFold_inv P lines (initState imap indexMultMap sMap)
    (show (1 : Int) ≤ 1 by decide) (fun _ => rfl)

theorem readBAM_snoc (P : ArcsParams) (lines : List SamLine) (r : SamRecord) (imap : IndexMap)
    (indexMultMap sMap : CountMap) :
    readBAM P (lines ++ [SamLine.record r]) imap indexMultMap sMap
      = readRecord P (readBAM P lines imap indexMultMap sMap) r := by
  unfold readBAM
  rw [List.foldl_append]
  rfl

theorem recordHit_same_name (P : ArcsParams) (s : ReadState) (r : SamRecord)
    (h : r.readName = s.prevRN) : recordHit P s r = none := by
  unfold recordHit
  rw [if_neg (fun hh => hh.2 h)]

theorem recordHit_congr (P : ArcsParams) (s : ReadState) (r r2 : SamRecord)
    (h : r2.readName = r.readName) : recordHit P s r2 = recordHit P s r := by
  unfold recordHit skipUnpaired
  rw [h]

theorem readRecord_imap_same_name (P : ArcsParams) (s : ReadState) (r : SamRecord)
    (h : r.readName = s.prevRN) : (readRecord P s r).imap = s.imap := by
  rw [readRecord_imap_eq, recordHit_same_name P s r h]
  rfl

/-- C25: the pair pending at the end of a source is never counted.  A record
whose read name equals the tracked one never changes IndexMap: only a record
with a different read name flushes.  Hence, for every record stream, a last
record `r2` with the read name of the record `r1` before it leaves IndexMap
as it was after `r1`, and IndexMap after the stream is the same for every
two last records with these read names, whether they form a qualifying pair
or not.  A source of exactly two records leaves IndexMap unchanged. -/
theorem pending_pair_never_counted (P : ArcsParams) (lines : List SamLine) (imap : IndexMap)
    (indexMultMap sMap : CountMap) (r1 r2 : SamRecord) (h : r2.readName = r1.readName) :
    (∀ (s : ReadState) (r : SamRecord), r.readName = s.prevRN → (readRecord P s r).imap = s.imap)
    ∧ (readBAM P (lines ++ [SamLine.record r1, SamLine.record r2]) imap indexMultMap sMap).imap
        = (readBAM P (lines ++ [SamLine.record r1]) imap indexMultMap sMap).imap
    ∧ (∀ q1 q2 : SamRecord, q1.readName = r1.readName → q2.readName = r1.readName →
        (readBAM P (lines ++ [SamLine.record q1, SamLine.record q2]) imap indexMultMap sMap).imap
          = (readBAM P (lines ++ [SamLine.record r1, SamLine.record r2]) imap indexMultMap
              sMap).imap)
    ∧ (∀ a b : SamRecord,
        (readBAM P [SamLine.record a, SamLine.record b] imap indexMultMap sMap).imap = imap) := by
  have hD : ∀ (s : ReadState) (r : SamRecord), r.readName = s.prevRN →
      (readRecord P s r).imap = s.imap := fun s r hr => readRecord_imap_same_name P s r hr
  have hsplit : ∀ a b : SamRecord, ∀ ls : List SamLine,
      readBAM P (ls ++ [SamLine.record a, SamLine.record b]) imap indexMultMap sMap
        = readRecord P (readRecord P (readBAM P ls imap indexMultMap sMap) a) b := by
    intro a b ls
    have e : ls ++ [SamLine.record a, SamLine.record b]
        = (ls ++ [SamLine.record a]) ++ [SamLine.record b] := by simp
    rw [e, readBAM_snoc, readBAM_snoc]
  have hA : ∀ a b : SamRecord, ∀ ls : List SamLine, b.readName = a.readName →
      (readBAM P (ls ++ [SamLine.record a, SamLine.record b]) imap indexMultMap sMap).imap
        = (readBAM P (ls ++ [SamLine.record a]) imap indexMultMap sMap).imap := by
    intro a b ls hab
    rw [hsplit, readBAM_snoc]
    apply hD
    rw [(readRecord_inv P _ a (readBAM_inv P ls imap indexMultMap sMap).1).2.2]
    exact hab
  have hB : ∀ a b : SamRecord, b.readName = a.readName →
      (readBAM P (lines ++ [SamLine.record b]) imap indexMultMap sMap).imap
        = (readBAM P (lines ++ [SamLine.record a]) imap indexMultMap sMap).imap := by
    intro a b hab
    rw [readBAM_snoc, readBAM_snoc, readRecord_imap_eq, readRecord_imap_eq,
      recordHit_congr P _ a b hab]
  refine ⟨hD, hA r1 r2 lines h, ?_, ?_⟩
  · intro q1 q2 h1 h2
    rw [hA q1 q2 lines (h2.trans h1.symm), hA r1 r2 lines h]
    exact hB r1 q1 h1
  · intro a b
    have e : [SamLine.record a, SamLine.record b]
        = ([] : List SamLine) ++ [SamLine.record a, SamLine.record b] := rfl
    rw [e, hsplit]
    have h0 : readBAM P [] imap indexMultMap sMap = initState imap indexMultMap sMap := rfl
    rw [h0, readRecord_imap_eq]
    have hct1 : (1 : Int) ≤ (initState imap indexMultMap sMap).ct := by
      show (1 : Int) ≤ 1
      decide
    have hready : readyToAdd (readRecord P (initState imap indexMultMap sMap) a) = false := by
      by_cases hn : a.readName = (initState imap indexMultMap sMap).prevRN
      · obtain ⟨_, _, _, g4, _⟩ :=
          readRecord_repeat_fields P (initState imap indexMultMap sMap) a (Or.inl rfl) hn
        unfold readyToAdd
        rw [g4]
        rfl
      · rw [readRecord_new_name_eq P _ a hct1 hn]
        exact readyToAdd_flush P _
    have hhit : recordHit P (readRecord P (initState imap indexMultMap sMap) a) b = none := by
      unfold recordHit
      split
      · exact pendingHit_of_not_ready P _ hready
      · rfl
    rw [hhit]
    show (readRecord P (initState imap indexMultMap sMap) a).imap = imap
    rw [readRecord_imap_eq]
    have hhit0 : recordHit P (initState imap indexMultMap sMap) a = none := by
      unfold recordHit
      split
      · exact pendingHit_of_not_ready P _ rfl
      · rfl
    rw [hhit0]
    rfl

theorem pending_pair_never_counted_witness :
    mateD.readName = mateC.readName
    ∧ readyToAdd (readBAM sampleParams (pairOnS9 ++ [SamLine.record mateC, SamLine.record mateD])
        [] [] [("S1", 1000), ("S9", 1000)]) = true
    ∧ (readBAM sampleParams (pairOnS9 ++ [SamLine.record mateC, SamLine.record mateD]) [] []
        [("S1", 1000), ("S9", 1000)]).imap
        = (readBAM sampleParams (pairOnS9 ++ [SamLine.record mateC]) [] []
            [("S1", 1000), ("S9", 1000)]).imap
    ∧ acceptPair sampleParams (holdingA sampleParams) mateB = true
    ∧ (readBAM sampleParams [SamLine.record mateA, SamLine.record mateB] [] []
        [("S1", 1000)]).imap = [] :=
  ⟨by decide, by decide,
    (pending_pair_never_counted sampleParams pairOnS9 [] [] [("S1", 1000), ("S9", 1000)]
      mateC mateD (by decide)).2.1,
    by decide,
    (pending_pair_never_counted sampleParams [] [] [] [("S1", 1000)]
      mateA mateB (by decide)).2.2.2 mateA mateB⟩

theorem countIndex_held (s : ReadState) (index n ref : String) (si flag mapq pos : Int) :
    countIndex { s with prevRN := n, prevSI := si, prevFlag := flag, prevMapq := mapq,
                        prevRef := ref, prevPos := pos } index
      = { countIndex s index with prevRN := n, prevSI := si, prevFlag := flag, prevMapq := mapq,
                                  prevRef := ref, prevPos := pos } := by
  unfold countIndex
  split <;> rfl

theorem readRecord_unpaired (P : ArcsParams) (s : ReadState) (r : SamRecord)
    (hct : s.ct = 2) (hready : readyToAdd s = false) (hnew : r.readName ≠ s.prevRN) :
    readRecord P s r
      = { countIndex s (indexOf r.readName) with
            countUnpaired := s.countUnpaired + 1, ct := 2, prevRN := r.readName,
            prevSI := r.si, prevFlag := r.flag, prevMapq := r.mapq, prevRef := r.scafName,
            prevPos := r.pos } := by
  have h1 : (1 : Int) ≤ s.ct := by omega
  rw [readRecord_new_name_eq P s r h1 hnew, if_pos hct]
  have hc := countIndex_eq s (indexOf r.readName)
  generalize countIndex s (indexOf r.readName) = c at hc ⊢
  have e1 : c.readyToAddIndex = s.readyToAddIndex := by rw [hc]
  have e2 : c.readyToAddRefName = s.readyToAddRefName := by rw [hc]
  have e3 : c.readyToAddPos = s.readyToAddPos := by rw [hc]
  have hr : readyToAdd
      { c with countUnpaired := s.countUnpaired + 1, ct := 1, prevRN := r.readName,
               prevSI := r.si, prevFlag := r.flag, prevMapq := r.mapq, prevRef := r.scafName,
               prevPos := r.pos } = false := by
    unfold readyToAdd at hready ⊢
    show (c.readyToAddIndex != "" && c.readyToAddRefName != "" && c.readyToAddRefName != "*"
      && c.readyToAddPos != -1) = false
    rw [e1, e2, e3]
    exact hready
  rw [flush_eq_of_not_ready P _ hr]

/-- C21: unpaired-read step.  Let `s` be a state that `readBAM` reaches on a
record stream and in which it holds a first mate (`ct == 2`), and let `R` be
a next record whose read name differs from the held one.  Processing `R`
leaves IndexMap unchanged and counts one unpaired read; `R` becomes the held
first mate (`ct == 2`, and the tracked name, identity, flag, mapping quality,
scaffold and position are those of `R`); the state after `R` is the same
whatever the name, identity, flag, mapping quality, scaffold and position of
the skipped first mate were, so that mate is paired neither with `R` nor
with a later record; and a following record `R2` with the read name of `R`
is evaluated as the second mate of `R`: the pair is marked ready to add,
with the position `(pos of R + pos of R2) / 2` computed in 32-bit `int`
arithmetic, exactly when the two records `R` and `R2` qualify, and IndexMap
is still unchanged. -/
theorem unpaired_read_step (P : ArcsParams) (lines : List SamLine) (imap : IndexMap)
    (indexMultMap sMap : CountMap) (s : ReadState) (R R2 : SamRecord)
    (hs : s = readBAM P lines imap indexMultMap sMap)
    (hct : s.ct = 2) (hR : R.readName ≠ s.prevRN) (h2 : R2.readName = R.readName) :
    (readRecord P s R).imap = s.imap
    ∧ (readRecord P s R).countUnpaired = s.countUnpaired + 1
    ∧ (readRecord P s R).ct = 2
    ∧ (readRecord P s R).prevRN = R.readName
    ∧ (readRecord P s R).prevSI = R.si
    ∧ (readRecord P s R).prevFlag = R.flag
    ∧ (readRecord P s R).prevMapq = R.mapq
    ∧ (readRecord P s R).prevRef = R.scafName
    ∧ (readRecord P s R).prevPos = R.pos
    ∧ (∀ (n ref : String) (si flag mapq pos : Int), R.readName ≠ n →
        readRecord P { s with prevRN := n, prevSI := si, prevFlag := flag, prevMapq := mapq,
                              prevRef := ref, prevPos := pos } R = readRecord P s R)
    ∧ readRecord P (readRecord P s R) R2
        = (if (R2.seq != "" && checkFlag R2.flag && checkFlag R.flag
                && R2.mapq != 0 && R.mapq != 0 && decide (P.seq_id ≤ R2.si)
                && decide (P.seq_id ≤ R.si))
              && (R.scafName == R2.scafName && R2.scafName != "*" && R2.scafName != ""
                && indexOf R2.readName != "") then
            { countIndex (readRecord P s R) (indexOf R2.readName) with
                readyToAddIndex := indexOf R2.readName, readyToAddRefName := R2.scafName,
                readyToAddPos := Int.tdiv (wrapInt (R.pos + R2.pos)) 2, ct := 3 }
          else { countIndex (readRecord P s R) (indexOf R2.readName) with ct := 3 })
    ∧ (readRecord P (readRecord P s R) R2).imap = s.imap := by
  have hready : readyToAdd s = false := by
    have hinv := (readBAM_inv P lines imap indexMultMap sMap).2
    rw [← hs] at hinv
    exact hinv hct
  have hs1 := readRecord_unpaired P s R hct hready hR
  have hc := countIndex_eq s (indexOf R.readName)
  have himap : (readRecord P s R).imap = s.imap := by
    rw [hs1]
    show (countIndex s (indexOf R.readName)).imap = s.imap
    rw [hc]
  have hname : R2.readName = (readRecord P s R).prevRN := by
    rw [hs1]
    exact h2
  have hct1 : (readRecord P s R).ct = 2 := by rw [hs1]
  refine ⟨himap, by rw [hs1], hct1, by rw [hs1], by rw [hs1], by rw [hs1], by rw [hs1],
    by rw [hs1], by rw [hs1], ?_, ?_, ?_⟩
  · intro n ref si flag mapq pos hn
    have hready2 : readyToAdd
        ({ s with prevRN := n, prevSI := si, prevFlag := flag, prevMapq := mapq,
                  prevRef := ref, prevPos := pos } : ReadState) = false := hready
    have key := readRecord_unpaired P
      ({ s with prevRN := n, prevSI := si, prevFlag := flag, prevMapq := mapq,
                prevRef := ref, prevPos := pos } : ReadState) R hct hready2 hn
    rw [key, hs1, countIndex_held]
  · have ha : acceptPair P (readRecord P s R) R2
        = ((R2.seq != "" && checkFlag R2.flag && checkFlag R.flag
            && R2.mapq != 0 && R.mapq != 0 && decide (P.seq_id ≤ R2.si)
            && decide (P.seq_id ≤ R.si))
          && (R.scafName == R2.scafName && R2.scafName != "*" && R2.scafName != ""
            && indexOf R2.readName != "")) := by
      rw [hs1]
      rfl
    have hpos : (readRecord P s R).prevPos = R.pos := by rw [hs1]
    rw [readRecord_second_mate P (readRecord P s R) R2 hct1 hname, ha, hpos]
  · rw [readRecord_imap_same_name P (readRecord P s R) R2 hname]
    exact himap

theorem unpaired_read_step_witness :
    (holdingA sampleParams).ct = 2
    ∧ mateC.readName ≠ (holdingA sampleParams).prevRN
    ∧ mateD.readName = mateC.readName
    ∧ (readRecord sampleParams (holdingA sampleParams) mateC).imap = (holdingA sampleParams).imap
    ∧ (readRecord sampleParams (holdingA sampleParams) mateC).prevRN = "r2_ACGT"
    ∧ (readRecord sampleParams (readRecord sampleParams (holdingA sampleParams) mateC)
        mateD).readyToAddPos = 200 :=
  ⟨by decide, by decide, by decide,
    (unpaired_read_step sampleParams [SamLine.record mateA] [] [] [("S1", 1000)]
      (holdingA sampleParams) mateC mateD rfl (by decide) (by decide) (by decide)).1,
    by decide, by decide⟩

/-! ## Paired-record linker: the mean position in 32-bit arithmetic -/

/-- C18 (the code at the failing input): two accepted mates at position
1500000000 of a scaffold of length 2000000000 (`min_size = 500`,
`end_length = 0`, so the cut-off is 1000000000).  The averaged position is
1500000000, which is above the cut-off and above `size - cutOff`, so the
(scaffold, Tail) count should increase by 1.  In `readBAM` the sum
`prevPos + pos` does not fit in a 32-bit `int` and wraps to -1294967296, the
pending position is -647483648, and the flush increases the (scaffold, Head)
count instead: the Tail count stays 0. -/
theorem flushed_pair_mean_overflows :
    acceptPair sampleParams
        (readBAM sampleParams [SamLine.record mateFarA] [] [] [("S1", 2000000000)]) mateFarB = true
    ∧ Int.tdiv (mateFarA.pos + mateFarB.pos) 2 = 1500000000
    ∧ cutOffOf sampleParams 2000000000 = 1000000000
    ∧ ¬ (1500000000 : Int) ≤ 1000000000
    ∧ (2000000000 : Int) - 1000000000 < 1500000000
    ∧ wrapInt (mateFarA.pos + mateFarB.pos) = -1294967296
    ∧ (readBAM sampleParams [SamLine.record mateFarA, SamLine.record mateFarB] [] []
        [("S1", 2000000000)]).readyToAddPos = -647483648
    ∧ (readBAM sampleParams
        [SamLine.record mateFarA, SamLine.record mateFarB, SamLine.record mateC] [] []
        [("S1", 2000000000)]).imap = [("ACGT", [(("S1", false), 0), (("S1", true), 1)])]
    ∧ countOf (readBAM sampleParams
        [SamLine.record mateFarA, SamLine.record mateFarB, SamLine.record mateC] [] []
        [("S1", 2000000000)]).imap "ACGT" ("S1", true) = 1
    ∧ countOf (readBAM sampleParams
        [SamLine.record mateFarA, SamLine.record mateFarB, SamLine.record mateC] [] []
        [("S1", 2000000000)]).imap "ACGT" ("S1", false) = 0 := by decide

/-! ## Sequence identity: the aligned query length -/

theorem checkChar_iff (c : Char) :
    checkChar c = true ↔ (c = 'M' ∨ c = '=' ∨ c = 'X' ∨ c = 'I') := by
  simp [checkChar, or_assoc]

theorem digits_fold (ds : List Char) (st : CigarState) (hf : st.failed = false)
    (hd : ∀ c ∈ ds, isdigit c = true) :
    ds.foldl cigarStep st = { st with digits := st.digits ++ ds } := by
  induction ds generalizing st with
  | nil => simp
  | cons c cs ih =>
    have hc : isdigit c = true := hd c (List.mem_cons_self _ _)
    have hstep : cigarStep st c = { st with digits := st.digits ++ [c] } := by
      simp [cigarStep, hc, hf]
    rw [List.foldl_cons, hstep]
    rw [ih { st with digits := st.digits ++ [c] } hf
      (fun x hx => hd x (List.mem_cons_of_mem _ hx))]
    simp

theorem run_fold (r : CigarRun) (q : Int) (hwf : WellFormedRun r)
    (hfit : checkChar r.2 = true → decimal r.1 ≤ 2147483647) :
    (r.1 ++ [r.2]).foldl cigarStep { digits := [], failed := false, qalen := q }
      = { digits := [], failed := false,
          qalen := if checkChar r.2 = true then wrapInt (q + (decimal r.1 : Int)) else q } := by
  obtain ⟨hne, hd, hop⟩ := hwf
  rw [List.foldl_append, digits_fold r.1 _ rfl hd]
  simp only [List.foldl_cons, List.foldl_nil, List.nil_append]
  by_cases hc : checkChar r.2 = true
  · have hle : ¬ 2147483647 < decimal r.1 := by
      have := hfit hc
      omega
    have hemp : r.1.isEmpty = false := by
      cases h : r.1 with
      | nil => exact absurd h hne
      | cons a l => rfl
    simp [cigarStep, hop, hc, readValue, hemp, hle]
  · simp [cigarStep, hop, hc]

theorem runs_fold (runs : List CigarRun) (q : Nat) (hwf : ∀ r ∈ runs, WellFormedRun r)
    (hfit : q + qalenSpec runs ≤ 2147483647) :
    (runs.foldr (fun r acc => r.1 ++ r.2 :: acc) []).foldl cigarStep
        { digits := [], failed := false, qalen := (q : Int) }
      = { digits := [], failed := false, qalen := ((q + qalenSpec runs : Nat) : Int) } := by
  induction runs generalizing q with
  | nil => simp [qalenSpec]
  | cons r rs ih =>
    have hsplit : qalenSpec (r :: rs)
        = (if r.2 = 'M' ∨ r.2 = '=' ∨ r.2 = 'X' ∨ r.2 = 'I' then decimal r.1 else 0)
          + qalenSpec rs := by
      simp [qalenSpec]
    have hr := hwf r (List.mem_cons_self _ _)
    have e : (List.foldr (fun r acc => r.1 ++ r.2 :: acc) [] (r :: rs))
        = (r.1 ++ [r.2]) ++ List.foldr (fun r acc => r.1 ++ r.2 :: acc) [] rs := by
      simp
    rw [e, List.foldl_append]
    by_cases hc : checkChar r.2 = true
    · have hop := (checkChar_iff r.2).1 hc
      rw [hsplit, if_pos hop] at hfit
      rw [run_fold r q hr (fun _ => by omega), if_pos hc]
      have hw : wrapInt ((q : Int) + (decimal r.1 : Int)) = ((q + decimal r.1 : Nat) : Int) := by
        rw [wrapInt_eq_self _ (by omega) (by omega)]
        push_cast
        rfl
      rw [hw, ih (q + decimal r.1) (fun x hx => hwf x (List.mem_cons_of_mem _ hx)) (by omega)]
      rw [hsplit, if_pos hop, Nat.add_assoc]
    · have hop : ¬ (r.2 = 'M' ∨ r.2 = '=' ∨ r.2 = 'X' ∨ r.2 = 'I') :=
        fun h => hc ((checkChar_iff r.2).2 h)
      rw [hsplit, if_neg hop] at hfit
      rw [run_fold r q hr (fun h => absurd h hc), if_neg hc]
      rw [ih q (fun x hx => hwf x (List.mem_cons_of_mem _ hx)) (by omega)]
      rw [hsplit, if_neg hop, Nat.zero_add]

theorem qalenOf_renderCigar (runs : List CigarRun) (hwf : ∀ r ∈ runs, WellFormedRun r)
    (hfit : qalenSpec runs ≤ 2147483647) :
    qalenOf (renderCigar runs) = (qalenSpec runs : Int) := by
  unfold qalenOf renderCigar
  have h := runs_fold runs 0 hwf (by omega)
  simp only [Nat.cast_zero, Nat.zero_add] at h
  show (List.foldl cigarStep _ (List.foldr (fun r acc => r.1 ++ r.2 :: acc) [] runs)).qalen = _
  rw [h]

/-! ## Sequence identity: the edit distance -/

theorem afterFirst_none (tag l : List Char)
    (h : ∀ pre post : List Char, l ≠ pre ++ tag ++ post) : afterFirst tag l = none := by
  induction l with
  | nil => rfl
  | cons c cs ih =>
    unfold afterFirst
    have hp : tag.isPrefixOf (c :: cs) = false := by
      cases hb : tag.isPrefixOf (c :: cs) with
      | false => rfl
      | true =>
        obtain ⟨t, ht⟩ := List.isPrefixOf_iff_prefix.1 hb
        exact absurd (by simpa using ht.symm) (h [] t)
    rw [hp]
    apply ih
    intro pre post hcs
    apply h (c :: pre) post
    rw [hcs]
    simp

theorem afterFirst_first (tag pre tail : List Char) (htag : tag ≠ [])
    (h : ∀ p q : List Char, pre ++ tag ++ tail = p ++ tag ++ q → pre.length ≤ p.length) :
    afterFirst tag (pre ++ tag ++ tail) = some tail := by
  induction pre with
  | nil =>
    cases tag with
    | nil => exact absurd rfl htag
    | cons a t =>
      have hp : (a :: t).isPrefixOf (a :: (t ++ tail)) = true :=
        List.isPrefixOf_iff_prefix.2 ⟨tail, by simp⟩
      show afterFirst (a :: t) (a :: (t ++ tail)) = some tail
      unfold afterFirst
      rw [hp]
      simp
  | cons c cs ih =>
    have hp : tag.isPrefixOf (c :: (cs ++ tag ++ tail)) = false := by
      cases hb : tag.isPrefixOf (c :: (cs ++ tag ++ tail)) with
      | false => rfl
      | true =>
        obtain ⟨t, ht⟩ := List.isPrefixOf_iff_prefix.1 hb
        have := h [] t (by simpa using ht.symm)
        simp at this
    show afterFirst tag (c :: (cs ++ tag ++ tail)) = some tail
    unfold afterFirst
    rw [hp]
    apply ih
    intro p q hpq
    have := h (c :: p) q (by simp [hpq])
    simpa using this

theorem isspace_of_isdigit (c : Char) (h : isdigit c = true) : isspace c = false := by
  unfold isdigit at h
  unfold isspace
  simp only [Bool.and_eq_true, decide_eq_true_eq] at h
  have h1 : (c.toNat == 32) = false := by
    simp only [beq_eq_false_iff_ne, ne_eq]
    omega
  have h2 : (decide (9 ≤ c.toNat) && decide (c.toNat ≤ 13)) = false := by
    simp only [Bool.and_eq_false_iff, decide_eq_false_iff_not]
    omega
  rw [h1, h2]
  rfl

theorem strtol_digits (ds rest : List Char) (hne : ds ≠ [])
    (hd : ∀ c ∈ ds, isdigit c = true) (hrest : ∀ c, rest.head? = some c → isdigit c = false)
    (hfit : decimal ds ≤ 9223372036854775807) :
    strtol (ds ++ rest) = (decimal ds : Int) := by
  cases ds with
  | nil => exact absurd rfl hne
  | cons a t =>
    have ha : isdigit a = true := hd a (List.mem_cons_self _ _)
    have h1 : ((a :: t) ++ rest).dropWhile isspace = (a :: t) ++ rest := by
      simp [List.dropWhile, isspace_of_isdigit a ha]
    have hm : ¬ a = '-' := by
      intro h
      rw [h] at ha
      exact absurd ha (by decide)
    have hp : ¬ a = '+' := by
      intro h
      rw [h] at ha
      exact absurd ha (by decide)
    have h2 : (((a :: t) ++ rest).takeWhile isdigit) = a :: t := by
      have : ∀ l : List Char, (∀ c ∈ l, isdigit c = true) →
          (l ++ rest).takeWhile isdigit = l := by
        intro l hl
        induction l with
        | nil =>
          cases rest with
          | nil => rfl
          | cons b u =>
            have := hrest b rfl
            simp [List.takeWhile, this]
        | cons b u ih =>
          have hb := hl b (List.mem_cons_self _ _)
          rw [List.cons_append, List.takeWhile_cons, hb, if_pos rfl,
            ih (fun c hc => hl c (List.mem_cons_of_mem _ hc))]
      exact this (a :: t) hd
    unfold strtol
    simp only [h1]
    simp only [List.cons_append, List.head?_cons, Option.some_beq_some, beq_iff_eq, hm, hp,
      Bool.or_self, Bool.false_eq_true, if_false, decide_False]
    have hs : (a == '-' || a == '+') = false := by simp [hm, hp]
    have h2b : List.takeWhile isdigit (a :: (t ++ rest)) = a :: t := h2
    rw [hs, if_neg Bool.false_ne_true, h2b]
    have hle : ((decimal (a :: t) : Nat) : Int) ≤ 9223372036854775807 := by omega
    rw [min_eq_left hle, max_eq_right (by omega)]

theorem editDistOf_eq (line : String) (e : Nat) (he : EditDistance line e)
    (hfit : e ≤ 2147483647) : editDistOf line = (e : Int) := by
  unfold editDistOf
  rcases he with ⟨h0, hno⟩ | ⟨pre, ds, rest, hl, hfirst, hne, hd, hrest, hdec⟩
  · rw [afterFirst_none _ _ hno, h0]
    rfl
  · have hf : afterFirst "NM:i:".data line.data = some (ds ++ rest) := by
      rw [hl]
      apply afterFirst_first _ pre (ds ++ rest) (by decide)
      rw [← hl]
      exact hfirst
    rw [hf]
    show wrapInt (strtol (ds ++ rest)) = (e : Int)
    rw [strtol_digits ds rest hne hd hrest (by omega),
      wrapInt_eq_self _ (by omega) (by omega), hdec]

theorem first_of_check (tag l : List Char) (k : Nat)
    (h : ∀ n < k, tag.isPrefixOf (l.drop n) = false) :
    ∀ p q : List Char, l = p ++ tag ++ q → k ≤ p.length := by
  intro p q hl
  by_contra hlt
  have h1 := h p.length (by omega)
  have h2 : l.drop p.length = tag ++ q := by
    rw [hl, List.append_assoc, List.drop_left]
  have h3 : tag.isPrefixOf (tag ++ q) = true := List.isPrefixOf_iff_prefix.2 ⟨q, rfl⟩
  rw [h2, h3] at h1
  exact absurd h1 (by decide)

/-! ## Sequence identity: the value returned -/

/-- C16 (as amended): for every CIGAR string made of well-formed runs, every
line and every read sequence, when the sum `qalen` of the lengths of the runs
whose operation is `M`, `=`, `X` or `I` and the edit distance `e` (the
decimal integer after the first `NM:i:` of the line, 0 when the line has
none) fit in a 32-bit `int`, the loop of `calcSequenceIdentity` computes
exactly `qalen`, the annotation is read as exactly `e`, and the function
returns the `double` 0 when `qalen == 0` and otherwise the `double` obtained
by converting `qalen - e`, dividing it by the length of the sequence and
multiplying the quotient by 100, each with the rounding of `double`. -/
theorem calcSequenceIdentity_spec {δ : Type} (F : DoubleOps δ) (line seq : String)
    (runs : List CigarRun) (e : Nat) (hwf : ∀ r ∈ runs, WellFormedRun r)
    (hq : qalenSpec runs ≤ 2147483647) (he : EditDistance line e) (hfit : e ≤ 2147483647) :
    qalenOf (renderCigar runs) = (qalenSpec runs : Int)
    ∧ editDistOf line = (e : Int)
    ∧ calcSequenceIdentity F line (renderCigar runs) seq
        = if qalenSpec runs = 0 then F.ofInt 0
          else F.mul (F.div (F.ofInt ((qalenSpec runs : Int) - (e : Int))) (F.ofNat seq.length))
            (F.ofInt 100) := by
  have h1 := qalenOf_renderCigar runs hwf hq
  have h2 := editDistOf_eq line e he hfit
  refine ⟨h1, h2, ?_⟩
  unfold calcSequenceIdentity
  simp only [h1, h2]
  by_cases h0 : qalenSpec runs = 0
  · simp [h0]
  · have h0i : ¬ ((qalenSpec runs : Nat) : Int) = 0 := by omega
    rw [if_pos h0i, if_neg h0, wrapInt_eq_self _ (by omega) (by omega)]

theorem calcSequenceIdentity_spec_witness :
    (∀ r ∈ [(['1', '0'], 'S'), (['9', '0'], 'M')], WellFormedRun r)
    ∧ qalenSpec [(['1', '0'], 'S'), (['9', '0'], 'M')] = 90
    ∧ renderCigar [(['1', '0'], 'S'), (['9', '0'], 'M')] = "10S90M"
    ∧ EditDistance lineNM71 71
    ∧ calcSequenceIdentity binary64 lineNM71 "10S90M" read100
        = binary64.mul (binary64.div (binary64.ofInt (90 - 71)) (binary64.ofNat 100))
            (binary64.ofInt 100) := by
  have hwf : ∀ r ∈ [((['1', '0'], 'S') : CigarRun), (['9', '0'], 'M')], WellFormedRun r := by
    intro r hr
    simp only [List.mem_cons, List.mem_singleton, List.not_mem_nil, or_false] at hr
    rcases hr with rfl | rfl <;> exact ⟨by decide, by decide, by decide⟩
  have hq : qalenSpec [((['1', '0'], 'S') : CigarRun), (['9', '0'], 'M')] = 90 := by decide
  have he : EditDistance lineNM71 71 := by
    refine Or.inr ⟨"r1_ACGT\t99\tS1\t100\t60\t100M\t=\t300\t400\t".data, ['7', '1'], [], by decide,
      ?_, by decide, by decide, by decide, by decide⟩
    exact first_of_check _ _ _ (by decide)
  have h := (calcSequenceIdentity_spec binary64 lineNM71 read100
    [(['1', '0'], 'S'), (['9', '0'], 'M')] 71 hwf (by rw [hq]; decide) he (by decide)).2.2
  rw [hq] at h
  exact ⟨hwf, hq, by decide, he, h⟩

/-- C16 (as stated) fails in the arithmetic of `double`: for the CIGAR string
`100M`, a line with `NM:i:71` and a read of 100 bases, `qalen` is 100, the
edit distance 71 and `100 * (qalen - editDistance) / len` is 29, but the
function divides first: 29/100 is rounded to the `double`
`5224175567749775 * 2^-54`, whose product with 100 is rounded to
`8162774324609023 * 2^-48 = 28.999999999999996`, one unit in the last place
below 29; each of the two has a 53-bit significand and is less than half a
unit in the last place from the exact value, so it is the nearest `double`.  Converted to `int`, as
`readBAM` does, the identity is 28. -/
theorem calcSequenceIdentity_not_exact :
    qalenOf "100M" = 100 ∧ editDistOf lineNM71 = 71 ∧ read100.length = 100
    ∧ calcSequenceIdentity binary64 lineNM71 "100M" read100
        = some { m := 8162774324609023, e := -48 }
    ∧ (calcSequenceIdentity binary64 lineNM71 "100M" read100).map Dbl.toRat
        ≠ some (100 * (100 - 71) / 100)
    ∧ ((2 : Int) ^ 52 < 5224175567749775 ∧ (5224175567749775 : Int) < 2 ^ 53
        ∧ (2 : Int) ^ 52 < 8162774324609023 ∧ (8162774324609023 : Int) < 2 ^ 53)
    ∧ |(29 : ℚ) / 100 - 5224175567749775 * (2 : ℚ) ^ (-54 : Int)| < (2 : ℚ) ^ (-55 : Int)
    ∧ |5224175567749775 * (2 : ℚ) ^ (-54 : Int) * 100
        - 8162774324609023 * (2 : ℚ) ^ (-48 : Int)| < (2 : ℚ) ^ (-49 : Int)
    ∧ (calcSequenceIdentity binary64 lineNM71 "100M" read100).map Dbl.toInt = some 28 := by
  have h : calcSequenceIdentity binary64 lineNM71 "100M" read100
      = some { m := 8162774324609023, e := -48 } := by
    set_option maxRecDepth 8000 in decide
  refine ⟨by decide, by decide, by decide, h, ?_, by decide, ?_, ?_, ?_⟩
  · rw [h]
    simp only [Option.map_some', ne_eq, Option.some.injEq, Dbl.toRat]
    norm_num
  · rw [abs_lt]
    constructor <;> norm_num
  · rw [abs_lt]
    constructor <;> norm_num
  · rw [h]
    decide

end ARCS
